import Mathlib

/-! slog-human: text handler, fan-out handler, transport writer

A shallow embedding of `logger.go`, `colorize.go` and `http_writer.go` of
`tmstorm/slog-human`, followed by theorems about attribute resolution, handler
derivation, the fan-out handler, the buffered transport writer and the format of
the written line.

Conventions of the embedding:

* Go `string` is `String`; widths are counted in characters, as `fmt` counts runes.
* `slog.Level` is `Int` (`LevelDebug = -4`, `LevelInfo = 0`, `LevelWarn = 4`, `LevelError = 8`).
* The mutex of `TextHandler` is left out: every function below is one call running alone.
* Process-wide variables (`Colors`, `TextTimeFormat`) and the library calls `Handle`
  makes on the record's time and program counter are collected in `Env`.
* A sink (`io.Writer`) is a transition on a world `W` chosen by the caller.
-/

set_option autoImplicit false

namespace SlogHuman

/-! ## Data model -/

/-- The `slog.Level` values are integers. -/
abbrev Level := Int

def LevelDebug : Level := -4
def LevelInfo : Level := 0
def LevelWarn : Level := 4
def LevelError : Level := 8

/-- An `error` value, carried as its message. -/
abbrev Error := String

/-- A `slog.Value`: a string, an integer, a duration, or any other kind.
A duration is carried as the text `time.Duration.String` gives for it, a value
of another kind as the text `slog.Value.String` gives for it. -/
inductive Value where
  | str (s : String)
  | int (n : Int)
  | dur (text : String)
  | any (text : String)
  deriving DecidableEq, Repr

/-- The method `slog.Value.String`. -/
def Value.text : Value → String
  | .str s => s
  | .int n => toString n
  | .dur t => t
  | .any t => t

/-- A `slog.Attr`. -/
structure Attr where
  Key : String
  Value : SlogHuman.Value
  deriving DecidableEq, Repr

/-- A `slog.Record`: `Time` is the instant in nanoseconds, `PC` the program counter
(0 when no source location was captured), `attrs` the attributes in the order
`Record.Attrs` visits them. -/
structure Record where
  Time : Int
  Message : String
  Level : Level
  PC : Nat
  attrs : List Attr
  deriving DecidableEq, Repr

/-- An `io.Writer` acting on a world `W`: `Write p` returns the byte count and the
error of the call together with the new world. -/
structure Writer (W : Type) where
  Write : String → W → (Nat × Option Error) × W

/-- The struct `TextHandler` (without its mutex). -/
structure TextHandler (W : Type) where
  out : Writer W
  level : Level
  addSource : Bool
  attrs : List Attr
  group : String
  noColor : Bool

/-! ## Attribute resolution in `TextHandler.Handle` -/

/-- The local variables of `TextHandler.Handle` that the two attribute loops fill. -/
structure Slots where
  logType : String := ""
  method : String := ""
  path : String := ""
  status : String := ""
  remote : String := ""
  duration : String := ""
  requestID : String := ""
  bytes : String := ""
  fields : List String := []
  seen : List String := []
  deriving DecidableEq, Repr

/-- The text of `fmt.Sprintf("%s=%v", attr.Key, attr.Value)`. -/
def fieldText (attr : Attr) : String :=
  attr.Key ++ "=" ++ attr.Value.text

/-- The text stored for a `duration` attr: `d.String()` when the value holds a
`time.Duration`, `attr.Value.String()` otherwise. -/
def durationText (v : Value) : String :=
  match v with
  | .dur t => t
  | v => v.text

/-- The cases of the statement `switch attr.Key` in `TextHandler.Handle`. -/
inductive KeyCase where
  | logType
  | method
  | path
  | status
  | duration
  | remote
  | requestID
  | bytes
  | other
  deriving DecidableEq, Repr

/-- The case of `switch attr.Key` that a key selects. -/
def keyCase (k : String) : KeyCase :=
  if k = "log_type" then .logType
  else if k = "method" then .method
  else if k = "path" then .path
  else if k = "status" then .status
  else if k = "duration" then .duration
  else if k = "remote" then .remote
  else if k = "request_id" then .requestID
  else if k = "bytes" then .bytes
  else .other

/-- One iteration of the callback passed to `r.Attrs` (logger.go 162-189). -/
def recordStep (s : Slots) (attr : Attr) : Slots :=
  match keyCase attr.Key with
  | .logType => { s with logType := attr.Value.text }
  | .method => { s with method := attr.Value.text }
  | .path => { s with path := attr.Value.text }
  | .status => { s with status := attr.Value.text }
  | .duration => { s with duration := durationText attr.Value }
  | .remote => { s with remote := attr.Value.text }
  | .requestID => { s with requestID := attr.Value.text }
  | .bytes => { s with bytes := attr.Value.text }
  | .other => { s with fields := s.fields ++ [fieldText attr], seen := attr.Key :: s.seen }

/-- One iteration of the loop over `h.attrs` (logger.go 192-235). -/
def handlerStep (s : Slots) (attr : Attr) : Slots :=
  match keyCase attr.Key with
  | .logType => if s.logType = "" then { s with logType := attr.Value.text } else s
  | .method => if s.method = "" then { s with method := attr.Value.text } else s
  | .path => if s.path = "" then { s with path := attr.Value.text } else s
  | .status => if s.status = "" then { s with status := attr.Value.text } else s
  | .duration => if s.duration = "" then { s with duration := durationText attr.Value } else s
  | .remote => if s.remote = "" then { s with remote := attr.Value.text } else s
  | .requestID => if s.requestID = "" then { s with requestID := attr.Value.text } else s
  | .bytes => if s.bytes = "" then { s with bytes := attr.Value.text } else s
  | .other =>
    if attr.Key ∈ s.seen then s else { s with fields := s.fields ++ [fieldText attr] }

/-- The state after the loop over the record's attrs. -/
def scanRecord (attrs : List Attr) : Slots :=
  attrs.foldl recordStep {}

/-- The state after both loops: record attrs first, then the handler's bound attrs. -/
def resolve (bound : List Attr) (r : Record) : Slots :=
  bound.foldl handlerStep (scanRecord r.attrs)

/-- The recognized keys: the keys with a case of their own in the `switch`. -/
def recognized (k : String) : Bool :=
  decide (keyCase k ≠ .other)

/-- The local variable a case of the `switch` assigns (none for the default case). -/
def Slots.slot (s : Slots) : KeyCase → String
  | .logType => s.logType
  | .method => s.method
  | .path => s.path
  | .status => s.status
  | .duration => s.duration
  | .remote => s.remote
  | .requestID => s.requestID
  | .bytes => s.bytes
  | .other => ""

/-- The text a recognized-key case stores for a value. -/
def slotText (c : KeyCase) (v : Value) : String :=
  match c with
  | .duration => durationText v
  | _ => v.text

/-! ## colorize.go -/

/-- The struct `ColorPalette`. -/
structure ColorPalette where
  MethodGET : String
  MethodPOST : String
  MethodPUT : String
  MethodDELETE : String
  MethodPATCH : String
  MethodOPTIONS : String
  MethodHEAD : String
  MethodTRACE : String
  MethodCONNECT : String
  Status2xx : String
  Status3xx : String
  Status4xx : String
  Status5xx : String
  LevelDEBUG : String
  LevelINFO : String
  LevelWARN : String
  LevelERROR : String
  RequestID : String
  Path : String
  Line : String
  LogType : String
  Message : String
  Reset : String
  deriving DecidableEq, Repr

/-- The preset `Dracula`, the initial value of the variable `Colors`. -/
def Dracula : ColorPalette where
  MethodGET := "\x1b[38;5;84m"
  MethodPOST := "\x1b[38;5;159m"
  MethodPUT := "\x1b[38;5;222m"
  MethodDELETE := "\x1b[38;5;203m"
  MethodPATCH := "\x1b[38;5;222m"
  MethodHEAD := "\x1b[38;5;84m"
  MethodOPTIONS := "\x1b[38;5;141m"
  MethodTRACE := "\x1b[38;5;248m"
  MethodCONNECT := "\x1b[38;5;248m"
  Status2xx := "\x1b[38;5;84m"
  Status3xx := "\x1b[38;5;159m"
  Status4xx := "\x1b[38;5;222m"
  Status5xx := "\x1b[38;5;203m"
  LevelDEBUG := "\x1b[38;5;159m"
  LevelINFO := "\x1b[38;5;84m"
  LevelWARN := "\x1b[38;5;222m"
  LevelERROR := "\x1b[38;5;203m"
  RequestID := "\x1b[38;5;212m"
  Path := "\x1b[38;5;159m"
  Line := "\x1b[38;5;159m"
  LogType := "\x1b[38;5;141m"
  Message := "\x1b[38;5;141m"
  Reset := "\x1b[0m"

/-- The enumeration `ColorType`. -/
inductive ColorType where
  | ColorNone
  | ColorMethod
  | ColorStatus
  | ColorLevel
  | ColorRequestID
  | ColorPath
  | ColorLine
  | ColorLogType
  | ColorMessage
  deriving DecidableEq, Repr

/-- The predicate `unicode.IsSpace`. -/
def isSpace (c : Char) : Bool :=
  let n := c.toNat
  n = 0x09 || n = 0x0A || n = 0x0B || n = 0x0C || n = 0x0D || n = 0x20 ||
  n = 0x85 || n = 0xA0 || n = 0x1680 || (0x2000 ≤ n && n ≤ 0x200A) ||
  n = 0x2028 || n = 0x2029 || n = 0x202F || n = 0x205F || n = 0x3000

/-- The function `strings.TrimSpace`. -/
def TrimSpace (s : String) : String :=
  String.mk ((s.data.dropWhile isSpace).reverse.dropWhile isSpace).reverse

/-- The function `strings.HasPrefix`. -/
def HasPrefix (s p : String) : Bool :=
  p.data.isPrefixOf s.data

/-- The method `colorize` of `TextHandler`, given the palette in `Colors` and the
handler's `noColor` flag. -/
def colorize (Colors : ColorPalette) (noColor : Bool) (value : String) (t : ColorType) : String :=
  if noColor then value
  else if value = "" then value
  else
    match t with
    | .ColorMethod =>
      let m := TrimSpace value
      if m = "GET" then Colors.MethodGET ++ value ++ Colors.Reset
      else if m = "POST" then Colors.MethodPOST ++ value ++ Colors.Reset
      else if m = "PUT" then Colors.MethodPUT ++ value ++ Colors.Reset
      else if m = "DELETE" then Colors.MethodDELETE ++ value ++ Colors.Reset
      else if m = "PATCH" then Colors.MethodPATCH ++ value ++ Colors.Reset
      else if m = "HEAD" then Colors.MethodHEAD ++ value ++ Colors.Reset
      else if m = "OPTIONS" then Colors.MethodOPTIONS ++ value ++ Colors.Reset
      else if m = "CONNECT" then Colors.MethodCONNECT ++ value ++ Colors.Reset
      else if m = "TRACE" then Colors.MethodTRACE ++ value ++ Colors.Reset
      else value
    | .ColorStatus =>
      if HasPrefix value "2" then Colors.Status2xx ++ value ++ Colors.Reset
      else if HasPrefix value "3" then Colors.Status3xx ++ value ++ Colors.Reset
      else if HasPrefix value "4" then Colors.Status4xx ++ value ++ Colors.Reset
      else if HasPrefix value "5" then Colors.Status5xx ++ value ++ Colors.Reset
      else value
    | .ColorLevel =>
      let l := TrimSpace value
      if l = "DEBUG" then Colors.LevelDEBUG ++ value ++ Colors.Reset
      else if l = "INFO" then Colors.LevelINFO ++ value ++ Colors.Reset
      else if l = "WARN" then Colors.LevelWARN ++ value ++ Colors.Reset
      else if l = "ERROR" then Colors.LevelERROR ++ value ++ Colors.Reset
      else value
    | .ColorLine => Colors.Line ++ value ++ Colors.Reset
    | .ColorRequestID => Colors.RequestID ++ value ++ Colors.Reset
    | .ColorPath => Colors.Path ++ value ++ Colors.Reset
    | .ColorLogType => Colors.LogType ++ value ++ Colors.Reset
    | .ColorMessage => Colors.Message ++ value ++ Colors.Reset
    | .ColorNone => value

/-! ## Line assembly in `TextHandler.Handle` -/

/-- The verb `%-Ns`: pad with spaces on the right up to `n` characters. -/
def padRight (n : Nat) (s : String) : String :=
  s ++ String.mk (List.replicate (n - s.length) ' ')

/-- The verb `%Ns`: pad with spaces on the left up to `n` characters. -/
def padLeft (n : Nat) (s : String) : String :=
  String.mk (List.replicate (n - s.length) ' ') ++ s

/-- The verb `%+d`. -/
def signedText (v : Int) : String :=
  if 0 ≤ v then "+" ++ toString v.toNat else "-" ++ toString (-v).toNat

/-- The method `slog.Level.String`. -/
def levelString (l : Level) : String :=
  let str := fun (base : String) (val : Int) =>
    if val = 0 then base else base ++ signedText val
  if l < LevelInfo then str "DEBUG" (l - LevelDebug)
  else if l < LevelWarn then str "INFO" (l - LevelInfo)
  else if l < LevelError then str "WARN" (l - LevelWarn)
  else str "ERROR" (l - LevelError)

/-- The function `filepath.Base` for the separator `/`. -/
def Base (path : String) : String :=
  if path = "" then "."
  else
    let stripped := (path.data.reverse.dropWhile (fun c => c = '/'))
    let last := (stripped.takeWhile (fun c => c ≠ '/')).reverse
    if last = [] then "/" else String.mk last

/-- A `runtime.Frame`, as far as `Handle` reads it. -/
structure Frame where
  File : String
  Line : Nat
  deriving DecidableEq, Repr

/-- What `TextHandler.Handle` reads from outside the handler and the record:
the package variables `Colors` and `TextTimeFormat`, the method `time.Time.Format`
and the first frame `runtime.CallersFrames` yields for a program counter. -/
structure Env where
  Colors : ColorPalette
  TextTimeFormat : String
  Format : Int → String → String
  CallersFrames : Nat → Frame

/-- The source segment of the line (logger.go 250-261). -/
def sourceText (E : Env) (addSource noColor : Bool) (r : Record) : String :=
  if addSource && r.PC ≠ 0 then
    let frame := E.CallersFrames r.PC
    if frame.File ≠ "" then
      let line := colorize E.Colors noColor (padRight 3 (toString frame.Line)) .ColorLine
      " (" ++ Base frame.File ++ ":" ++ line ++ ")"
    else ""
  else ""

/-- The function `strings.Join`. -/
def Join : List String → String → String
  | [], _ => ""
  | [a], _ => a
  | a :: b :: rest, sep => a ++ sep ++ Join (b :: rest) sep

/-- The line `TextHandler.Handle` assembles from the resolved slots (logger.go 237-305). -/
def assemble (E : Env) (addSource noColor : Bool) (r : Record) (s : Slots) : String :=
  let c := colorize E.Colors noColor
  let coloredPath := c s.path .ColorPath
  let coloredStatus := c s.status .ColorStatus
  let coloredRequestID := c s.requestID .ColorRequestID
  let coloredMessage := c r.Message .ColorMessage
  let coloredLogType := c s.logType .ColorLogType
  let paddedMethod := padRight 7 s.method
  let coloredMethod := c paddedMethod .ColorMethod
  let paddedLevel := padRight 5 (levelString r.Level)
  let coloredLevel := c paddedLevel .ColorLevel
  let source := sourceText E addSource noColor r
  let reqIDPrefix := if s.requestID ≠ "" then " [" ++ coloredRequestID ++ "]" else ""
  let bytesSuffix := if s.bytes ≠ "" then s.bytes ++ "B" else s.bytes
  let bytesTime :=
    if bytesSuffix ≠ "" ∨ s.duration ≠ "" then
      " [" ++ padLeft 5 bytesSuffix ++ " " ++ padLeft 10 s.duration ++ "] "
    else ""
  let ts := E.Format r.Time E.TextTimeFormat
  let line :=
    if s.logType = "http_request" then
      let displayType := c "HTTP Request" .ColorLogType
      "[" ++ coloredLevel ++ "]" ++ reqIDPrefix ++ ts ++ ":" ++ source ++ " | " ++ displayType ++
        " | " ++ coloredStatus ++ " " ++ coloredMethod ++ " " ++ coloredPath ++ " " ++ s.remote ++
        bytesTime ++ " " ++ coloredMessage
    else
      let typePrefix := if s.logType ≠ "" then " | " ++ coloredLogType else ""
      "[" ++ coloredLevel ++ "]" ++ ts ++ ":" ++ source ++ typePrefix ++ " | " ++ coloredMessage
  let line := if s.fields.length > 0 then line ++ " " ++ Join s.fields " " else line
  line ++ "\n"

/-- The line `TextHandler.Handle` writes for a record. -/
def TextHandler.line {W : Type} (E : Env) (h : TextHandler W) (r : Record) : String :=
  assemble E h.addSource h.noColor r (resolve h.attrs r)

/-- The method `TextHandler.Enabled`. -/
def TextHandler.Enabled {W : Type} (h : TextHandler W) (level : Level) : Bool :=
  decide (level ≥ h.level)

/-- The method `TextHandler.Handle`: the line goes to the sink in one `Write`
(`fmt.Fprint`), whose result is dropped; the method returns `nil`. -/
def TextHandler.Handle {W : Type} (E : Env) (h : TextHandler W) (r : Record) (w : W) :
    Option Error × W :=
  (none, (h.out.Write (h.line E r) w).2)

/-- The method `TextHandler.WithAttrs`. -/
def TextHandler.WithAttrs {W : Type} (h : TextHandler W) (attrs : List Attr) : TextHandler W :=
  if attrs.length = 0 then h
  else
    let newH : TextHandler W :=
      { out := h.out, level := h.level, addSource := h.addSource, noColor := h.noColor,
        group := h.group, attrs := [] }
    if h.group ≠ "" then
      let prefixed := attrs.map (fun a => { Key := h.group ++ "." ++ a.Key, Value := a.Value : Attr })
      { newH with attrs := h.attrs ++ prefixed }
    else
      { newH with attrs := h.attrs ++ attrs }

/-- The method `TextHandler.WithGroup`. The composite literal names `out`, `level`,
`addSource` and `attrs`; `noColor` is not named and so takes the zero value. -/
def TextHandler.WithGroup {W : Type} (h : TextHandler W) (name : String) : TextHandler W :=
  if name = "" then h
  else
    let newH : TextHandler W :=
      { out := h.out, level := h.level, addSource := h.addSource, attrs := h.attrs,
        group := "", noColor := false }
    if h.group = "" then { newH with group := name }
    else { newH with group := h.group ++ "." ++ name }

/-! ## The fan-out handler -/

/-- The interface `slog.Handler`: the four methods, over a type `H` of handler
values and the world `W` their `Handle` acts on. `Enabled` is a query. -/
structure HandlerOps (H W : Type) where
  Enabled : H → Level → Bool
  Handle : H → Record → W → Option Error × W
  WithAttrs : H → List Attr → H
  WithGroup : H → String → H

/-- The struct `multiHandler`. -/
structure multiHandler (H : Type) where
  handlers : List H

/-- The function `setMultiHandlers`. -/
def setMultiHandlers {H : Type} (handlers : List H) : multiHandler H :=
  { handlers := handlers }

/-- The loop of `multiHandler.Enabled` over the children still to visit. -/
def enabledLoop {H W : Type} (I : HandlerOps H W) (level : Level) : List H → Bool
  | [] => false
  | h :: rest => if I.Enabled h level then true else enabledLoop I level rest

/-- The method `multiHandler.Enabled`. -/
def multiHandler.Enabled {H W : Type} (I : HandlerOps H W) (m : multiHandler H)
    (level : Level) : Bool :=
  enabledLoop I level m.handlers

/-- The loop of `multiHandler.Handle` over the children still to visit. -/
def handleLoop {H W : Type} (I : HandlerOps H W) (r : Record) : List H → W → Option Error × W
  | [], w => (none, w)
  | h :: rest, w =>
    if I.Enabled h r.Level then
      match I.Handle h r w with
      | (some err, w') => (some err, w')
      | (none, w') => handleLoop I r rest w'
    else handleLoop I r rest w

/-- The method `multiHandler.Handle`. -/
def multiHandler.Handle {H W : Type} (I : HandlerOps H W) (m : multiHandler H) (r : Record)
    (w : W) : Option Error × W :=
  handleLoop I r m.handlers w

/-- The loop `for i, h := range m.handlers { newHandlers[i] = derive h }`, from
index `i` on. A cell of `newHandlers` is `none` while it holds the nil handler
`make` put there. -/
def assignLoop {H : Type} (derive : H → H) : List H → Nat → List (Option H) → List (Option H)
  | [], _, newHandlers => newHandlers
  | h :: rest, i, newHandlers => assignLoop derive rest (i + 1) (newHandlers.set i (some (derive h)))

/-- The slice both derivation methods of `multiHandler` build: `make` with the
length of `m.handlers`, then the assignment loop. -/
def deriveAll {H : Type} (derive : H → H) (handlers : List H) : List (Option H) :=
  assignLoop derive handlers 0 (List.replicate handlers.length none)

/-- The method `multiHandler.WithAttrs`. The new fan-out holds the handlers of
the slice built by `deriveAll`; that no cell of it is left nil is
`deriveAll_eq_map`. -/
def multiHandler.WithAttrs {H W : Type} (I : HandlerOps H W) (m : multiHandler H)
    (attrs : List Attr) : multiHandler H :=
  { handlers := (deriveAll (fun h => I.WithAttrs h attrs) m.handlers).reduceOption }

/-- The method `multiHandler.WithGroup`. -/
def multiHandler.WithGroup {H W : Type} (I : HandlerOps H W) (m : multiHandler H)
    (name : String) : multiHandler H :=
  { handlers := (deriveAll (fun h => I.WithGroup h name) m.handlers).reduceOption }

/-- The text handlers as implementations of `slog.Handler`. -/
def textOps {W : Type} (E : Env) : HandlerOps (TextHandler W) W :=
  { Enabled := TextHandler.Enabled
    Handle := TextHandler.Handle E
    WithAttrs := TextHandler.WithAttrs
    WithGroup := TextHandler.WithGroup }

/-- The fan-out handlers over `H` as implementations of `slog.Handler`. -/
def multiOps {H W : Type} (I : HandlerOps H W) : HandlerOps (multiHandler H) W :=
  { Enabled := multiHandler.Enabled I
    Handle := multiHandler.Handle I
    WithAttrs := multiHandler.WithAttrs I
    WithGroup := multiHandler.WithGroup I }

/-! ## Bound attrs as Go slices

`TextHandler.attrs` is a slice: a window on a backing array that other slices may
share. The definitions above read a slice as the list of its elements. The
definitions of this section keep the backing arrays, so that the effect of
`append` on the other slices of the same array can be stated. -/

/-- A slice header: the backing array (its index in the heap), length, capacity.
The nil slice has length and capacity 0. -/
structure Slice where
  array : Nat
  len : Nat
  cap : Nat
  deriving DecidableEq, Repr

/-- The backing arrays allocated so far; each holds as many cells as its capacity. -/
abbrev Heap := List (List Attr)

/-- The zero value of `slog.Attr`: empty key, nil value. -/
def zeroAttr : Attr := ⟨"", .any "<nil>"⟩

/-- The nil slice. -/
def nilSlice : Slice := ⟨0, 0, 0⟩

/-- The elements of a slice. -/
def Slice.read (heap : Heap) (s : Slice) : List Attr :=
  (heap.getD s.array []).take s.len

/-- The loop of `runtime.nextslicecap` for capacities from 256 on: grow by
(newcap + 768) / 4 until the needed length fits. -/
def growLoop (newLen : Nat) : Nat → Nat → Nat
  | 0, newcap => newcap
  | fuel + 1, newcap =>
    let newcap := newcap + (newcap + 3 * 256) / 4
    if newcap ≥ newLen then newcap else growLoop newLen fuel newcap

/-- The function `runtime.nextslicecap` of the Go runtime: the capacity of the array
that `append` allocates when `newLen` elements do not fit in `oldCap`. (The runtime
then rounds the byte size up to an allocation class, which never lowers the capacity.) -/
def nextslicecap (newLen oldCap : Nat) : Nat :=
  let doublecap := oldCap + oldCap
  if newLen > doublecap then newLen
  else if oldCap < 256 then doublecap
  else growLoop newLen newLen oldCap

/-- Store `xs` in the cells from index `i` on. -/
def store (cells : List Attr) (i : Nat) (xs : List Attr) : List Attr :=
  cells.take i ++ xs ++ cells.drop (i + xs.length)

/-- The builtin `append(s, xs...)`. If the elements fit in the capacity of `s` they
are stored in its backing array behind the first `len` cells, and the result shares
that array. Otherwise a new array of capacity `grow newLen oldCap` is allocated and
receives the elements of `s` followed by `xs`. -/
def append (grow : Nat → Nat → Nat) (heap : Heap) (s : Slice) (xs : List Attr) :
    Heap × Slice :=
  if s.len + xs.length ≤ s.cap then
    (heap.set s.array (store (heap.getD s.array []) s.len xs),
      { s with len := s.len + xs.length })
  else
    let newLen := s.len + xs.length
    let newcap := grow newLen s.cap
    (heap ++ [s.read heap ++ xs ++ List.replicate (newcap - newLen) zeroAttr],
      { array := heap.length, len := newLen, cap := newcap })

/-- The struct `TextHandler` with its `attrs` field as a slice. -/
structure SliceHandler (W : Type) where
  out : Writer W
  level : Level
  addSource : Bool
  attrs : Slice
  group : String
  noColor : Bool

/-- The handler value that a `SliceHandler` denotes in a heap. -/
def SliceHandler.view {W : Type} (heap : Heap) (h : SliceHandler W) : TextHandler W :=
  { out := h.out, level := h.level, addSource := h.addSource, attrs := h.attrs.read heap,
    group := h.group, noColor := h.noColor }

/-- The method `TextHandler.WithAttrs` on slices: `newH.attrs = append(h.attrs, ...)`. -/
def SliceHandler.WithAttrs {W : Type} (grow : Nat → Nat → Nat) (heap : Heap)
    (h : SliceHandler W) (attrs : List Attr) : Heap × SliceHandler W :=
  if attrs.length = 0 then (heap, h)
  else
    let newH : SliceHandler W :=
      { out := h.out, level := h.level, addSource := h.addSource, noColor := h.noColor,
        group := h.group, attrs := nilSlice }
    if h.group ≠ "" then
      let prefixed := attrs.map (fun a => { Key := h.group ++ "." ++ a.Key, Value := a.Value : Attr })
      let res := append grow heap h.attrs prefixed
      (res.1, { newH with attrs := res.2 })
    else
      let res := append grow heap h.attrs attrs
      (res.1, { newH with attrs := res.2 })

/-- The method `TextHandler.WithGroup` on slices: `attrs: h.attrs` copies the header. -/
def SliceHandler.WithGroup {W : Type} (h : SliceHandler W) (name : String) : SliceHandler W :=
  if name = "" then h
  else
    let newH : SliceHandler W :=
      { out := h.out, level := h.level, addSource := h.addSource, attrs := h.attrs,
        group := "", noColor := false }
    if h.group = "" then { newH with group := name }
    else { newH with group := h.group ++ "." ++ name }

/-- A slice fits a heap: an empty capacity, or an allocated array with exactly
`cap` cells; and the length is within the capacity. -/
def Slice.fits (heap : Heap) (s : Slice) : Prop :=
  s.len ≤ s.cap ∧ (s.cap = 0 ∨ (s.array < heap.length ∧ (heap.getD s.array []).length = s.cap))

/-! ## Construction of a text handler -/

/-- The struct `slog.HandlerOptions`, as far as `newTextHandler` reads it.
`Level` is `none` for a nil `Leveler`. -/
structure HandlerOptions where
  Level : Option Level
  AddSource : Bool
  deriving DecidableEq, Repr

/-- What `newTextHandler` reads from the process and the library: the environment
(`os.LookupEnv`) and the case mapping `unicode.ToLower` on runes outside ASCII. -/
structure OS where
  LookupEnv : String → Option String
  ToLowerRune : Char → Char

/-- The mapping `strings.ToLower` applies to one rune. -/
def lowerRune (os : OS) (c : Char) : Char :=
  if c.toNat < 128 then
    if 'A'.toNat ≤ c.toNat ∧ c.toNat ≤ 'Z'.toNat then Char.ofNat (c.toNat + 32) else c
  else os.ToLowerRune c

/-- The function `strings.ToLower`. -/
def ToLower (os : OS) (s : String) : String :=
  String.mk (s.data.map (lowerRune os))

/-- The value `newTextHandler` computes for `noColor`. -/
def noColorFromEnv (os : OS) : Bool :=
  match os.LookupEnv "NO_COLOR" with
  | some v => if ToLower os (TrimSpace v) ≠ "false" then true else false
  | none => false

/-- The function `newTextHandler`. The call `opts.Level.Level()` on a nil `Leveler`
panics: the result is `none`. -/
def newTextHandler {W : Type} (os : OS) (out : Writer W) (opts : HandlerOptions) :
    Option (TextHandler W) :=
  let noColor := noColorFromEnv os
  match opts.Level with
  | none => none
  | some level =>
    some { out := out, level := level, addSource := opts.AddSource, attrs := [], group := "",
           noColor := noColor }

/-! ## Construction of a logger -/

/-- The type `LoggerType` is an integer. -/
abbrev LoggerType := Int

def LoggerTypeText : LoggerType := 0
def LoggerTypeJSON : LoggerType := 1

/-- The method `LoggerType.String`: an index into a two-element array, which
panics (`none`) for any other value. -/
def LoggerType.String (t : LoggerType) : Option String :=
  if t = 0 then some "Text" else if t = 1 then some "JSON" else none

/-- The struct `Handler`: `Kind` is the field `Type`; `Writer` and `Opts` are
`none` when nil. -/
structure Handler (W : Type) where
  Kind : LoggerType
  Writer : Option (SlogHuman.Writer W)
  Opts : Option HandlerOptions

/-- The value of `slog.NewJSONHandler(w, opts)`: a handler of the standard library,
kept as the arguments it was built from. -/
structure JSONHandler (W : Type) where
  out : Writer W
  opts : HandlerOptions

/-- A handler that `NewLoggerMultiHandler` builds for one configuration. -/
inductive Child (W : Type) where
  | text (h : TextHandler W)
  | json (h : JSONHandler W)

/-- The handler of the logger that `NewLoggerMultiHandler` returns. -/
inductive Built (W : Type) where
  | single (h : Child W)
  | fanout (m : multiHandler (Child W))

/-- The loop of `NewLoggerMultiHandler` over the configurations still to visit.
`stderr` collects the warnings, `slogHandlers` the handlers appended so far; the
result is `none` when a call panics. -/
def buildLoop {W : Type} (os : OS) (stdout : Writer W) :
    List (Handler W) → List String → List (Child W) → Option (List String × List (Child W))
  | [], stderr, slogHandlers => some (stderr, slogHandlers)
  | t :: rest, stderr, slogHandlers =>
    let step : Option (List String × Writer W) :=
      match t.Writer with
      | none =>
        match LoggerType.String t.Kind with
        | none => none
        | some name =>
          some (stderr ++ ["[slog-human] warning: " ++ name ++
            " handler has nil Writer - defaulting to os.Stdout\n"], stdout)
      | some w => some (stderr, w)
    match step with
    | none => none
    | some (stderr, writer) =>
      let opts : HandlerOptions :=
        match t.Opts with
        | none => { Level := some LevelInfo, AddSource := false }
        | some o => o
      if t.Kind = LoggerTypeText then
        match newTextHandler os writer opts with
        | none => none
        | some h => buildLoop os stdout rest stderr (slogHandlers ++ [Child.text h])
      else if t.Kind = LoggerTypeJSON then
        buildLoop os stdout rest stderr (slogHandlers ++ [Child.json ⟨writer, opts⟩])
      else buildLoop os stdout rest stderr slogHandlers

/-- The function `NewLoggerMultiHandler`: the warnings printed to `os.Stderr` and
the handler of the returned logger; `none` when the call panics. -/
def NewLoggerMultiHandler {W : Type} (os : OS) (stdout : Writer W) (handlers : List (Handler W)) :
    Option (List String × Built W) :=
  match buildLoop os stdout handlers [] [] with
  | none => none
  | some (stderr, slogHandlers) =>
    if handlers.length = 1 then
      match slogHandlers[0]? with
      | none => none
      | some h => some (stderr, Built.single h)
    else some (stderr, Built.fanout (setMultiHandlers slogHandlers))

/-- The function `NewDefaultLoggerTo`; a nil writer is `none`. -/
def NewDefaultLoggerTo {W : Type} (os : OS) (stdout : Writer W) (w : Option (Writer W)) :
    Option (List String × Built W) :=
  NewLoggerMultiHandler os stdout
    [{ Kind := LoggerTypeText, Writer := w,
       Opts := some { Level := some LevelInfo, AddSource := true } }]

/-- The function `NewDefaultLogger`. -/
def NewDefaultLogger {W : Type} (os : OS) (stdout : Writer W) : Option (List String × Built W) :=
  NewDefaultLoggerTo os stdout (some stdout)

/-- The method `log` of `slog.Logger`, behind `Debug`, `Info`, `Warn` and `Error`:
the record reaches the handler only if the handler is enabled for its level, and
the result of `Handle` is dropped. -/
def Logger.log {H W : Type} (I : HandlerOps H W) (h : H) (r : Record) (w : W) : W :=
  if I.Enabled h r.Level then (I.Handle h r w).2 else w

/-! ## http_writer.go -/

/-- The bytes of a Go string: the UTF-8 encoding of its characters. -/
def utf8Bytes (s : String) : List UInt8 :=
  s.data.flatMap String.utf8EncodeChar

/-- The struct `HTTPWriter`. The client is its timeout, in seconds. -/
structure HTTPWriter where
  clientTimeout : Nat
  endpoint : String
  contentType : String
  buffer : List UInt8
  async : Bool
  deriving DecidableEq, Repr

/-- The function `NewAsyncHTTPWriter`. -/
def NewAsyncHTTPWriter (endpoint : String) : HTTPWriter :=
  { clientTimeout := 5, endpoint := endpoint, contentType := "application/json", buffer := [],
    async := true }

/-- The function `NewHTTPWriter`. -/
def NewHTTPWriter (endpoint : String) : HTTPWriter :=
  { clientTimeout := 5, endpoint := endpoint, contentType := "application/json", buffer := [],
    async := false }

/-- An `http.Request` as `send` builds it. -/
structure Request where
  method : String
  url : String
  contentType : String
  body : List UInt8
  deriving DecidableEq, Repr

/-- The network as `send` meets it: `NewRequest` gives the error of
`http.NewRequest` for a method and URL (none when the request is built), `Do` the
error or the response status of `client.Do`. -/
structure Net where
  NewRequest : String → String → Option Error
  Do : Request → Except Error Int

/-- A call of `send` that `Write` started: its payload, and whether it was started
with `go`. -/
structure Dispatch where
  payload : List UInt8
  detached : Bool
  deriving DecidableEq, Repr

/-- The world outside an `HTTPWriter`: the calls of `send` started so far, in
order; the requests handed to `client.Do`; the lines printed to `os.Stderr`. -/
structure Transport where
  dispatched : List Dispatch := []
  requests : List Request := []
  stderr : List String := []
  deriving DecidableEq, Repr

/-- The method `HTTPWriter.send`. It returns nothing; its effects are the request
handed to the client and the lines on `os.Stderr`. -/
def HTTPWriter.send (N : Net) (w : HTTPWriter) (payload : List UInt8) (t : Transport) :
    Transport :=
  match N.NewRequest "POST" w.endpoint with
  | some err =>
    { t with stderr := t.stderr ++
        ["[slog-human] http writer: failed to create request: " ++ err ++ "\n"] }
  | none =>
    let req : Request :=
      { method := "POST", url := w.endpoint, contentType := w.contentType, body := payload }
    let t := { t with requests := t.requests ++ [req] }
    match N.Do req with
    | .error err =>
      { t with stderr := t.stderr ++
          ["[slog-human] http writer: failed to send log: " ++ err ++ "\n"] }
    | .ok status =>
      if status ≥ 400 then
        { t with stderr := t.stderr ++
            ["[slog-human] http writer: bad status " ++ toString status ++ " sending log\n"] }
      else t

/-- The method `HTTPWriter.Write`. A call of `send` is recorded in `dispatched`;
`w.send(line)` then runs at once, while the effects of `go w.send(line)` lie
outside this function. -/
def HTTPWriter.Write (N : Net) (w : HTTPWriter) (p : List UInt8) (t : Transport) :
    (Nat × Option Error) × HTTPWriter × Transport :=
  let w := { w with buffer := w.buffer ++ p }
  if p.length > 0 ∧ p.getLast? = some 10 then
    let line := w.buffer
    let w := { w with buffer := [] }
    if w.async then
      ((p.length, none), w, { t with dispatched := t.dispatched ++ [⟨line, true⟩] })
    else
      ((p.length, none), w,
        HTTPWriter.send N w line { t with dispatched := t.dispatched ++ [⟨line, false⟩] })
  else
    ((p.length, none), w, t)

/-- An `HTTPWriter` as the sink of a handler: the world is the writer with its
buffer and the transport; `fmt.Fprint` hands `Write` the bytes of the line. -/
def httpSink (N : Net) : Writer (HTTPWriter × Transport) :=
  ⟨fun line st =>
    let res := HTTPWriter.Write N st.1 (utf8Bytes line) st.2
    (res.1, (res.2.1, res.2.2))⟩

/-! ## Notions used to state the theorems -/

/-- The key of each recognized case. -/
def keyName : KeyCase → String
  | .logType => "log_type"
  | .method => "method"
  | .path => "path"
  | .status => "status"
  | .duration => "duration"
  | .remote => "remote"
  | .requestID => "request_id"
  | .bytes => "bytes"
  | .other => ""

/-- A key is settled in a state when a bound attr with that key can no longer
change the state: its slot is filled, or (no slot) it is marked seen. -/
def settled (s : Slots) (k : String) : Prop :=
  match keyCase k with
  | .other => k ∈ s.seen
  | c => s.slot c ≠ ""

/-- The attrs that contribute a generic field, in the order of the fields:
the record's non-recognized attrs, then the bound non-recognized attrs whose
key no record attr carries. -/
def shownAttrs (bound : List Attr) (r : Record) : List Attr :=
  r.attrs.filter (fun a => keyCase a.Key = .other) ++
    bound.filter (fun a => keyCase a.Key = .other ∧ a.Key ∉ r.attrs.map (fun b => b.Key))

/-- The text of the first attr of the list that selects case `c` and whose text
is not empty (the empty text when there is none). -/
def firstFilled (c : KeyCase) : List Attr → String
  | [] => ""
  | a :: rest =>
    if keyCase a.Key = c ∧ slotText c a.Value ≠ "" then slotText c a.Value
    else firstFilled c rest

/-- A sink that keeps every `Write` it receives, in order, and never fails. -/
def logWriter : Writer (List String) :=
  ⟨fun p w => ((p.utf8ByteSize, none), w ++ [p])⟩

/-- An environment for the examples: the default palette and time format, a
clock text that ignores the instant, no source information. -/
def exampleEnv : Env :=
  { Colors := Dracula
    TextTimeFormat := " 2006/01/02 - 15:05:05"
    Format := fun _ f => f
    CallersFrames := fun _ => ⟨"", 0⟩ }

/-- A text handler without bound attrs: INFO threshold, coloring disabled. -/
def plainHandler : TextHandler (List String) :=
  { out := logWriter, level := LevelInfo, addSource := false, attrs := [], group := "",
    noColor := true }

/-- A handler with `log_type` bound to `audit`. -/
def auditHandler : TextHandler (List String) :=
  { plainHandler with attrs := [⟨"log_type", .str "audit"⟩] }

/-- A record that carries `log_type` with the empty text. -/
def emptyTypeRecord : Record :=
  { Time := 0, Message := "started", Level := LevelInfo, PC := 0,
    attrs := [⟨"log_type", .str ""⟩] }

/-- A record that carries `status` once, as a request record. -/
def statusRecord : Record :=
  { Time := 0, Message := "done", Level := LevelInfo, PC := 0,
    attrs := [⟨"log_type", .str "http_request"⟩, ⟨"status", .str "200"⟩] }

/-- A handler with `status` bound to `500` and `region` bound to `eu`. -/
def statusHandler : TextHandler (List String) :=
  { plainHandler with attrs := [⟨"status", .str "500"⟩, ⟨"region", .str "eu"⟩] }

/-- A record that carries `status` twice: first `200`, then `500`. -/
def twoStatusRecord : Record :=
  { Time := 0, Message := "done", Level := LevelInfo, PC := 0,
    attrs := [⟨"log_type", .str "http_request"⟩, ⟨"status", .str "200"⟩,
      ⟨"status", .str "500"⟩] }

/-- A handler whose bound attrs carry `region` twice: first `eu`, then `us`. -/
def twoRegionHandler : TextHandler (List String) :=
  { plainHandler with attrs := [⟨"region", .str "eu"⟩, ⟨"region", .str "us"⟩] }

/-- A handler whose bound attrs carry `log_type` twice: first `audit`, then `billing`. -/
def twoTypeHandler : TextHandler (List String) :=
  { plainHandler with attrs := [⟨"log_type", .str "audit"⟩, ⟨"log_type", .str "billing"⟩] }

/-- A record without attrs. -/
def bareRecord : Record :=
  { Time := 0, Message := "started", Level := LevelInfo, PC := 0, attrs := [] }

/-- The attrs the group test binds: `id=123` and `location=home`. -/
def userAttrs : List Attr :=
  [⟨"id", .str "123"⟩, ⟨"location", .str "home"⟩]

/-- The children of a list that report `Enabled` at the level of the record. -/
def enabledChildren {H W : Type} (I : HandlerOps H W) (hs : List H) (r : Record) : List H :=
  hs.filter (fun h => I.Enabled h r.Level)

/-- The world after `Handle` has been invoked once on each handler of the list,
in list order, whatever each call returned. -/
def runAll {H W : Type} (I : HandlerOps H W) (r : Record) (hs : List H) (w : W) : W :=
  hs.foldl (fun w h => (I.Handle h r w).2) w

/-- Every handler of the list, invoked in list order from world `w`, returns nil. -/
def allSucceed {H W : Type} (I : HandlerOps H W) (r : Record) : List H → W → Prop
  | [], _ => True
  | h :: rest, w => (I.Handle h r w).1 = none ∧ allSucceed I r rest (I.Handle h r w).2

/-- A child for the examples: a name, a threshold, and whether its `Handle` fails.
Its `Handle` appends the name to the world and fails with the name as error. -/
structure Probe where
  name : String
  level : Level
  fails : Bool
  deriving DecidableEq, Repr

/-- The methods of the example children; deriving leaves a probe as it is. -/
def probeOps : HandlerOps Probe (List String) :=
  { Enabled := fun p l => decide (l ≥ p.level)
    Handle := fun p _ w => (if p.fails then some p.name else none, w ++ [p.name])
    WithAttrs := fun p _ => p
    WithGroup := fun p _ => p }

/-- Four example children: the second is not enabled at INFO, the third fails. -/
def probes : multiHandler Probe :=
  { handlers := [⟨"a", LevelDebug, false⟩, ⟨"b", LevelError, false⟩, ⟨"c", LevelInfo, true⟩,
      ⟨"d", LevelInfo, false⟩] }

/-- A sink that keeps every `Write` it receives under its own tag. -/
def tagWriter (tag : String) : Writer (List (String × String)) :=
  ⟨fun p w => ((p.utf8ByteSize, none), w ++ [(tag, p)])⟩

/-- A text handler with the given sink tag and threshold. -/
def tagHandler (tag : String) (level : Level) : TextHandler (List (String × String)) :=
  { out := tagWriter tag, level := level, addSource := false, attrs := [], group := "",
    noColor := true }

/-- A fan-out over four text handlers with thresholds DEBUG, INFO, WARN, ERROR. -/
def fourLevels : multiHandler (TextHandler (List (String × String))) :=
  { handlers := [tagHandler "debug" LevelDebug, tagHandler "info" LevelInfo,
      tagHandler "warn" LevelWarn, tagHandler "error" LevelError] }

/-- A record at WARN. -/
def warnRecord : Record :=
  { Time := 0, Message := "disk low", Level := LevelWarn, PC := 0, attrs := [] }

/-- A text handler on slices, as `newTextHandler` returns it: no bound attrs. -/
def freshHandler : SliceHandler (List String) :=
  { out := logWriter, level := LevelInfo, addSource := false, attrs := nilSlice, group := "",
    noColor := true }

/-- The heap and handler after `With("a", 1)`, `With("b", 2)`, `With("c", 3)` on a
fresh handler: three bound attrs in an array of capacity 4. -/
def sharedBase : Heap × SliceHandler (List String) :=
  let s1 := freshHandler.WithAttrs nextslicecap [] [⟨"a", .int 1⟩]
  let s2 := s1.2.WithAttrs nextslicecap s1.1 [⟨"b", .int 2⟩]
  s2.2.WithAttrs nextslicecap s2.1 [⟨"c", .int 3⟩]

/-- The first handler derived from the base: `With("user", "alice")`. -/
def firstDerived : Heap × SliceHandler (List String) :=
  sharedBase.2.WithAttrs nextslicecap sharedBase.1 [⟨"user", .str "alice"⟩]

/-- The second handler derived from the same base: `With("user", "bob")`. -/
def secondDerived : Heap × SliceHandler (List String) :=
  sharedBase.2.WithAttrs nextslicecap firstDerived.1 [⟨"user", .str "bob"⟩]

/-- A network on which every request is built and answered with status 200. -/
def okNet : Net :=
  { NewRequest := fun _ _ => none, Do := fun _ => .ok 200 }

/-- A network on which every request is built and answered with status 500. -/
def failingNet : Net :=
  { NewRequest := fun _ _ => none, Do := fun _ => .ok 500 }

/-- The bytes of the JSON line of the transport test, newline included. -/
def msgLine : List UInt8 :=
  utf8Bytes "\x7b\"msg\":\"x\"\x7d\n"

/-- A text handler whose sink is an `HTTPWriter` on `okNet`. -/
def httpHandler : TextHandler (HTTPWriter × Transport) :=
  { out := httpSink okNet, level := LevelInfo, addSource := false, attrs := [], group := "",
    noColor := true }

/-- A record whose message holds a newline. -/
def twoLineRecord : Record :=
  { Time := 0, Message := "first\nsecond", Level := LevelInfo, PC := 0, attrs := [] }

/-- LEVEL: the level name padded to 5 characters, then colorized. -/
def levelText (E : Env) (noColor : Bool) (r : Record) : String :=
  colorize E.Colors noColor (padRight 5 (levelString r.Level)) .ColorLevel

/-- REQID: the bracketed request id behind a space, absent when the id is empty. -/
def reqIDText (E : Env) (noColor : Bool) (s : Slots) : String :=
  if s.requestID ≠ "" then " [" ++ colorize E.Colors noColor s.requestID .ColorRequestID ++ "]"
  else ""

/-- BT: the bracket segment with the bytes (a `B` behind them when there are any,
in a width of 5) and the duration (in a width of 10); absent when both are empty. -/
def bytesTimeText (s : Slots) : String :=
  if s.bytes ≠ "" ∨ s.duration ≠ "" then
    " [" ++ padLeft 5 (if s.bytes ≠ "" then s.bytes ++ "B" else "") ++ " " ++
      padLeft 10 s.duration ++ "] "
  else ""

/-- TYPE: the colorized log type behind a bar, absent when the log type is empty. -/
def typeText (E : Env) (noColor : Bool) (s : Slots) : String :=
  if s.logType ≠ "" then " | " ++ colorize E.Colors noColor s.logType .ColorLogType else ""

/-- The primary content of a request line. -/
def requestLine (E : Env) (addSource noColor : Bool) (r : Record) (s : Slots) : String :=
  "[" ++ levelText E noColor r ++ "]" ++ reqIDText E noColor s ++
    E.Format r.Time E.TextTimeFormat ++ ":" ++ sourceText E addSource noColor r ++ " | " ++
    colorize E.Colors noColor "HTTP Request" .ColorLogType ++ " | " ++
    colorize E.Colors noColor s.status .ColorStatus ++ " " ++
    colorize E.Colors noColor (padRight 7 s.method) .ColorMethod ++ " " ++
    colorize E.Colors noColor s.path .ColorPath ++ " " ++ s.remote ++ bytesTimeText s ++ " " ++
    colorize E.Colors noColor r.Message .ColorMessage

/-- The primary content of a line of any other log type. -/
def defaultLine (E : Env) (addSource noColor : Bool) (r : Record) (s : Slots) : String :=
  "[" ++ levelText E noColor r ++ "]" ++ E.Format r.Time E.TextTimeFormat ++ ":" ++
    sourceText E addSource noColor r ++ typeText E noColor s ++ " | " ++
    colorize E.Colors noColor r.Message .ColorMessage

/-- The primary line content: what precedes the generic fields. -/
def primaryLine (E : Env) (addSource noColor : Bool) (r : Record) (s : Slots) : String :=
  if s.logType = "http_request" then requestLine E addSource noColor r s
  else defaultLine E addSource noColor r s

/-- The generic-fields tail: nothing for an empty list, otherwise a space and the
fields joined by single spaces. -/
def fieldsTail (fields : List String) : String :=
  if fields = [] then "" else " " ++ Join fields " "

/-- The attrs of the generic-fields tail, in the words of the specification: the
record's non-recognized attrs, then the bound non-recognized attrs whose key does
not occur among the record's non-recognized attrs. -/
def tailAttrs (bound : List Attr) (r : Record) : List Attr :=
  r.attrs.filter (fun a => !recognized a.Key) ++
    bound.filter (fun a => !recognized a.Key &&
      decide (a.Key ∉ (r.attrs.filter (fun b => !recognized b.Key)).map (fun b => b.Key)))

/-- The record of the request scenario. -/
def scenarioRecord : Record :=
  { Time := 0, Message := "", Level := LevelInfo, PC := 0,
    attrs := [⟨"log_type", .str "http_request"⟩, ⟨"method", .str "GET"⟩,
      ⟨"path", .str "/health"⟩, ⟨"status", .str "200"⟩, ⟨"bytes", .str "24"⟩,
      ⟨"duration", .str "25µs"⟩, ⟨"request_id", .str "hostname"⟩] }

/-- A record of the default log type that also carries request attrs and a field. -/
def mixedRecord : Record :=
  { Time := 0, Message := "started", Level := LevelInfo, PC := 0,
    attrs := [⟨"method", .str "GET"⟩, ⟨"path", .str "/health"⟩, ⟨"status", .str "200"⟩,
      ⟨"foo", .str "bar"⟩] }

/-- A handler with a group and without bound attrs, coloring disabled. -/
def groupedHandler : TextHandler (List String) :=
  { plainHandler with group := "user" }

/-- The texts of a palette. -/
def ColorPalette.strings (P : ColorPalette) : List String :=
  [P.MethodGET, P.MethodPOST, P.MethodPUT, P.MethodDELETE, P.MethodPATCH, P.MethodOPTIONS,
    P.MethodHEAD, P.MethodTRACE, P.MethodCONNECT, P.Status2xx, P.Status3xx, P.Status4xx,
    P.Status5xx, P.LevelDEBUG, P.LevelINFO, P.LevelWARN, P.LevelERROR, P.RequestID, P.Path,
    P.Line, P.LogType, P.Message, P.Reset]

/-- The characters that the templates, the padding, the level names and the
decimal numbers contribute to a line. -/
def literalChars : List Char :=
  "[]:|() =B./HTPRequest+-0123456789DEBUGINFOWARN".data

/-- Character `c` occurs in none of the texts a line is made from: the message,
the timestamp, the name of the source file, the keys and texts of the record's and
the handler's attrs and, when coloring is enabled, the palette. -/
def absentFromInputs {W : Type} (c : Char) (E : Env) (h : TextHandler W) (r : Record) : Prop :=
  c ∉ r.Message.data ∧ c ∉ (E.Format r.Time E.TextTimeFormat).data ∧
  c ∉ (E.CallersFrames r.PC).File.data ∧
  (∀ a ∈ r.attrs ++ h.attrs, c ∉ a.Key.data ∧ c ∉ a.Value.text.data) ∧
  (h.noColor = false → ∀ s ∈ E.Colors.strings, c ∉ s.data)

/-- No text of the slot state holds character `c`. -/
def Slots.free (c : Char) (s : Slots) : Prop :=
  c ∉ s.logType.data ∧ c ∉ s.method.data ∧ c ∉ s.path.data ∧ c ∉ s.status.data ∧
  c ∉ s.remote.data ∧ c ∉ s.duration.data ∧ c ∉ s.requestID.data ∧ c ∉ s.bytes.data ∧
  ∀ f ∈ s.fields, c ∉ f.data

/-- Text `x` is `v` itself or `v` between a text of the palette and its reset. -/
def Wrapped (P : ColorPalette) (v x : String) : Prop :=
  x = v ∨ ∃ a ∈ P.strings, x = a ++ v ++ P.Reset

/-- A record whose message ends with a newline. -/
def newlineRecord : Record :=
  { Time := 0, Message := "done\n", Level := LevelInfo, PC := 0, attrs := [] }

/-- A process environment in which `NO_COLOR` is set to `1`. -/
def noColorOS : OS :=
  { LookupEnv := fun k => if k = "NO_COLOR" then some "1" else none, ToLowerRune := id }

/-- A process environment in which `NO_COLOR` has the given value (`none` when
it is not set), with the given case mapping outside ASCII. -/
def envWith (v : Option String) (U : Char → Char) : OS :=
  { LookupEnv := fun k => if k = "NO_COLOR" then v else none, ToLowerRune := U }

/-- A sink whose every `Write` fails and leaves the world as it is. -/
def brokenWriter : Writer (List String) :=
  ⟨fun _ w => ((0, some "write failed"), w)⟩

/-- A text handler whose sink fails. -/
def brokenHandler : TextHandler (List String) :=
  { plainHandler with out := brokenWriter }

/-- A record at DEBUG. -/
def debugRecord : Record :=
  { Time := 0, Message := "should not appear", Level := LevelDebug, PC := 0, attrs := [] }

/-- A network that answers every request with status 304. -/
def notModifiedNet : Net :=
  { NewRequest := fun _ _ => none, Do := fun _ => .ok 304 }

/-- The world after the writes of the list, in order, on a writer and transport. -/
def runWrites (N : Net) : List (List UInt8) → HTTPWriter × Transport → HTTPWriter × Transport
  | [], st => st
  | p :: rest, st => runWrites N rest (HTTPWriter.Write N st.1 p st.2).2

/-- The escape character. -/
def ESC : Char := '\x1b'

/-- A text is balanced under a palette when it is a sequence of plain texts
without escape character and of colored blocks, where a colored block is a text of
the palette, a non-empty text without escape character and the reset, and every
colored block is followed by a non-empty plain text. -/
inductive Balanced (P : ColorPalette) : String → Prop where
  | nil : Balanced P ""
  | plain (t rest : String) : ESC ∉ t.data → Balanced P rest → Balanced P (t ++ rest)
  | colored (code v t rest : String) : code ∈ P.strings → v ≠ "" → ESC ∉ v.data → t ≠ "" →
      ESC ∉ t.data → Balanced P rest → Balanced P (code ++ v ++ P.Reset ++ (t ++ rest))

/-- A palette of escape sequences: the reset is `ESC[0m`, and every text of the
palette is the escape character followed by at least three other characters. -/
def ColorPalette.sane (P : ColorPalette) : Prop :=
  P.Reset = "\x1b[0m" ∧
  ∀ c ∈ P.strings, c.data.head? = some ESC ∧ ESC ∉ c.data.tail ∧ 4 ≤ c.data.length

/-- The handler of the examples with coloring enabled. -/
def coloredHandler : TextHandler (List String) :=
  { plainHandler with noColor := false }


/-- The options a configuration is built with: a nil `Opts` gives threshold INFO
with source capture off. -/
def optsOf {W : Type} (t : Handler W) : HandlerOptions :=
  match t.Opts with
  | none => { Level := some LevelInfo, AddSource := false }
  | some o => o

/-- The sink a configuration is built with: a nil `Writer` gives `os.Stdout`. -/
def writerOf {W : Type} (stdout : Writer W) (t : Handler W) : Writer W :=
  match t.Writer with
  | none => stdout
  | some w => w

/-- The warning a configuration with a nil `Writer` prints to `os.Stderr`. -/
def warningOf {W : Type} (t : Handler W) : List String :=
  match t.Writer with
  | some _ => []
  | none =>
    match LoggerType.String t.Kind with
    | some name =>
      ["[slog-human] warning: " ++ name ++ " handler has nil Writer - defaulting to os.Stdout\n"]
    | none => []

/-- The handler `c` is the one built for the configuration `t`: a text handler on
the configuration's sink, threshold and source flag, without bound attrs or group,
or a JSON handler on the configuration's sink and options. -/
def Builds {W : Type} (os : OS) (stdout : Writer W) (t : Handler W) (c : Child W) : Prop :=
  (t.Kind = LoggerTypeText ∧ ∃ level, (optsOf t).Level = some level ∧
    c = Child.text { out := writerOf stdout t, level := level,
                     addSource := (optsOf t).AddSource, attrs := [], group := "",
                     noColor := noColorFromEnv os }) ∨
  (t.Kind = LoggerTypeJSON ∧ c = Child.json ⟨writerOf stdout t, optsOf t⟩)

/-- The two configurations of `TestNewLoggerMultiHandler_NullOpts`. -/
def nullOptsConfigs : List (Handler (List String)) :=
  [{ Kind := LoggerTypeText, Writer := some logWriter, Opts := none },
   { Kind := LoggerTypeJSON, Writer := some logWriter, Opts := none }]

/-! ## Theorems -/


/-! ### The `switch` on the key -/

theorem keyCase_eq_name (k : String) (c : KeyCase) (h : keyCase k = c) (hc : c ≠ .other) :
    k = keyName c := by
  unfold keyCase at h
  split_ifs at h <;> subst h <;> first | assumption | exact absurd rfl hc

theorem keyCase_inj (k k' : String) (h : keyCase k = keyCase k') (hk : keyCase k ≠ .other) :
    k = k' := by
  rw [keyCase_eq_name k _ rfl hk, keyCase_eq_name k' (keyCase k) h.symm hk]

theorem recognized_iff (k : String) : recognized k = true ↔ keyCase k ≠ .other := by
  simp [recognized]

theorem recognized_false_iff (k : String) : recognized k = false ↔ keyCase k = .other := by
  simp [recognized]

/-! ### The loop over the record's attrs -/

theorem recordStep_slot (s : Slots) (a : Attr) (c : KeyCase) (hc : c ≠ .other) :
    (recordStep s a).slot c = if keyCase a.Key = c then slotText c a.Value else s.slot c := by
  unfold recordStep
  cases c <;> cases ha : keyCase a.Key <;> simp_all [Slots.slot, slotText]

theorem recordStep_fields (s : Slots) (a : Attr) :
    (recordStep s a).fields =
      s.fields ++ ([a].filter (fun a => keyCase a.Key = .other)).map fieldText := by
  unfold recordStep
  cases ha : keyCase a.Key <;> simp [ha]

theorem recordStep_seen (s : Slots) (a : Attr) (k : String) :
    k ∈ (recordStep s a).seen ↔ k ∈ s.seen ∨ (keyCase a.Key = .other ∧ a.Key = k) := by
  unfold recordStep
  cases ha : keyCase a.Key <;> simp [ha, eq_comm, or_comm]

theorem foldl_recordStep_slot_absent (c : KeyCase) (hc : c ≠ .other) :
    ∀ (attrs : List Attr) (s : Slots), (∀ b ∈ attrs, keyCase b.Key ≠ c) →
      (attrs.foldl recordStep s).slot c = s.slot c := by
  intro attrs
  induction attrs with
  | nil => intro s _; rfl
  | cons b rest ih =>
    intro s h
    rw [List.foldl_cons, ih _ (fun x hx => h x (List.mem_cons_of_mem _ hx)),
      recordStep_slot s b c hc, if_neg (h b (List.mem_cons_self _ _))]

theorem foldl_recordStep_slot_last (c : KeyCase) (hc : c ≠ .other) (pre post : List Attr)
    (a : Attr) (s : Slots) (ha : keyCase a.Key = c) (hpost : ∀ b ∈ post, keyCase b.Key ≠ c) :
    ((pre ++ a :: post).foldl recordStep s).slot c = slotText c a.Value := by
  rw [List.foldl_append, List.foldl_cons, foldl_recordStep_slot_absent c hc post _ hpost,
    recordStep_slot _ a c hc, if_pos ha]

theorem foldl_recordStep_fields :
    ∀ (attrs : List Attr) (s : Slots),
      (attrs.foldl recordStep s).fields =
        s.fields ++ (attrs.filter (fun a => keyCase a.Key = .other)).map fieldText := by
  intro attrs
  induction attrs with
  | nil => intro s; simp
  | cons b rest ih =>
    intro s
    rw [List.foldl_cons, ih, recordStep_fields]
    by_cases hb : keyCase b.Key = .other <;> simp [hb]

theorem foldl_recordStep_seen (k : String) :
    ∀ (attrs : List Attr) (s : Slots),
      k ∈ (attrs.foldl recordStep s).seen ↔
        k ∈ s.seen ∨ (keyCase k = .other ∧ ∃ a ∈ attrs, a.Key = k) := by
  intro attrs
  induction attrs with
  | nil => intro s; simp
  | cons b rest ih =>
    intro s
    rw [List.foldl_cons, ih, recordStep_seen]
    constructor
    · rintro ((h | ⟨hb, rfl⟩) | ⟨hk, a, ha, rfl⟩)
      · exact Or.inl h
      · exact Or.inr ⟨hb, b, List.mem_cons_self _ _, rfl⟩
      · exact Or.inr ⟨hk, a, List.mem_cons_of_mem _ ha, rfl⟩
    · rintro (h | ⟨hk, a, ha, rfl⟩)
      · exact Or.inl (Or.inl h)
      · rcases List.mem_cons.mp ha with rfl | ha
        · exact Or.inl (Or.inr ⟨hk, rfl⟩)
        · exact Or.inr ⟨hk, a, ha, rfl⟩

theorem scanRecord_seen (k : String) (attrs : List Attr) :
    k ∈ (scanRecord attrs).seen ↔ keyCase k = .other ∧ k ∈ attrs.map (fun b => b.Key) := by
  unfold scanRecord
  rw [foldl_recordStep_seen]
  simp

/-! ### The loop over the handler's bound attrs -/

theorem handlerStep_seen (s : Slots) (a : Attr) : (handlerStep s a).seen = s.seen := by
  unfold handlerStep
  cases keyCase a.Key <;> simp only <;> split_ifs <;> rfl

theorem handlerStep_of_settled (s : Slots) (a : Attr) (h : settled s a.Key) :
    handlerStep s a = s := by
  unfold settled at h
  unfold handlerStep
  cases hk : keyCase a.Key <;> simp only [hk, Slots.slot] at h ⊢ <;> simp [h]

theorem settled_handlerStep (s : Slots) (a : Attr) (k : String) (h : settled s k) :
    settled (handlerStep s a) k := by
  unfold settled at h ⊢
  unfold handlerStep
  cases hk : keyCase k <;> cases ha : keyCase a.Key <;>
    simp only [hk, Slots.slot] at h ⊢ <;> split_ifs <;> simp_all

theorem foldl_handlerStep_filter (k : String) :
    ∀ (bound : List Attr) (s : Slots), settled s k →
      bound.foldl handlerStep s =
        (bound.filter (fun a => decide (a.Key ≠ k))).foldl handlerStep s := by
  intro bound
  induction bound with
  | nil => intro s _; rfl
  | cons a rest ih =>
    intro s hs
    by_cases hak : a.Key = k
    · subst hak
      rw [List.foldl_cons, handlerStep_of_settled s a hs, ih s hs]
      simp
    · rw [List.foldl_cons, ih _ (settled_handlerStep s a k hs)]
      simp [hak]

theorem handlerStep_slot (s : Slots) (a : Attr) (c : KeyCase) (hc : c ≠ .other) :
    (handlerStep s a).slot c =
      if s.slot c = "" ∧ keyCase a.Key = c then slotText c a.Value else s.slot c := by
  unfold handlerStep
  cases c <;> cases ha : keyCase a.Key <;> simp only [Slots.slot] <;>
    split_ifs <;> simp_all [Slots.slot, slotText]

theorem foldl_handlerStep_slot (c : KeyCase) (hc : c ≠ .other) :
    ∀ (bound : List Attr) (s : Slots),
      (bound.foldl handlerStep s).slot c =
        if s.slot c = "" then firstFilled c bound else s.slot c := by
  intro bound
  induction bound with
  | nil => intro s; by_cases h : s.slot c = "" <;> simp [firstFilled, h]
  | cons a rest ih =>
    intro s
    rw [List.foldl_cons, ih, handlerStep_slot s a c hc]
    by_cases h : s.slot c = ""
    · by_cases ha : keyCase a.Key = c
      · by_cases hv : slotText c a.Value = "" <;> simp [firstFilled, h, ha, hv]
      · simp [firstFilled, h, ha]
    · simp [h]

theorem foldl_handlerStep_fields :
    ∀ (bound : List Attr) (s : Slots),
      (bound.foldl handlerStep s).fields =
        s.fields ++
          (bound.filter (fun a => keyCase a.Key = .other ∧ a.Key ∉ s.seen)).map fieldText := by
  intro bound
  induction bound with
  | nil => intro s; simp
  | cons a rest ih =>
    intro s
    rw [List.foldl_cons, ih, handlerStep_seen]
    unfold handlerStep
    cases ha : keyCase a.Key <;> simp only <;> split_ifs <;> simp_all

theorem resolve_fields (bound : List Attr) (r : Record) :
    (resolve bound r).fields = (shownAttrs bound r).map fieldText := by
  unfold resolve shownAttrs
  rw [foldl_handlerStep_fields]
  have h1 : (scanRecord r.attrs).fields =
      (r.attrs.filter (fun a => keyCase a.Key = .other)).map fieldText := by
    unfold scanRecord
    rw [foldl_recordStep_fields]
    rfl
  rw [h1, List.map_append]
  congr 2
  apply List.filter_congr
  intro a _
  by_cases ha : keyCase a.Key = .other
  · have := scanRecord_seen a.Key r.attrs
    simp only [ha, true_and] at this
    simp [ha, this]
  · simp [ha]


/-! ### C1: record attrs against bound attrs -/

theorem scanRecord_slot_last (attrs pre post : List Attr) (K : String) (v : Value)
    (hrec : attrs = pre ++ ⟨K, v⟩ :: post) (hlast : ∀ a ∈ post, a.Key ≠ K)
    (hK : keyCase K ≠ .other) :
    (scanRecord attrs).slot (keyCase K) = slotText (keyCase K) v := by
  unfold scanRecord
  rw [hrec]
  exact foldl_recordStep_slot_last (keyCase K) hK pre post ⟨K, v⟩ _ rfl
    (fun b hb hbK => hlast b hb (keyCase_inj b.Key K hbK (hbK ▸ hK)))

theorem scanRecord_slot_absent (attrs : List Attr) (K : String)
    (habs : ∀ a ∈ attrs, a.Key ≠ K) (hK : keyCase K ≠ .other) :
    (scanRecord attrs).slot (keyCase K) = "" := by
  unfold scanRecord
  rw [foldl_recordStep_slot_absent (keyCase K) hK attrs _
    (fun b hb hbK => habs b hb (keyCase_inj b.Key K hbK (hbK ▸ hK)))]
  cases keyCase K <;> rfl

theorem scanRecord_settled (attrs pre post : List Attr) (K : String) (v : Value)
    (hrec : attrs = pre ++ ⟨K, v⟩ :: post) (hlast : ∀ a ∈ post, a.Key ≠ K)
    (hne : recognized K = true → slotText (keyCase K) v ≠ "") :
    settled (scanRecord attrs) K := by
  by_cases hK : keyCase K = .other
  · have : K ∈ (scanRecord attrs).seen := by
      rw [scanRecord_seen]
      exact ⟨hK, by simp [hrec]⟩
    unfold settled
    rw [hK]
    exact this
  · have hslot := scanRecord_slot_last attrs pre post K v hrec hlast hK
    have hne2 := hne ((recognized_iff K).mpr hK)
    unfold settled
    cases hc : keyCase K
    all_goals first
      | exact absurd hc hK
      | (simp only []; rw [hc] at hslot hne2; rw [hslot]; exact hne2)

/-- C1 (as amended). A key `K` whose last occurrence on the record carries value `v`;
for a recognized key the text of `v` is not empty. Then: the slot of a recognized `K`
holds the record's text; for a non-recognized `K` the generic fields come from
`shownAttrs`, among which the attrs with key `K` are exactly the record's; and the
written line is the line of the same handler without its bound attrs for `K`. -/
theorem record_attr_precedence {W : Type} (E : Env) (h : TextHandler W) (r : Record)
    (K : String) (v : Value) (pre post : List Attr)
    (hrec : r.attrs = pre ++ ⟨K, v⟩ :: post) (hlast : ∀ a ∈ post, a.Key ≠ K)
    (hne : recognized K = true → slotText (keyCase K) v ≠ "") :
    (recognized K = true → (resolve h.attrs r).slot (keyCase K) = slotText (keyCase K) v) ∧
    (recognized K = false →
      (resolve h.attrs r).fields = (shownAttrs h.attrs r).map fieldText ∧
      (shownAttrs h.attrs r).filter (fun a => a.Key = K) =
        r.attrs.filter (fun a => a.Key = K)) ∧
    h.line E r =
      ({ h with attrs := h.attrs.filter (fun a => decide (a.Key ≠ K)) } : TextHandler W).line E r := by
  have hset := scanRecord_settled r.attrs pre post K v hrec hlast hne
  refine ⟨?_, ?_, ?_⟩
  · intro hK
    have hc := (recognized_iff K).mp hK
    have hslot := scanRecord_slot_last r.attrs pre post K v hrec hlast hc
    unfold resolve
    rw [foldl_handlerStep_slot (keyCase K) hc, if_neg]
    · exact hslot
    · rw [hslot]; exact hne hK
  · intro hK
    have hc := (recognized_false_iff K).mp hK
    refine ⟨resolve_fields h.attrs r, ?_⟩
    unfold shownAttrs
    rw [List.filter_append, List.filter_filter, List.filter_filter]
    have hmem : K ∈ r.attrs.map (fun b => b.Key) := by simp [hrec]
    have h2 : h.attrs.filter (fun a => (decide (a.Key = K) &&
        decide (keyCase a.Key = .other ∧ a.Key ∉ r.attrs.map (fun b => b.Key)))) = [] := by
      rw [List.filter_eq_nil_iff]
      intro a _
      by_cases ha : a.Key = K
      · subst ha; simp [hmem]
      · simp [ha]
    rw [h2, List.append_nil]
    apply List.filter_congr
    intro a _
    by_cases ha : a.Key = K
    · subst ha; simp [hc]
    · simp [ha]
  · unfold TextHandler.line resolve
    rw [foldl_handlerStep_filter K h.attrs _ hset]


/-- C1, at a concrete input: with `status=200` on the record and `status=500` bound,
the slot and the line show 200, and the line is that of the handler without the
bound `status`. -/
theorem record_attr_precedence_witness :
    (resolve statusHandler.attrs statusRecord).slot (keyCase "status") = "200" ∧
    statusHandler.line exampleEnv statusRecord =
      ({ statusHandler with attrs := [⟨"region", .str "eu"⟩] } :
        TextHandler (List String)).line exampleEnv statusRecord := by
  have h := record_attr_precedence exampleEnv statusHandler statusRecord "status" (.str "200")
    [⟨"log_type", .str "http_request"⟩] [] rfl (by simp) (by decide)
  exact ⟨h.1 (by decide), h.2.2⟩

/-- C1 as stated fails: the record carries `log_type` with the empty text, the
handler binds `log_type=audit`, and the written line shows the bound value. -/
theorem record_attr_precedence_counterexample :
    (⟨"log_type", .str ""⟩ : Attr) ∈ emptyTypeRecord.attrs ∧
    (⟨"log_type", .str "audit"⟩ : Attr) ∈ auditHandler.attrs ∧
    (resolve auditHandler.attrs emptyTypeRecord).logType = "audit" ∧
    auditHandler.line exampleEnv emptyTypeRecord =
      "[INFO ] 2006/01/02 - 15:05:05: | audit | started\n" := by
  decide

/-! ### C2: a recognized key more than once on the record -/

/-- C2 (as amended). When a recognized key occurs on the record, possibly several
times, the record loop leaves in its slot the text of the last occurrence; when
that text is not empty it is also the slot after the bound attrs are scanned. -/
theorem record_duplicate_last_wins (bound : List Attr) (r : Record) (K : String) (v : Value)
    (pre post : List Attr) (hK : recognized K = true)
    (hrec : r.attrs = pre ++ ⟨K, v⟩ :: post) (hlast : ∀ a ∈ post, a.Key ≠ K) :
    (scanRecord r.attrs).slot (keyCase K) = slotText (keyCase K) v ∧
    (slotText (keyCase K) v ≠ "" →
      (resolve bound r).slot (keyCase K) = slotText (keyCase K) v) := by
  have hc := (recognized_iff K).mp hK
  have hslot := scanRecord_slot_last r.attrs pre post K v hrec hlast hc
  refine ⟨hslot, fun hne => ?_⟩
  unfold resolve
  rw [foldl_handlerStep_slot (keyCase K) hc, if_neg (by rw [hslot]; exact hne), hslot]

/-- C2, at a concrete input: `status=200` then `status=500` on the record leaves 500. -/
theorem record_duplicate_last_wins_witness :
    (scanRecord twoStatusRecord.attrs).slot (keyCase "status") = "500" ∧
    ("500" ≠ "" → (resolve [] twoStatusRecord).slot (keyCase "status") = "500") :=
  record_duplicate_last_wins [] twoStatusRecord "status" (.str "500")
    [⟨"log_type", .str "http_request"⟩, ⟨"status", .str "200"⟩] [] (by decide) rfl (by simp)

/-- C2 as stated fails: the record carries `status=200` and then `status=500`; the
slot holds the later value and the line shows 500, not 200. -/
theorem record_duplicate_first_wins_counterexample :
    twoStatusRecord.attrs =
      [⟨"log_type", .str "http_request"⟩, ⟨"status", .str "200"⟩, ⟨"status", .str "500"⟩] ∧
    (resolve plainHandler.attrs twoStatusRecord).status = "500" ∧
    plainHandler.line exampleEnv twoStatusRecord =
      "[INFO ] 2006/01/02 - 15:05:05: | HTTP Request | 500           done\n" := by
  decide

/-! ### C3: a key more than once among the bound attrs -/

/-- C3 (as amended). A record that does not carry key `K`. If `K` is recognized, its
slot holds the text of the first bound attr for `K` whose text is not empty. If `K`
is not recognized, every bound attr with key `K` contributes a field, in bound order. -/
theorem bound_duplicates (bound : List Attr) (r : Record) (K : String)
    (habs : ∀ a ∈ r.attrs, a.Key ≠ K) :
    (recognized K = true →
      (resolve bound r).slot (keyCase K) = firstFilled (keyCase K) bound) ∧
    (recognized K = false →
      (resolve bound r).fields = (shownAttrs bound r).map fieldText ∧
      (shownAttrs bound r).filter (fun a => a.Key = K) =
        bound.filter (fun a => a.Key = K)) := by
  refine ⟨?_, ?_⟩
  · intro hK
    have hc := (recognized_iff K).mp hK
    unfold resolve
    rw [foldl_handlerStep_slot (keyCase K) hc, if_pos (scanRecord_slot_absent r.attrs K habs hc)]
  · intro hK
    have hc := (recognized_false_iff K).mp hK
    refine ⟨resolve_fields bound r, ?_⟩
    unfold shownAttrs
    rw [List.filter_append, List.filter_filter, List.filter_filter]
    have h1 : r.attrs.filter (fun a => (decide (a.Key = K) &&
        decide (keyCase a.Key = .other))) = [] := by
      rw [List.filter_eq_nil_iff]
      intro a ha
      simp [habs a ha]
    have hmem : K ∉ r.attrs.map (fun b => b.Key) := by
      simp only [List.mem_map, not_exists, not_and]
      exact fun a ha => habs a ha
    rw [h1, List.nil_append]
    apply List.filter_congr
    intro a _
    by_cases ha : a.Key = K
    · subst ha; simp [hc, hmem]
    · simp [ha]

/-- C3, at a concrete input: `region` bound twice and absent from the record gives
two fields. -/
theorem bound_duplicates_witness :
    (shownAttrs twoRegionHandler.attrs bareRecord).filter (fun a => a.Key = "region") =
      [⟨"region", .str "eu"⟩, ⟨"region", .str "us"⟩] :=
  ((bound_duplicates twoRegionHandler.attrs bareRecord "region" (by simp [bareRecord])).2
    (by decide)).2

/-- C3 as stated fails: `region` is bound twice (`eu`, then `us`) and is not on the
record; the line renders both occurrences, not only the first. -/
theorem bound_duplicates_counterexample :
    twoRegionHandler.attrs = [⟨"region", .str "eu"⟩, ⟨"region", .str "us"⟩] ∧
    bareRecord.attrs = [] ∧
    (resolve twoRegionHandler.attrs bareRecord).fields = ["region=eu", "region=us"] ∧
    twoRegionHandler.line exampleEnv bareRecord =
      "[INFO ] 2006/01/02 - 15:05:05: | started region=eu region=us\n" := by
  decide


/-! ### C5, C6: derived handlers -/

theorem append_ne_empty_left (a b : String) (h : a ≠ "") : a ++ b ≠ "" := by
  intro hab
  apply h
  have h1 : (a ++ b).data = [] := by rw [hab]
  rw [String.data_append, List.append_eq_nil] at h1
  exact String.ext h1.1

/-- C5, at the failing input: a handler with coloring disabled keeps the flag through
`WithAttrs`, and `WithGroup` returns a handler with coloring enabled; sink,
threshold and source flag are kept by both. -/
theorem WithGroup_resets_noColor :
    plainHandler.noColor = true ∧
    (plainHandler.WithAttrs userAttrs).noColor = true ∧
    (plainHandler.WithGroup "user").noColor = false ∧
    (plainHandler.WithGroup "user").level = plainHandler.level ∧
    (plainHandler.WithGroup "user").addSource = plainHandler.addSource := by
  decide

/-- The part of C5 that holds for every handler: `WithAttrs` keeps sink, threshold,
source flag and coloring flag; `WithGroup` keeps sink, threshold and source flag,
and returns coloring enabled for every non-empty name. -/
theorem derived_fields {W : Type} (h : TextHandler W) (attrs : List Attr) (name : String)
    (hname : name ≠ "") :
    (h.WithAttrs attrs).out = h.out ∧ (h.WithAttrs attrs).level = h.level ∧
    (h.WithAttrs attrs).addSource = h.addSource ∧ (h.WithAttrs attrs).noColor = h.noColor ∧
    (h.WithGroup name).out = h.out ∧ (h.WithGroup name).level = h.level ∧
    (h.WithGroup name).addSource = h.addSource ∧ (h.WithGroup name).noColor = false := by
  unfold TextHandler.WithAttrs TextHandler.WithGroup
  simp only [hname, if_false]
  refine ⟨?_, ?_, ?_, ?_, ?_, ?_, ?_, ?_⟩ <;> split_ifs <;> rfl

/-- C6. After `WithGroup g` with `g` non-empty, `WithAttrs as` with `as` non-empty
binds the attrs of the receiver followed by those of `as`, each key behind the
dotted group and a dot, values unchanged. The group test binds `user.id=123` and
`user.location=home`; nested groups give `outer.inner.key`. -/
theorem WithGroup_WithAttrs_attrs {W : Type} (h : TextHandler W) (g : String) (as : List Attr)
    (hg : g ≠ "") (has : as ≠ []) :
    ((h.WithGroup g).WithAttrs as).attrs =
      h.attrs ++ as.map (fun a =>
        ({ Key := (if h.group = "" then g else h.group ++ "." ++ g) ++ "." ++ a.Key,
           Value := a.Value } : Attr)) ∧
    (resolve ((plainHandler.WithGroup "user").WithAttrs userAttrs).attrs bareRecord).fields =
      ["user.id=123", "user.location=home"] ∧
    ((plainHandler.WithGroup "user").WithAttrs userAttrs).line exampleEnv bareRecord =
      "[\x1b[38;5;84mINFO \x1b[0m] 2006/01/02 - 15:05:05: | \x1b[38;5;141mstarted\x1b[0m" ++
        " user.id=123 user.location=home\n" ∧
    (resolve (((plainHandler.WithGroup "outer").WithGroup "inner").WithAttrs
      [⟨"key", .str "v"⟩]).attrs bareRecord).fields = ["outer.inner.key=v"] := by
  refine ⟨?_, by decide, by decide, by decide⟩
  have hlen : ¬ as.length = 0 := by
    intro h0; exact has (List.length_eq_zero.mp h0)
  unfold TextHandler.WithGroup
  simp only [hg, if_false]
  by_cases hgr : h.group = ""
  · simp only [hgr, if_true]
    unfold TextHandler.WithAttrs
    simp only [hlen, if_false, hg, ne_eq, not_false_eq_true, if_true]
  · simp only [hgr, if_false]
    unfold TextHandler.WithAttrs
    have hne : h.group ++ "." ++ g ≠ "" := by
      rw [String.append_assoc]
      exact append_ne_empty_left _ _ hgr
    simp only [hlen, if_false, hne, ne_eq, not_false_eq_true, if_true]

/-- C6, at a concrete input: group `user` on a handler without a group. -/
theorem WithGroup_WithAttrs_attrs_witness :
    ((plainHandler.WithGroup "user").WithAttrs userAttrs).attrs =
      [⟨"user.id", .str "123"⟩, ⟨"user.location", .str "home"⟩] :=
  (WithGroup_WithAttrs_attrs plainHandler "user" userAttrs (by decide) (by decide)).1


/-! ### C7, C8, C9: the loops of the fan-out handler -/

theorem handleLoop_enabledChildren {H W : Type} (I : HandlerOps H W) (r : Record) :
    ∀ (hs : List H) (w : W), handleLoop I r hs w = handleLoop I r (enabledChildren I hs r) w := by
  intro hs
  induction hs with
  | nil => intro w; rfl
  | cons h rest ih =>
    intro w
    by_cases hen : I.Enabled h r.Level = true
    · have hf : enabledChildren I (h :: rest) r = h :: enabledChildren I rest r := by
        simp [enabledChildren, hen]
      rw [hf]
      simp only [handleLoop, hen, if_true]
      rcases hres : I.Handle h r w with ⟨_ | e, w'⟩
      · simp only []; exact ih w'
      · rfl
    · have hf : enabledChildren I (h :: rest) r = enabledChildren I rest r := by
        simp [enabledChildren, hen]
      rw [hf]
      simp only [handleLoop, hen]
      exact ih w

theorem handleLoop_allSucceed {H W : Type} (I : HandlerOps H W) (r : Record) :
    ∀ (hs : List H) (w : W), (∀ h ∈ hs, I.Enabled h r.Level = true) → allSucceed I r hs w →
      handleLoop I r hs w = (none, runAll I r hs w) := by
  intro hs
  induction hs with
  | nil => intro w _ _; rfl
  | cons h rest ih =>
    intro w hen hok
    have h1 := hen h (List.mem_cons_self _ _)
    obtain ⟨hnone, hrest⟩ := hok
    simp only [handleLoop, h1, if_true, runAll, List.foldl_cons]
    rcases hres : I.Handle h r w with ⟨_ | e, w'⟩
    · rw [hres] at hrest
      exact ih w' (fun x hx => hen x (List.mem_cons_of_mem _ hx)) hrest
    · rw [hres] at hnone; cases hnone

theorem handleLoop_first_failure {H W : Type} (I : HandlerOps H W) (r : Record) (c : H)
    (post : List H) (e : Error) :
    ∀ (pre : List H) (w : W), (∀ h ∈ pre, I.Enabled h r.Level = true) →
      I.Enabled c r.Level = true → allSucceed I r pre w →
      (I.Handle c r (runAll I r pre w)).1 = some e →
      handleLoop I r (pre ++ c :: post) w = (some e, (I.Handle c r (runAll I r pre w)).2) := by
  intro pre
  induction pre with
  | nil =>
    intro w _ hc _ hfail
    simp only [runAll, List.foldl_nil] at hfail ⊢
    simp only [List.nil_append, handleLoop, hc, if_true]
    rcases hres : I.Handle c r w with ⟨_ | e', w'⟩
    · rw [hres] at hfail; cases hfail
    · rw [hres] at hfail
      simp only [Option.some.injEq] at hfail
      rw [hfail]
  | cons h rest ih =>
    intro w hen hc hok hfail
    have h1 := hen h (List.mem_cons_self _ _)
    obtain ⟨hnone, hrest⟩ := hok
    simp only [runAll, List.foldl_cons] at hfail ⊢
    simp only [List.cons_append, handleLoop, h1, if_true]
    rcases hres : I.Handle h r w with ⟨_ | e', w'⟩
    · rw [hres] at hrest hfail
      exact ih w' (fun x hx => hen x (List.mem_cons_of_mem _ hx)) hc hrest hfail
    · rw [hres] at hnone; cases hnone

/-- C7. `multiHandler.Handle` acts on the children that report `Enabled` for the
record's level, in list order. If one of them fails after all before it returned
nil, the result is its error and the world is the one left by one `Handle` call on
each enabled child before it, in order, and one on it: no later child is invoked.
If none fails, the result is nil and every enabled child was invoked once, in order. -/
theorem multiHandler_Handle_fail_fast {H W : Type} (I : HandlerOps H W) (m : multiHandler H)
    (r : Record) (w : W) :
    (∀ (pre post : List H) (c : H) (e : Error),
      enabledChildren I m.handlers r = pre ++ c :: post → allSucceed I r pre w →
      (I.Handle c r (runAll I r pre w)).1 = some e →
      multiHandler.Handle I m r w = (some e, (I.Handle c r (runAll I r pre w)).2)) ∧
    (allSucceed I r (enabledChildren I m.handlers r) w →
      multiHandler.Handle I m r w = (none, runAll I r (enabledChildren I m.handlers r) w)) := by
  have hmem : ∀ h ∈ enabledChildren I m.handlers r, I.Enabled h r.Level = true := by
    intro h hh
    exact (List.mem_filter.mp hh).2
  constructor
  · intro pre post c e hsplit hok hfail
    unfold multiHandler.Handle
    rw [handleLoop_enabledChildren, hsplit]
    rw [hsplit] at hmem
    exact handleLoop_first_failure I r c post e pre w
      (fun h hh => hmem h (List.mem_append_left _ hh))
      (hmem c (List.mem_append_right _ (List.mem_cons_self _ _))) hok hfail
  · intro hok
    unfold multiHandler.Handle
    rw [handleLoop_enabledChildren]
    exact handleLoop_allSucceed I r _ w hmem hok

/-- C7, at a concrete input: of the children a, b, c, d with b not enabled and c
failing, a and c are invoked, the error is the one of c, and d is not invoked. -/
theorem multiHandler_Handle_fail_fast_witness :
    multiHandler.Handle probeOps probes bareRecord [] = (some "c", ["a", "c"]) :=
  (multiHandler_Handle_fail_fast probeOps probes bareRecord []).1
    [⟨"a", LevelDebug, false⟩] [⟨"d", LevelInfo, false⟩] ⟨"c", LevelInfo, true⟩ "c"
    (by decide) ⟨rfl, trivial⟩ (by decide)

theorem enabledLoop_iff {H W : Type} (I : HandlerOps H W) (level : Level) :
    ∀ hs : List H, enabledLoop I level hs = true ↔ ∃ h ∈ hs, I.Enabled h level = true := by
  intro hs
  induction hs with
  | nil => simp [enabledLoop]
  | cons h rest ih =>
    by_cases hen : I.Enabled h level = true
    · simp [enabledLoop, hen]
    · simp [enabledLoop, hen, ih]

/-- C8. `multiHandler.Enabled` is true exactly when some child reports `Enabled` at
the level; a fan-out without children is enabled at no level. -/
theorem multiHandler_Enabled_iff {H W : Type} (I : HandlerOps H W) (m : multiHandler H)
    (level : Level) :
    (multiHandler.Enabled I m level = true ↔ ∃ h ∈ m.handlers, I.Enabled h level = true) ∧
    multiHandler.Enabled I (setMultiHandlers []) level = false :=
  ⟨enabledLoop_iff I level m.handlers, rfl⟩

theorem allSucceed_text {W : Type} (E : Env) (r : Record) :
    ∀ (hs : List (TextHandler W)) (w : W), allSucceed (textOps E) r hs w := by
  intro hs
  induction hs with
  | nil => intro w; trivial
  | cons h rest ih => intro w; exact ⟨rfl, ih _⟩

/-- C9. Over text handlers, `multiHandler.Handle` returns nil and leaves the world
that one `Write` of the child's line leaves for each child whose threshold is at
most the record's level, in list order, and for no other child. A WARN record
reaches the children with thresholds DEBUG, INFO and WARN and not the one with ERROR. -/
theorem fanout_text_delivery {W : Type} (E : Env) (m : multiHandler (TextHandler W))
    (r : Record) (w : W) :
    multiHandler.Handle (textOps E) m r w =
      (none, (m.handlers.filter (fun h => decide (h.level ≤ r.Level))).foldl
        (fun w h => (h.out.Write (h.line E r) w).2) w) ∧
    multiHandler.Handle (textOps exampleEnv) fourLevels warnRecord [] =
      (none, [("debug", "[WARN ] 2006/01/02 - 15:05:05: | disk low\n"),
        ("info", "[WARN ] 2006/01/02 - 15:05:05: | disk low\n"),
        ("warn", "[WARN ] 2006/01/02 - 15:05:05: | disk low\n")]) := by
  refine ⟨?_, by decide⟩
  unfold multiHandler.Handle
  rw [handleLoop_enabledChildren,
    handleLoop_allSucceed (textOps E) r (enabledChildren (textOps E) m.handlers r) w
      (fun h hh => (List.mem_filter.mp hh).2) (allSucceed_text E r _ w)]
  rfl

/-! ### C10: derivation of a fan-out handler -/

theorem set_length_append {α : Type} (l₁ l₂ : List α) (a b : α) :
    (l₁ ++ a :: l₂).set l₁.length b = l₁ ++ b :: l₂ := by
  induction l₁ with
  | nil => rfl
  | cons x xs ih => simp [ih]

theorem assignLoop_eq {H : Type} (derive : H → H) :
    ∀ (hs done : List H),
      assignLoop derive hs done.length (done.map some ++ List.replicate hs.length none) =
        (done ++ hs.map derive).map some := by
  intro hs
  induction hs with
  | nil => intro done; simp [assignLoop]
  | cons h rest ih =>
    intro done
    have hset : (done.map some ++ List.replicate (h :: rest).length none).set done.length
        (some (derive h)) = (done ++ [derive h]).map some ++ List.replicate rest.length none := by
      have := set_length_append (done.map some) (List.replicate rest.length none) none
        (some (derive h))
      simp only [List.length_map] at this
      simp only [List.length_cons, List.replicate_succ, this, List.map_append, List.map_cons,
        List.map_nil, List.append_assoc, List.singleton_append]
    have hlen : done.length + 1 = (done ++ [derive h]).length := by simp
    simp only [assignLoop]
    rw [hset, hlen, ih (done ++ [derive h])]
    simp

theorem deriveAll_eq_map {H : Type} (derive : H → H) (hs : List H) :
    deriveAll derive hs = (hs.map derive).map some := by
  have := assignLoop_eq derive hs []
  simpa [deriveAll] using this

theorem reduceOption_map_some {α : Type} (l : List α) : (l.map some).reduceOption = l := by
  induction l with
  | nil => rfl
  | cons x xs ih => simp [List.reduceOption_cons_of_some, ih]

/-- C10. The children of `m.WithAttrs attrs` are the children of `m`, each derived
with `WithAttrs attrs`, in the same number and order; the same holds for
`WithGroup`; the loop assigns every cell of the new slice. -/
theorem multiHandler_derive {H W : Type} (I : HandlerOps H W) (m : multiHandler H)
    (attrs : List Attr) (name : String) :
    (multiHandler.WithAttrs I m attrs).handlers =
      m.handlers.map (fun h => I.WithAttrs h attrs) ∧
    (multiHandler.WithGroup I m name).handlers =
      m.handlers.map (fun h => I.WithGroup h name) ∧
    (multiHandler.WithAttrs I m attrs).handlers.length = m.handlers.length ∧
    (multiHandler.WithGroup I m name).handlers.length = m.handlers.length ∧
    (∀ i (hi : i < m.handlers.length),
      (multiHandler.WithAttrs I m attrs).handlers[i]? = some (I.WithAttrs (m.handlers[i]) attrs) ∧
      (multiHandler.WithGroup I m name).handlers[i]? = some (I.WithGroup (m.handlers[i]) name)) ∧
    none ∉ deriveAll (fun h => I.WithAttrs h attrs) m.handlers ∧
    none ∉ deriveAll (fun h => I.WithGroup h name) m.handlers := by
  have ha : (multiHandler.WithAttrs I m attrs).handlers =
      m.handlers.map (fun h => I.WithAttrs h attrs) := by
    unfold multiHandler.WithAttrs
    simp only [deriveAll_eq_map, reduceOption_map_some]
  have hg : (multiHandler.WithGroup I m name).handlers =
      m.handlers.map (fun h => I.WithGroup h name) := by
    unfold multiHandler.WithGroup
    simp only [deriveAll_eq_map, reduceOption_map_some]
  refine ⟨ha, hg, by rw [ha, List.length_map], by rw [hg, List.length_map], ?_, ?_, ?_⟩
  · intro i hi
    rw [ha, hg]
    simp [hi]
  · rw [deriveAll_eq_map]; simp
  · rw [deriveAll_eq_map]; simp


/-! ### C4: derivation and the handlers that already exist -/

theorem take_append_length {α : Type} (l₁ l₂ : List α) (n : Nat) (h : l₁.length = n) :
    (l₁ ++ l₂).take n = l₁ := by
  subst h
  induction l₁ with
  | nil => simp
  | cons x xs ih => simp [ih]

theorem getD_set_self {α : Type} (l : List α) (p : Nat) (v d : α) (h : p < l.length) :
    (l.set p v).getD p d = v := by
  simp [List.getD_eq_getElem?_getD, h]

theorem getD_append_left {α : Type} (l : List α) (x d : α) (p : Nat) (h : p < l.length) :
    (l ++ [x]).getD p d = l.getD p d := by
  simp [List.getD_eq_getElem?_getD, List.getElem?_append_left h]

theorem getD_append_length {α : Type} (l : List α) (x d : α) :
    (l ++ [x]).getD l.length d = x := by
  simp [List.getD_eq_getElem?_getD]

theorem store_take_len (cells xs : List Attr) (i : Nat) (hi : i ≤ cells.length) :
    (store cells i xs).take i = cells.take i := by
  unfold store
  rw [List.append_assoc]
  exact take_append_length _ _ i (by rw [List.length_take]; omega)

theorem store_take_all (cells xs : List Attr) (i : Nat) (hi : i ≤ cells.length) :
    (store cells i xs).take (i + xs.length) = cells.take i ++ xs := by
  unfold store
  exact take_append_length _ _ _ (by rw [List.length_append, List.length_take]; omega)

theorem store_length (cells xs : List Attr) (i : Nat) (hi : i + xs.length ≤ cells.length) :
    (store cells i xs).length = cells.length := by
  unfold store
  rw [List.length_append, List.length_append, List.length_take, List.length_drop]
  omega

theorem read_length (heap : Heap) (s : Slice) (hfit : s.fits heap) :
    (s.read heap).length = s.len := by
  unfold Slice.read
  rw [List.length_take]
  rcases hfit with ⟨hle, h0 | ⟨_, hcells⟩⟩ <;> omega

/-- What `append` of a non-empty list does to a slice that fits the heap: the result
reads as the old elements followed by the new ones, the argument slice still reads
as before, and the result fits the new heap. -/
theorem append_read (grow : Nat → Nat → Nat) (heap : Heap) (s : Slice) (xs : List Attr)
    (hfit : s.fits heap) (hxs : xs ≠ []) (hgrow : ∀ n c, n ≤ grow n c) :
    (append grow heap s xs).2.read (append grow heap s xs).1 = s.read heap ++ xs ∧
    s.read (append grow heap s xs).1 = s.read heap ∧
    (append grow heap s xs).2.fits (append grow heap s xs).1 := by
  have hpos : 0 < xs.length := List.length_pos.mpr hxs
  have hrl := read_length heap s hfit
  by_cases hroom : s.len + xs.length ≤ s.cap
  · have happ : append grow heap s xs =
        (heap.set s.array (store (heap.getD s.array []) s.len xs),
          { s with len := s.len + xs.length }) := by
      unfold append; rw [if_pos hroom]
    rw [happ]
    rcases hfit with ⟨hle, h0 | ⟨harr, hcells⟩⟩
    · omega
    · have hget := getD_set_self heap s.array (store (heap.getD s.array []) s.len xs) [] harr
      have hle' : s.len ≤ (heap.getD s.array []).length := by omega
      refine ⟨?_, ?_, ?_⟩
      · show List.take (s.len + xs.length) _ = _
        rw [hget]
        exact store_take_all _ xs s.len hle'
      · show List.take s.len _ = _
        rw [hget]
        exact store_take_len _ xs s.len hle'
      · refine ⟨hroom, Or.inr ⟨?_, ?_⟩⟩
        · show s.array < (heap.set _ _).length
          rw [List.length_set]; exact harr
        · show (List.getD (heap.set _ _) s.array []).length = s.cap
          rw [hget, store_length _ xs s.len (by omega), hcells]
  · have happ : append grow heap s xs =
        (heap ++ [s.read heap ++ xs ++ List.replicate (grow (s.len + xs.length) s.cap -
          (s.len + xs.length)) zeroAttr],
          { array := heap.length, len := s.len + xs.length,
            cap := grow (s.len + xs.length) s.cap }) := by
      unfold append; rw [if_neg hroom]
    rw [happ]
    have hg := hgrow (s.len + xs.length) s.cap
    refine ⟨?_, ?_, ?_⟩
    · show List.take (s.len + xs.length) (List.getD (heap ++ [_]) heap.length []) = _
      rw [getD_append_length]
      exact take_append_length _ _ _ (by rw [List.length_append, hrl])
    · rcases hfit with ⟨hle, h0 | ⟨harr, _⟩⟩
      · have h0' : s.len = 0 := by omega
        show List.take s.len _ = List.take s.len _
        rw [h0', List.take_zero, List.take_zero]
      · show List.take s.len (List.getD (heap ++ [_]) s.array []) = _
        rw [getD_append_left _ _ _ _ harr]
        rfl
    · refine ⟨hg, Or.inr ⟨?_, ?_⟩⟩
      · show heap.length < (heap ++ [_]).length
        rw [List.length_append]; simp
      · show (List.getD (heap ++ [_]) heap.length []).length =
            grow (s.len + xs.length) s.cap
        rw [getD_append_length, List.length_append, List.length_append, List.length_replicate,
          hrl]
        omega


theorem growLoop_ge (newLen : Nat) :
    ∀ (fuel newcap : Nat), newLen ≤ newcap + 192 * fuel → newLen ≤ growLoop newLen fuel newcap := by
  intro fuel
  induction fuel with
  | zero => intro newcap h; simpa [growLoop] using h
  | succ n ih =>
    intro newcap h
    simp only [growLoop]
    split_ifs with hge
    · exact hge
    · apply ih
      omega

theorem nextslicecap_ge (newLen oldCap : Nat) : newLen ≤ nextslicecap newLen oldCap := by
  unfold nextslicecap
  simp only
  split_ifs with h1 h2
  · exact le_refl _
  · omega
  · apply growLoop_ge
    omega

/-- The list reading of `WithAttrs` is exact when the handler is derived, and the
receiver is left as it was: for a receiver whose slice fits the heap, the new
handler denotes `WithAttrs` of what the receiver denotes, the receiver denotes
the same handler after the call, and the new slice fits the new heap. -/
theorem SliceHandler_WithAttrs_view {W : Type} (grow : Nat → Nat → Nat) (heap : Heap)
    (h : SliceHandler W) (attrs : List Attr) (hfit : h.attrs.fits heap)
    (hgrow : ∀ n c, n ≤ grow n c) :
    (h.WithAttrs grow heap attrs).2.view (h.WithAttrs grow heap attrs).1 =
      (h.view heap).WithAttrs attrs ∧
    h.view (h.WithAttrs grow heap attrs).1 = h.view heap ∧
    (h.WithAttrs grow heap attrs).2.attrs.fits (h.WithAttrs grow heap attrs).1 := by
  by_cases hlen : attrs.length = 0
  · have h1 : h.WithAttrs grow heap attrs = (heap, h) := by
      unfold SliceHandler.WithAttrs; rw [if_pos hlen]
    have h2 : (h.view heap).WithAttrs attrs = h.view heap := by
      unfold TextHandler.WithAttrs; rw [if_pos hlen]
    rw [h1, h2]
    exact ⟨rfl, rfl, hfit⟩
  · have hne : attrs ≠ [] := fun h0 => hlen (by rw [h0]; rfl)
    by_cases hgr : h.group = ""
    · have h1 : h.WithAttrs grow heap attrs =
          ((append grow heap h.attrs attrs).1,
            { out := h.out, level := h.level, addSource := h.addSource, noColor := h.noColor,
              group := h.group, attrs := (append grow heap h.attrs attrs).2 }) := by
        unfold SliceHandler.WithAttrs
        rw [if_neg hlen, if_neg (by simpa using hgr)]
      have h2 : (h.view heap).WithAttrs attrs =
          { out := h.out, level := h.level, addSource := h.addSource, noColor := h.noColor,
            group := h.group, attrs := h.attrs.read heap ++ attrs } := by
        unfold TextHandler.WithAttrs
        rw [if_neg hlen, if_neg (by simpa [SliceHandler.view] using hgr)]
        rfl
      obtain ⟨ha, hb, hc⟩ := append_read grow heap h.attrs attrs hfit hne hgrow
      rw [h1, h2]
      refine ⟨?_, ?_, hc⟩
      · simp only [SliceHandler.view, ha]
      · simp only [SliceHandler.view, hb]
    · have hne2 : attrs.map (fun a =>
          ({ Key := h.group ++ "." ++ a.Key, Value := a.Value } : Attr)) ≠ [] := by
        simpa using hne
      have h1 : h.WithAttrs grow heap attrs =
          ((append grow heap h.attrs (attrs.map (fun a =>
              ({ Key := h.group ++ "." ++ a.Key, Value := a.Value } : Attr)))).1,
            { out := h.out, level := h.level, addSource := h.addSource, noColor := h.noColor,
              group := h.group, attrs := (append grow heap h.attrs (attrs.map (fun a =>
                ({ Key := h.group ++ "." ++ a.Key, Value := a.Value } : Attr)))).2 }) := by
        unfold SliceHandler.WithAttrs
        rw [if_neg hlen, if_pos (by simpa using hgr)]
      have h2 : (h.view heap).WithAttrs attrs =
          { out := h.out, level := h.level, addSource := h.addSource, noColor := h.noColor,
            group := h.group, attrs := h.attrs.read heap ++ attrs.map (fun a =>
              ({ Key := h.group ++ "." ++ a.Key, Value := a.Value } : Attr)) } := by
        unfold TextHandler.WithAttrs
        rw [if_neg hlen, if_pos (by simpa [SliceHandler.view] using hgr)]
        rfl
      obtain ⟨ha, hb, hc⟩ := append_read grow heap h.attrs _ hfit hne2 hgrow
      rw [h1, h2]
      refine ⟨?_, ?_, hc⟩
      · simp only [SliceHandler.view, ha]
      · simp only [SliceHandler.view, hb]

/-- The list reading of `WithGroup` is exact: it allocates nothing and copies the
slice header. -/
theorem SliceHandler_WithGroup_view {W : Type} (heap : Heap) (h : SliceHandler W)
    (name : String) :
    (h.WithGroup name).view heap = (h.view heap).WithGroup name ∧
    (h.WithGroup name).attrs = h.attrs := by
  unfold SliceHandler.WithGroup TextHandler.WithGroup
  by_cases hn : name = ""
  · simp only [hn, if_true, and_self]
  · by_cases hg : h.group = ""
    · simp only [hn, hg, if_false, if_true, SliceHandler.view, and_self]
    · simp only [hn, hg, if_false, SliceHandler.view, and_self]

/-- C4, at the failing input. A base handler holds three bound attrs in an array of
capacity 4. The first handler derived from it binds `user=alice` and reads so
after its derivation. After a second handler is derived from the same base with
`user=bob`, the first handler reads `user=bob` and writes it; the base itself
reads as before. -/
theorem WithAttrs_overwrites_earlier_derived :
    sharedBase.2.attrs = ⟨2, 3, 4⟩ ∧
    (firstDerived.2.view firstDerived.1).attrs =
      [⟨"a", .int 1⟩, ⟨"b", .int 2⟩, ⟨"c", .int 3⟩, ⟨"user", .str "alice"⟩] ∧
    (firstDerived.2.view secondDerived.1).attrs =
      [⟨"a", .int 1⟩, ⟨"b", .int 2⟩, ⟨"c", .int 3⟩, ⟨"user", .str "bob"⟩] ∧
    (firstDerived.2.view secondDerived.1).line exampleEnv bareRecord =
      "[INFO ] 2006/01/02 - 15:05:05: | started a=1 b=2 c=3 user=bob\n" ∧
    (sharedBase.2.view secondDerived.1).attrs = (sharedBase.2.view sharedBase.1).attrs := by
  decide


/-! ### C11, C12, C13: the buffered transport writer -/

theorem send_dispatched (N : Net) (w : HTTPWriter) (payload : List UInt8) (t : Transport) :
    (HTTPWriter.send N w payload t).dispatched = t.dispatched := by
  unfold HTTPWriter.send
  cases N.NewRequest "POST" w.endpoint with
  | some err => rfl
  | none =>
    simp only []
    cases N.Do _ with
    | error err => rfl
    | ok status => simp only []; split_ifs <;> rfl

theorem Write_of_newline (N : Net) (w : HTTPWriter) (p : List UInt8) (t : Transport)
    (hp : p.length > 0 ∧ p.getLast? = some 10) :
    (HTTPWriter.Write N w p t).2.2.dispatched = t.dispatched ++ [⟨w.buffer ++ p, w.async⟩] ∧
    (HTTPWriter.Write N w p t).2.1 = { w with buffer := [] } := by
  unfold HTTPWriter.Write
  simp only [hp, and_self, if_true]
  cases ha : w.async
  · simp only [Bool.false_eq_true, if_false, send_dispatched, and_self]
  · simp only [if_true, and_self]

theorem Write_of_no_newline (N : Net) (w : HTTPWriter) (p : List UInt8) (t : Transport)
    (hp : ¬ (p.length > 0 ∧ p.getLast? = some 10)) :
    (HTTPWriter.Write N w p t).2.2 = t ∧
    (HTTPWriter.Write N w p t).2.1 = { w with buffer := w.buffer ++ p } := by
  unfold HTTPWriter.Write
  simp only [hp, if_false, and_self]

/-- C11. A `Write` whose bytes are non-empty and end in the newline starts exactly
one `send`, with the buffered bytes followed by the written ones as payload, and
leaves the buffer empty. Any other `Write` starts none, leaves the transport as it
was and appends the bytes to the buffer. The JSON line of the test is delivered
verbatim; bytes without a newline are delivered by the write that supplies it. -/
theorem HTTPWriter_Write_framing (N : Net) (w : HTTPWriter) (p : List UInt8) (t : Transport) :
    (p ≠ [] ∧ p.getLast? = some 10 →
      (HTTPWriter.Write N w p t).2.2.dispatched =
        t.dispatched ++ [⟨w.buffer ++ p, w.async⟩] ∧
      (HTTPWriter.Write N w p t).2.1.buffer = []) ∧
    (¬ (p ≠ [] ∧ p.getLast? = some 10) →
      (HTTPWriter.Write N w p t).2.2 = t ∧
      (HTTPWriter.Write N w p t).2.1.buffer = w.buffer ++ p) ∧
    (HTTPWriter.Write okNet (NewHTTPWriter "http://collector") msgLine {}).2.2.dispatched =
      [⟨msgLine, false⟩] ∧
    (HTTPWriter.Write okNet (NewHTTPWriter "http://collector") msgLine {}).2.2.requests =
      [⟨"POST", "http://collector", "application/json", msgLine⟩] ∧
    (HTTPWriter.Write okNet (NewHTTPWriter "http://collector") (utf8Bytes "abc") {}).2.2.dispatched
      = [] ∧
    (HTTPWriter.Write okNet
      (HTTPWriter.Write okNet (NewHTTPWriter "http://collector") (utf8Bytes "abc") {}).2.1
      (utf8Bytes "\n") {}).2.2.dispatched = [⟨utf8Bytes "abc\n", false⟩] := by
  have hlen : ∀ q : List UInt8, q ≠ [] ↔ q.length > 0 := fun q =>
    ⟨fun h => List.length_pos.mpr h, fun h => List.length_pos.mp h⟩
  refine ⟨?_, ?_, by decide, by decide, by decide, by decide⟩
  · intro hp
    have h := Write_of_newline N w p t ⟨(hlen p).mp hp.1, hp.2⟩
    exact ⟨h.1, by rw [h.2]⟩
  · intro hp
    have h := Write_of_no_newline N w p t (fun hq => hp ⟨(hlen p).mpr hq.1, hq.2⟩)
    exact ⟨h.1, by rw [h.2]⟩

/-- C11, at a concrete input: the JSON line on a writer that already buffers `abc`. -/
theorem HTTPWriter_Write_framing_witness :
    (HTTPWriter.Write okNet { NewHTTPWriter "http://collector" with buffer := utf8Bytes "abc" }
      msgLine {}).2.2.dispatched = [⟨utf8Bytes "abc" ++ msgLine, false⟩] :=
  ((HTTPWriter_Write_framing okNet
    { NewHTTPWriter "http://collector" with buffer := utf8Bytes "abc" } msgLine {}).1
    (by decide)).1

/-- C13. Whatever the network does with the request, and whatever the bytes are,
`Write` returns the number of bytes written and no error. -/
theorem HTTPWriter_Write_result (N : Net) (w : HTTPWriter) (p : List UInt8) (t : Transport) :
    (HTTPWriter.Write N w p t).1 = (p.length, none) ∧
    (HTTPWriter.Write failingNet (NewHTTPWriter "http://collector") msgLine {}).1 =
      (12, none) ∧
    (HTTPWriter.Write failingNet (NewHTTPWriter "http://collector") msgLine {}).2.2.stderr =
      ["[slog-human] http writer: bad status 500 sending log\n"] := by
  refine ⟨?_, by decide, by decide⟩
  unfold HTTPWriter.Write
  simp only []
  split_ifs <;> rfl

theorem utf8Bytes_append (a b : String) : utf8Bytes (a ++ b) = utf8Bytes a ++ utf8Bytes b := by
  unfold utf8Bytes
  rw [String.data_append, List.flatMap_append]

theorem utf8Bytes_newline : utf8Bytes "\n" = [10] := by decide

theorem assemble_ends_newline (E : Env) (addSource noColor : Bool) (r : Record) (s : Slots) :
    ∃ body, assemble E addSource noColor r s = body ++ "\n" := by
  unfold assemble
  exact ⟨_, rfl⟩

/-- C12. A text handler whose sink is an `HTTPWriter` with an empty buffer: `Handle`
starts exactly one `send`, whose payload is the bytes of the assembled line, and
leaves the buffer empty; so for a record whose message holds a newline. -/
theorem Handle_one_delivery (E : Env) (N : Net) (h : TextHandler (HTTPWriter × Transport))
    (r : Record) (w : HTTPWriter) (t : Transport) (hout : h.out = httpSink N)
    (hbuf : w.buffer = []) :
    (h.Handle E r (w, t)).2.2.dispatched =
      t.dispatched ++ [⟨utf8Bytes (h.line E r), w.async⟩] ∧
    (h.Handle E r (w, t)).2.1.buffer = [] ∧
    (h.Handle E r (w, t)).1 = none ∧
    (httpHandler.Handle exampleEnv twoLineRecord (NewHTTPWriter "http://collector", {})).2.2.dispatched
      = [⟨utf8Bytes "[INFO ] 2006/01/02 - 15:05:05: | first\nsecond\n", false⟩] := by
  refine ⟨?_, ?_, rfl, by decide⟩
  all_goals
    obtain ⟨body, hbody⟩ := assemble_ends_newline E h.addSource h.noColor r (resolve h.attrs r)
    have hline : utf8Bytes (h.line E r) = utf8Bytes body ++ [10] := by
      unfold TextHandler.line
      rw [hbody, utf8Bytes_append, utf8Bytes_newline]
    have hp : (utf8Bytes (h.line E r)).length > 0 ∧
        (utf8Bytes (h.line E r)).getLast? = some 10 := by
      rw [hline]
      simp
    have hw := Write_of_newline N w (utf8Bytes (h.line E r)) t hp
    unfold TextHandler.Handle
    rw [hout]
    simp only [httpSink]
  · rw [hw.1, hbuf, List.nil_append]
  · rw [hw.2]

/-- C12, at a concrete input: the handler of the example on a fresh writer. -/
theorem Handle_one_delivery_witness :
    (httpHandler.Handle exampleEnv bareRecord (NewHTTPWriter "http://collector", {})).2.2.dispatched
      = [] ++ [⟨utf8Bytes (httpHandler.line exampleEnv bareRecord), false⟩] :=
  (Handle_one_delivery exampleEnv okNet httpHandler bareRecord (NewHTTPWriter "http://collector")
    {} rfl rfl).1


/-! ### C14, C15, C16: the two templates and the fields tail -/

theorem colorize_noColor (P : ColorPalette) (v : String) (t : ColorType) :
    colorize P true v t = v := by
  unfold colorize
  simp

theorem assemble_eq (E : Env) (addSource noColor : Bool) (r : Record) (s : Slots) :
    assemble E addSource noColor r s =
      primaryLine E addSource noColor r s ++ fieldsTail s.fields ++ "\n" := by
  have hb : (if s.bytes ≠ "" then s.bytes ++ "B" else s.bytes) =
      (if s.bytes ≠ "" then s.bytes ++ "B" else "") := by
    by_cases h : s.bytes = "" <;> simp [h]
  have hbt : ((if s.bytes ≠ "" then s.bytes ++ "B" else "") ≠ "" ∨ s.duration ≠ "") ↔
      (s.bytes ≠ "" ∨ s.duration ≠ "") := by
    by_cases h : s.bytes = ""
    · simp [h]
    · simp only [h, ne_eq, not_false_eq_true, if_true, true_or, iff_true]
      exact Or.inl (append_ne_empty_left _ _ h)
  have hf : s.fields.length > 0 ↔ s.fields ≠ [] := List.length_pos
  unfold assemble primaryLine requestLine defaultLine fieldsTail levelText reqIDText
    bytesTimeText typeText
  simp only [hb, hbt]
  by_cases hfields : s.fields = []
  · simp only [hfields, List.length_nil, gt_iff_lt, lt_self_iff_false, if_false, if_true,
      String.append_empty]
  · simp only [hf.mpr hfields, hfields, if_true, if_false, String.append_assoc]


/-- C14. When the resolved log type is `http_request`, the line is the request
template: level, request id segment, timestamp, source, the tag, status, method,
path, remote, bytes and duration segment, message, then the fields tail and a
newline; level, request id, tag, status, padded method, path and message pass
through `colorize`. With coloring disabled every part is the plain text. The
scenario record renders as stated. -/
theorem http_request_line {W : Type} (E : Env) (h : TextHandler W) (r : Record)
    (hlt : (resolve h.attrs r).logType = "http_request") :
    h.line E r =
      "[" ++ levelText E h.noColor r ++ "]" ++ reqIDText E h.noColor (resolve h.attrs r) ++
        E.Format r.Time E.TextTimeFormat ++ ":" ++ sourceText E h.addSource h.noColor r ++
        " | " ++ colorize E.Colors h.noColor "HTTP Request" .ColorLogType ++ " | " ++
        colorize E.Colors h.noColor (resolve h.attrs r).status .ColorStatus ++ " " ++
        colorize E.Colors h.noColor (padRight 7 (resolve h.attrs r).method) .ColorMethod ++ " " ++
        colorize E.Colors h.noColor (resolve h.attrs r).path .ColorPath ++ " " ++
        (resolve h.attrs r).remote ++ bytesTimeText (resolve h.attrs r) ++ " " ++
        colorize E.Colors h.noColor r.Message .ColorMessage ++
        fieldsTail (resolve h.attrs r).fields ++ "\n" ∧
    (h.noColor = true →
      h.line E r =
        "[" ++ padRight 5 (levelString r.Level) ++ "]" ++
          (if (resolve h.attrs r).requestID ≠ "" then
            " [" ++ (resolve h.attrs r).requestID ++ "]" else "") ++
          E.Format r.Time E.TextTimeFormat ++ ":" ++ sourceText E h.addSource true r ++
          " | " ++ "HTTP Request" ++ " | " ++ (resolve h.attrs r).status ++ " " ++
          padRight 7 (resolve h.attrs r).method ++ " " ++ (resolve h.attrs r).path ++ " " ++
          (resolve h.attrs r).remote ++ bytesTimeText (resolve h.attrs r) ++ " " ++
          r.Message ++ fieldsTail (resolve h.attrs r).fields ++ "\n") ∧
    plainHandler.line exampleEnv scenarioRecord =
      "[INFO ] [hostname] 2006/01/02 - 15:05:05: | HTTP Request | 200 GET     /health " ++
        " [  24B       25µs]  \n" := by
  have hgen : h.line E r = requestLine E h.addSource h.noColor r (resolve h.attrs r) ++
      fieldsTail (resolve h.attrs r).fields ++ "\n" := by
    unfold TextHandler.line
    rw [assemble_eq]
    unfold primaryLine
    rw [if_pos hlt]
  refine ⟨?_, ?_, by decide⟩
  · rw [hgen]; rfl
  · intro hnc
    rw [hgen, hnc]
    unfold requestLine levelText reqIDText
    simp only [colorize_noColor]

/-- C14, at a concrete input: the scenario record on the handler of the examples. -/
theorem http_request_line_witness :
    plainHandler.line exampleEnv scenarioRecord =
      "[" ++ padRight 5 (levelString LevelInfo) ++ "]" ++ " [hostname]" ++
        " 2006/01/02 - 15:05:05" ++ ":" ++ "" ++ " | " ++ "HTTP Request" ++ " | " ++ "200" ++
        " " ++ padRight 7 "GET" ++ " " ++ "/health" ++ " " ++ "" ++
        " [  24B       25µs] " ++ " " ++ "" ++ "" ++ "\n" := by
  have h := (http_request_line exampleEnv plainHandler scenarioRecord (by decide)).2.1 rfl
  rw [h]
  decide

/-- C15. When the resolved log type is not `http_request`, the line is the default
template: level, timestamp, source, the log type segment, message, then the fields
tail and a newline. With coloring disabled every part is the plain text. The line
is the same for all slot states with this log type and these fields: method, path,
status, remote, request id, bytes and duration have no part in it. -/
theorem default_line {W : Type} (E : Env) (h : TextHandler W) (r : Record)
    (hlt : (resolve h.attrs r).logType ≠ "http_request") :
    h.line E r =
      "[" ++ levelText E h.noColor r ++ "]" ++ E.Format r.Time E.TextTimeFormat ++ ":" ++
        sourceText E h.addSource h.noColor r ++ typeText E h.noColor (resolve h.attrs r) ++
        " | " ++ colorize E.Colors h.noColor r.Message .ColorMessage ++
        fieldsTail (resolve h.attrs r).fields ++ "\n" ∧
    (h.noColor = true →
      h.line E r =
        "[" ++ padRight 5 (levelString r.Level) ++ "]" ++ E.Format r.Time E.TextTimeFormat ++
          ":" ++ sourceText E h.addSource true r ++
          (if (resolve h.attrs r).logType ≠ "" then " | " ++ (resolve h.attrs r).logType
            else "") ++
          " | " ++ r.Message ++ fieldsTail (resolve h.attrs r).fields ++ "\n") ∧
    (∀ s : Slots, s.logType = (resolve h.attrs r).logType →
      s.fields = (resolve h.attrs r).fields →
      assemble E h.addSource h.noColor r s = h.line E r) := by
  have hgen : h.line E r = defaultLine E h.addSource h.noColor r (resolve h.attrs r) ++
      fieldsTail (resolve h.attrs r).fields ++ "\n" := by
    unfold TextHandler.line
    rw [assemble_eq]
    unfold primaryLine
    rw [if_neg hlt]
  refine ⟨?_, ?_, ?_⟩
  · rw [hgen]; rfl
  · intro hnc
    rw [hgen, hnc]
    unfold defaultLine levelText typeText
    simp only [colorize_noColor]
  · intro s hs hf
    rw [hgen, assemble_eq]
    unfold primaryLine
    rw [hs, if_neg hlt, hf]
    unfold defaultLine typeText
    rw [hs]

/-- C15, at a concrete input: a record with request attrs and without a log type. -/
theorem default_line_witness :
    plainHandler.line exampleEnv mixedRecord =
      "[INFO ] 2006/01/02 - 15:05:05: | started foo=bar\n" := by
  have h := (default_line exampleEnv plainHandler mixedRecord (by decide)).2.1 rfl
  rw [h]
  decide

theorem tailAttrs_eq_shownAttrs (bound : List Attr) (r : Record) :
    tailAttrs bound r = shownAttrs bound r := by
  unfold tailAttrs shownAttrs
  congr 1
  · apply List.filter_congr
    intro a _
    simp [recognized]
  · apply List.filter_congr
    intro a _
    by_cases ha : keyCase a.Key = .other
    · have hmem : a.Key ∈ (r.attrs.filter (fun b => !recognized b.Key)).map (fun b => b.Key) ↔
          a.Key ∈ r.attrs.map (fun b => b.Key) := by
        simp only [List.mem_map, List.mem_filter]
        constructor
        · rintro ⟨b, ⟨hb, _⟩, hk⟩
          exact ⟨b, hb, hk⟩
        · rintro ⟨b, hb, hk⟩
          refine ⟨b, ⟨hb, ?_⟩, hk⟩
          simp [recognized, hk, ha]
      clear hmem
      simp only [recognized, ha, ne_eq, not_true_eq_false, decide_False, Bool.not_false,
        Bool.true_and, true_and, decide_eq_decide, List.mem_map, List.mem_filter,
        decide_eq_true_eq, not_exists, not_and, and_imp]
      constructor
      · intro h x hx hk
        exact h x hx (by rw [hk]; simp [ha]) hk
      · intro h x hx _
        exact h x hx
    · simp [recognized, ha]

/-- C16. The generic fields are the texts of the record's non-recognized attrs in
record order, then of the bound non-recognized attrs whose key is not among them,
in bound order. The line is the primary content, the fields tail and a newline;
the tail is empty for no fields and otherwise has one space before each field. -/
theorem fields_tail {W : Type} (E : Env) (h : TextHandler W) (r : Record) :
    (resolve h.attrs r).fields = (tailAttrs h.attrs r).map fieldText ∧
    h.line E r =
      primaryLine E h.addSource h.noColor r (resolve h.attrs r) ++
        fieldsTail ((tailAttrs h.attrs r).map fieldText) ++ "\n" ∧
    fieldsTail [] = "" ∧
    (∀ f : String, fieldsTail [f] = " " ++ f) ∧
    (∀ (f g : String) (gs : List String),
      fieldsTail (f :: g :: gs) = " " ++ f ++ fieldsTail (g :: gs)) ∧
    plainHandler.line exampleEnv mixedRecord =
      primaryLine exampleEnv false true mixedRecord (resolve [] mixedRecord) ++ " foo=bar" ++
        "\n" := by
  have hfields : (resolve h.attrs r).fields = (tailAttrs h.attrs r).map fieldText := by
    rw [tailAttrs_eq_shownAttrs]
    exact resolve_fields h.attrs r
  refine ⟨hfields, ?_, rfl, fun f => rfl, ?_, by decide⟩
  · unfold TextHandler.line
    rw [assemble_eq, hfields]
  · intro f g gs
    unfold fieldsTail
    simp only [List.cons_ne_nil, if_false, Join, String.append_assoc]


/-! ### C18, C19: recognized keys and the group in the fields -/

/-- C18. Every attr behind a generic field has a non-recognized key, and the
generic fields stay the same when all attrs with a recognized key are removed from
the record and from the handler: such an attr contributes no field. -/
theorem recognized_never_in_fields (bound : List Attr) (r : Record) :
    (∃ shown : List Attr, (resolve bound r).fields = shown.map fieldText ∧
      (∀ a ∈ shown, recognized a.Key = false) ∧ (∀ a ∈ shown, a ∈ r.attrs ∨ a ∈ bound)) ∧
    (resolve bound r).fields =
      (resolve (bound.filter (fun a => !recognized a.Key))
        { r with attrs := r.attrs.filter (fun a => !recognized a.Key) }).fields ∧
    (resolve [⟨"status", .str "500"⟩, ⟨"region", .str "eu"⟩] statusRecord).fields =
      ["region=eu"] := by
  have hfields : ∀ (b : List Attr) (q : Record),
      (resolve b q).fields = (tailAttrs b q).map fieldText := by
    intro b q
    rw [tailAttrs_eq_shownAttrs]
    exact resolve_fields b q
  refine ⟨⟨tailAttrs bound r, hfields bound r, ?_, ?_⟩, ?_, by decide⟩
  · intro a ha
    unfold tailAttrs at ha
    rcases List.mem_append.mp ha with h1 | h1
    · have := (List.mem_filter.mp h1).2
      simpa using this
    · have := (List.mem_filter.mp h1).2
      simp only [Bool.and_eq_true, Bool.not_eq_true'] at this
      exact this.1
  · intro a ha
    unfold tailAttrs at ha
    rcases List.mem_append.mp ha with h1 | h1
    · exact Or.inl (List.mem_filter.mp h1).1
    · exact Or.inr (List.mem_filter.mp h1).1
  · rw [hfields, hfields]
    unfold tailAttrs
    simp only [List.filter_filter, Bool.and_self]
    congr 2
    apply List.filter_congr
    intro a _
    cases recognized a.Key <;> simp

/-- C19. `Handle` does not read the group: a handler writes the same line, and
does the same, with any other group. The texts of the record's own non-recognized
attrs open the generic fields, each under its own key. -/
theorem group_not_rendered {W : Type} (E : Env) (h : TextHandler W) (r : Record) (g : String)
    (w : W) :
    ({ h with group := g } : TextHandler W).line E r = h.line E r ∧
    ({ h with group := g } : TextHandler W).Handle E r w = h.Handle E r w ∧
    (resolve h.attrs r).fields.take (r.attrs.filter (fun a => !recognized a.Key)).length =
      (r.attrs.filter (fun a => !recognized a.Key)).map
        (fun a => a.Key ++ "=" ++ a.Value.text) ∧
    groupedHandler.line exampleEnv mixedRecord =
      "[INFO ] 2006/01/02 - 15:05:05: | started foo=bar\n" := by
  refine ⟨rfl, rfl, ?_, by decide⟩
  have hfields : (resolve h.attrs r).fields = (tailAttrs h.attrs r).map fieldText := by
    rw [tailAttrs_eq_shownAttrs]
    exact resolve_fields h.attrs r
  rw [hfields]
  unfold tailAttrs
  rw [List.map_append, List.take_left']
  · rfl
  · rw [List.length_map]


/-! ### Where the characters of a line come from -/

theorem mem_data_append (c : Char) (a b : String) :
    c ∈ (a ++ b).data ↔ c ∈ a.data ∨ c ∈ b.data := by
  rw [String.data_append, List.mem_append]

theorem colorize_empty (P : ColorPalette) (n : Bool) (t : ColorType) :
    colorize P n "" t = "" := by
  unfold colorize
  simp

theorem colorize_cases_status (P : ColorPalette) (v : String) (hv : v ≠ "") :
    Wrapped P v (colorize P false v .ColorStatus) := by
  simp only [colorize, Bool.false_eq_true, if_false, hv]
  split_ifs
  · exact Or.inr ⟨P.Status2xx, by simp [ColorPalette.strings], rfl⟩
  · exact Or.inr ⟨P.Status3xx, by simp [ColorPalette.strings], rfl⟩
  · exact Or.inr ⟨P.Status4xx, by simp [ColorPalette.strings], rfl⟩
  · exact Or.inr ⟨P.Status5xx, by simp [ColorPalette.strings], rfl⟩
  · exact Or.inl rfl

theorem colorize_cases_method (P : ColorPalette) (v : String) (hv : v ≠ "") :
    Wrapped P v (colorize P false v .ColorMethod) := by
  simp only [colorize, Bool.false_eq_true, if_false, hv]
  split_ifs
  · exact Or.inr ⟨P.MethodGET, by simp [ColorPalette.strings], rfl⟩
  · exact Or.inr ⟨P.MethodPOST, by simp [ColorPalette.strings], rfl⟩
  · exact Or.inr ⟨P.MethodPUT, by simp [ColorPalette.strings], rfl⟩
  · exact Or.inr ⟨P.MethodDELETE, by simp [ColorPalette.strings], rfl⟩
  · exact Or.inr ⟨P.MethodPATCH, by simp [ColorPalette.strings], rfl⟩
  · exact Or.inr ⟨P.MethodHEAD, by simp [ColorPalette.strings], rfl⟩
  · exact Or.inr ⟨P.MethodOPTIONS, by simp [ColorPalette.strings], rfl⟩
  · exact Or.inr ⟨P.MethodCONNECT, by simp [ColorPalette.strings], rfl⟩
  · exact Or.inr ⟨P.MethodTRACE, by simp [ColorPalette.strings], rfl⟩
  · exact Or.inl rfl

theorem colorize_cases_level (P : ColorPalette) (v : String) (hv : v ≠ "") :
    Wrapped P v (colorize P false v .ColorLevel) := by
  simp only [colorize, Bool.false_eq_true, if_false, hv]
  split_ifs
  · exact Or.inr ⟨P.LevelDEBUG, by simp [ColorPalette.strings], rfl⟩
  · exact Or.inr ⟨P.LevelINFO, by simp [ColorPalette.strings], rfl⟩
  · exact Or.inr ⟨P.LevelWARN, by simp [ColorPalette.strings], rfl⟩
  · exact Or.inr ⟨P.LevelERROR, by simp [ColorPalette.strings], rfl⟩
  · exact Or.inl rfl

theorem colorize_cases (P : ColorPalette) (n : Bool) (v : String) (t : ColorType) :
    Wrapped P v (colorize P n v t) ∧ (n = true → colorize P n v t = v) := by
  cases n with
  | true => exact ⟨Or.inl (colorize_noColor P v t), fun _ => colorize_noColor P v t⟩
  | false =>
    refine ⟨?_, fun h => absurd h (by decide)⟩
    by_cases hv : v = ""
    · left; rw [hv]; exact colorize_empty P false t
    · cases t
      · simp only [colorize, Bool.false_eq_true, if_false, hv]; exact Or.inl rfl
      · exact colorize_cases_method P v hv
      · exact colorize_cases_status P v hv
      · exact colorize_cases_level P v hv
      · simp only [colorize, Bool.false_eq_true, if_false, hv]
        exact Or.inr ⟨P.RequestID, by simp [ColorPalette.strings], rfl⟩
      · simp only [colorize, Bool.false_eq_true, if_false, hv]
        exact Or.inr ⟨P.Path, by simp [ColorPalette.strings], rfl⟩
      · simp only [colorize, Bool.false_eq_true, if_false, hv]
        exact Or.inr ⟨P.Line, by simp [ColorPalette.strings], rfl⟩
      · simp only [colorize, Bool.false_eq_true, if_false, hv]
        exact Or.inr ⟨P.LogType, by simp [ColorPalette.strings], rfl⟩
      · simp only [colorize, Bool.false_eq_true, if_false, hv]
        exact Or.inr ⟨P.Message, by simp [ColorPalette.strings], rfl⟩


theorem colorize_mem (c : Char) (P : ColorPalette) (n : Bool) (v : String) (t : ColorType)
    (hv : c ∉ v.data) (hP : n = false → ∀ s ∈ P.strings, c ∉ s.data) :
    c ∉ (colorize P n v t).data := by
  cases n with
  | true => rw [colorize_noColor]; exact hv
  | false =>
    rcases (colorize_cases P false v t).1 with h | ⟨a, ha, h⟩
    · rw [h]; exact hv
    · rw [h, mem_data_append, mem_data_append]
      have hreset : P.Reset ∈ P.strings := by simp [ColorPalette.strings]
      rintro ((h1 | h1) | h1)
      · exact hP rfl a ha h1
      · exact hv h1
      · exact hP rfl _ hreset h1

theorem padRight_mem (c : Char) (k : Nat) (v : String) (hv : c ∉ v.data) (hc : c ≠ ' ') :
    c ∉ (padRight k v).data := by
  unfold padRight
  rw [mem_data_append]
  rintro (h | h)
  · exact hv h
  · exact hc (List.eq_of_mem_replicate h)

theorem padLeft_mem (c : Char) (k : Nat) (v : String) (hv : c ∉ v.data) (hc : c ≠ ' ') :
    c ∉ (padLeft k v).data := by
  unfold padLeft
  rw [mem_data_append]
  rintro (h | h)
  · exact hc (List.eq_of_mem_replicate h)
  · exact hv h

theorem digitChar_mem (n : Nat) (hn : n < 10) : Nat.digitChar n ∈ "0123456789".data := by
  interval_cases n <;> decide

theorem toDigitsCore_mem (c : Char) :
    ∀ (fuel n : Nat) (ds : List Char), (c ∈ ds → c ∈ "0123456789".data) →
      c ∈ Nat.toDigitsCore 10 fuel n ds → c ∈ "0123456789".data := by
  intro fuel
  induction fuel with
  | zero => intro n ds hds h; exact hds (by simpa [Nat.toDigitsCore] using h)
  | succ k ih =>
    intro n ds hds h
    have hd : c ∈ Nat.digitChar (n % 10) :: ds → c ∈ "0123456789".data := by
      intro hm
      rcases List.mem_cons.mp hm with rfl | hm
      · exact digitChar_mem _ (Nat.mod_lt _ (by decide))
      · exact hds hm
    simp only [Nat.toDigitsCore] at h
    split_ifs at h
    · exact hd h
    · exact ih _ _ hd h

theorem natText_mem (c : Char) (n : Nat) (h : c ∈ (toString n).data) :
    c ∈ "0123456789".data := by
  have h' : c ∈ Nat.toDigits 10 n := h
  unfold Nat.toDigits at h'
  exact toDigitsCore_mem c _ _ [] (fun hh => absurd hh (List.not_mem_nil _)) h'

theorem natText_not_mem (c : Char) (n : Nat) (hc : c ∉ literalChars) :
    c ∉ (toString n).data := by
  intro h
  have hd := natText_mem c n h
  apply hc
  have hsub : ∀ x ∈ "0123456789".data, x ∈ literalChars := by decide
  exact hsub c hd

theorem literal_not_mem (c : Char) (hc : c ∉ literalChars) (t : String)
    (ht : ∀ x ∈ t.data, x ∈ literalChars) : c ∉ t.data :=
  fun h => hc (ht c h)

theorem signedText_not_mem (c : Char) (v : Int) (hc : c ∉ literalChars) :
    c ∉ (signedText v).data := by
  unfold signedText
  split_ifs <;> rw [mem_data_append] <;> rintro (h | h)
  · exact literal_not_mem c hc "+" (by decide) h
  · exact natText_not_mem c _ hc h
  · exact literal_not_mem c hc "-" (by decide) h
  · exact natText_not_mem c _ hc h

theorem levelString_not_mem (c : Char) (l : Level) (hc : c ∉ literalChars) :
    c ∉ (levelString l).data := by
  have hplain : ∀ base : String, (∀ x ∈ base.data, x ∈ literalChars) → c ∉ base.data :=
    fun base hb => literal_not_mem c hc base hb
  have hsigned : ∀ (base : String) (val : Int), (∀ x ∈ base.data, x ∈ literalChars) →
      c ∉ (base ++ signedText val).data := by
    intro base val hb
    rw [mem_data_append]
    rintro (h | h)
    · exact literal_not_mem c hc base hb h
    · exact signedText_not_mem c val hc h
  unfold levelString
  simp only []
  split_ifs
  · exact hplain "DEBUG" (by decide)
  · exact hsigned "DEBUG" _ (by decide)
  · exact hplain "INFO" (by decide)
  · exact hsigned "INFO" _ (by decide)
  · exact hplain "WARN" (by decide)
  · exact hsigned "WARN" _ (by decide)
  · exact hplain "ERROR" (by decide)
  · exact hsigned "ERROR" _ (by decide)

theorem Base_not_mem (c : Char) (p : String) (hc : c ∉ literalChars) (hp : c ∉ p.data) :
    c ∉ (Base p).data := by
  unfold Base
  simp only []
  split_ifs
  · exact literal_not_mem c hc "." (by decide)
  · exact literal_not_mem c hc "/" (by decide)
  · intro h
    apply hp
    have h3 : c ∈ (List.takeWhile (fun c => decide (c ≠ '/'))
        (List.dropWhile (fun c => decide (c = '/')) p.data.reverse)) := by
      simpa using h
    have h4 := (List.takeWhile_sublist _).subset h3
    have h5 := (List.dropWhile_sublist _).subset h4
    exact List.mem_reverse.mp h5

theorem Join_not_mem (c : Char) (sep : String) (hsep : c ∉ sep.data) :
    ∀ fs : List String, (∀ f ∈ fs, c ∉ f.data) → c ∉ (Join fs sep).data := by
  intro fs
  induction fs with
  | nil => intro _; simp [Join]
  | cons f rest ih =>
    intro hfs
    cases rest with
    | nil => simpa [Join] using hfs f (List.mem_cons_self _ _)
    | cons g gs =>
      simp only [Join]
      rw [mem_data_append, mem_data_append]
      rintro ((h | h) | h)
      · exact hfs f (List.mem_cons_self _ _) h
      · exact hsep h
      · exact ih (fun x hx => hfs x (List.mem_cons_of_mem _ hx)) h


theorem not_mem_append (c : Char) (a b : String) (ha : c ∉ a.data) (hb : c ∉ b.data) :
    c ∉ (a ++ b).data := by
  rw [mem_data_append]
  rintro (h | h)
  · exact ha h
  · exact hb h

theorem ne_of_not_literal (c x : Char) (hc : c ∉ literalChars) (hx : x ∈ literalChars) :
    c ≠ x :=
  fun h => hc (h ▸ hx)

theorem durationText_eq (v : Value) : durationText v = v.text := by
  cases v <;> rfl

theorem fieldText_not_mem (c : Char) (a : Attr) (hc : c ∉ literalChars)
    (hk : c ∉ a.Key.data) (hv : c ∉ a.Value.text.data) : c ∉ (fieldText a).data := by
  unfold fieldText
  exact not_mem_append _ _ _
    (not_mem_append _ _ _ hk (literal_not_mem c hc "=" (by decide))) hv

theorem free_empty (c : Char) : Slots.free c {} := by
  simp [Slots.free]

theorem recordStep_free (c : Char) (s : Slots) (a : Attr) (hc : c ∉ literalChars)
    (hs : s.free c) (hk : c ∉ a.Key.data) (hv : c ∉ a.Value.text.data) :
    (recordStep s a).free c := by
  obtain ⟨h1, h2, h3, h4, h5, h6, h7, h8, h9⟩ := hs
  have hf := fieldText_not_mem c a hc hk hv
  unfold recordStep
  cases keyCase a.Key <;> simp only [Slots.free, durationText_eq] <;>
    refine ⟨?_, ?_, ?_, ?_, ?_, ?_, ?_, ?_, ?_⟩ <;> first
      | assumption
      | (intro f hfm
         rcases List.mem_append.mp hfm with h | h
         · exact h9 f h
         · rw [List.mem_singleton.mp h]; exact hf)

theorem handlerStep_free (c : Char) (s : Slots) (a : Attr) (hc : c ∉ literalChars)
    (hs : s.free c) (hk : c ∉ a.Key.data) (hv : c ∉ a.Value.text.data) :
    (handlerStep s a).free c := by
  have hs' := hs
  obtain ⟨h1, h2, h3, h4, h5, h6, h7, h8, h9⟩ := hs
  have hf := fieldText_not_mem c a hc hk hv
  unfold handlerStep
  cases keyCase a.Key <;> simp only [] <;> split_ifs <;>
    first
      | exact hs'
      | (simp only [Slots.free, durationText_eq]
         refine ⟨?_, ?_, ?_, ?_, ?_, ?_, ?_, ?_, ?_⟩ <;> first
           | assumption
           | (intro f hfm
              rcases List.mem_append.mp hfm with h | h
              · exact h9 f h
              · rw [List.mem_singleton.mp h]; exact hf))

theorem foldl_free (c : Char) (step : Slots → Attr → Slots)
    (hstep : ∀ s a, s.free c → c ∉ a.Key.data → c ∉ a.Value.text.data → (step s a).free c) :
    ∀ (attrs : List Attr) (s : Slots), s.free c →
      (∀ a ∈ attrs, c ∉ a.Key.data ∧ c ∉ a.Value.text.data) → (attrs.foldl step s).free c := by
  intro attrs
  induction attrs with
  | nil => intro s hs _; exact hs
  | cons a rest ih =>
    intro s hs h
    rw [List.foldl_cons]
    exact ih _ (hstep s a hs (h a (List.mem_cons_self _ _)).1 (h a (List.mem_cons_self _ _)).2)
      (fun x hx => h x (List.mem_cons_of_mem _ hx))

theorem resolve_free (c : Char) (bound : List Attr) (r : Record) (hc : c ∉ literalChars)
    (h : ∀ a ∈ r.attrs ++ bound, c ∉ a.Key.data ∧ c ∉ a.Value.text.data) :
    (resolve bound r).free c := by
  unfold resolve scanRecord
  apply foldl_free c handlerStep (fun s a => handlerStep_free c s a hc)
  · apply foldl_free c recordStep (fun s a => recordStep_free c s a hc)
    · exact free_empty c
    · exact fun a ha => h a (List.mem_append_left _ ha)
  · exact fun a ha => h a (List.mem_append_right _ ha)

theorem sourceText_not_mem (c : Char) (E : Env) (addSource noColor : Bool) (r : Record)
    (hc : c ∉ literalChars) (hfile : c ∉ (E.CallersFrames r.PC).File.data)
    (hP : noColor = false → ∀ s ∈ E.Colors.strings, c ∉ s.data) :
    c ∉ (sourceText E addSource noColor r).data := by
  have hline : c ∉ (colorize E.Colors noColor
      (padRight 3 (toString (E.CallersFrames r.PC).Line)) .ColorLine).data :=
    colorize_mem c _ _ _ _
      (padRight_mem c 3 _ (natText_not_mem c _ hc) (ne_of_not_literal c ' ' hc (by decide))) hP
  have hbase := Base_not_mem c _ hc hfile
  have l1 := literal_not_mem c hc " (" (by decide)
  have l2 := literal_not_mem c hc ":" (by decide)
  have l3 := literal_not_mem c hc ")" (by decide)
  have l4 := literal_not_mem c hc "" (by decide)
  unfold sourceText
  simp only []
  split_ifs
  · repeat' (first | assumption | apply not_mem_append)
  · exact l4
  · exact l4

theorem fieldsTail_not_mem (c : Char) (fields : List String) (hc : c ∉ literalChars)
    (hf : ∀ f ∈ fields, c ∉ f.data) : c ∉ (fieldsTail fields).data := by
  have l1 := literal_not_mem c hc " " (by decide)
  unfold fieldsTail
  split_ifs
  · exact literal_not_mem c hc "" (by decide)
  · exact not_mem_append _ _ _ l1 (Join_not_mem c " " l1 fields hf)

theorem primaryLine_not_mem (c : Char) (E : Env) (addSource noColor : Bool) (r : Record)
    (s : Slots) (hc : c ∉ literalChars) (hs : s.free c) (hmsg : c ∉ r.Message.data)
    (hts : c ∉ (E.Format r.Time E.TextTimeFormat).data)
    (hfile : c ∉ (E.CallersFrames r.PC).File.data)
    (hP : noColor = false → ∀ s ∈ E.Colors.strings, c ∉ s.data) :
    c ∉ (primaryLine E addSource noColor r s).data := by
  obtain ⟨h1, h2, h3, h4, h5, h6, h7, h8, _⟩ := hs
  have hsp := ne_of_not_literal c ' ' hc (by decide)
  have hsrc := sourceText_not_mem c E addSource noColor r hc hfile hP
  have hlevel : c ∉ (levelText E noColor r).data :=
    colorize_mem c _ _ _ _ (padRight_mem c 5 _ (levelString_not_mem c _ hc) hsp) hP
  have hmsg' := colorize_mem c E.Colors noColor r.Message .ColorMessage hmsg hP
  have htag := colorize_mem c E.Colors noColor "HTTP Request" .ColorLogType
    (literal_not_mem c hc "HTTP Request" (by decide)) hP
  have hstatus := colorize_mem c E.Colors noColor s.status .ColorStatus h4 hP
  have hmethod := colorize_mem c E.Colors noColor (padRight 7 s.method) .ColorMethod
    (padRight_mem c 7 _ h2 hsp) hP
  have hpath := colorize_mem c E.Colors noColor s.path .ColorPath h3 hP
  have hreq := colorize_mem c E.Colors noColor s.requestID .ColorRequestID h7 hP
  have htype := colorize_mem c E.Colors noColor s.logType .ColorLogType h1 hP
  have l0 := literal_not_mem c hc "" (by decide)
  have l1 := literal_not_mem c hc "[" (by decide)
  have l2 := literal_not_mem c hc "]" (by decide)
  have l3 := literal_not_mem c hc ":" (by decide)
  have l4 := literal_not_mem c hc " | " (by decide)
  have l5 := literal_not_mem c hc " " (by decide)
  have l6 := literal_not_mem c hc " [" (by decide)
  have l7 := literal_not_mem c hc "] " (by decide)
  have l8 := literal_not_mem c hc "B" (by decide)
  have hreqid : c ∉ (reqIDText E noColor s).data := by
    unfold reqIDText
    split_ifs
    · repeat' (first | assumption | apply not_mem_append)
    · exact l0
  have hbt : c ∉ (bytesTimeText s).data := by
    have hb1 : c ∉ (padLeft 5 (s.bytes ++ "B")).data :=
      padLeft_mem c 5 _ (not_mem_append _ _ _ h8 l8) hsp
    have hb2 : c ∉ (padLeft 5 "").data := padLeft_mem c 5 _ l0 hsp
    have hd := padLeft_mem c 10 _ h6 hsp
    unfold bytesTimeText
    split_ifs
    · repeat' (first | assumption | apply not_mem_append)
    · repeat' (first | assumption | apply not_mem_append)
    · exact l0
  have htypeText : c ∉ (typeText E noColor s).data := by
    unfold typeText
    split_ifs
    · repeat' (first | assumption | apply not_mem_append)
    · exact l0
  unfold primaryLine
  split_ifs
  · unfold requestLine
    refine not_mem_append _ _ _ ?_ hmsg'
    refine not_mem_append _ _ _ ?_ l5
    refine not_mem_append _ _ _ ?_ hbt
    refine not_mem_append _ _ _ ?_ h5
    refine not_mem_append _ _ _ ?_ l5
    refine not_mem_append _ _ _ ?_ hpath
    refine not_mem_append _ _ _ ?_ l5
    refine not_mem_append _ _ _ ?_ hmethod
    refine not_mem_append _ _ _ ?_ l5
    refine not_mem_append _ _ _ ?_ hstatus
    refine not_mem_append _ _ _ ?_ l4
    refine not_mem_append _ _ _ ?_ htag
    refine not_mem_append _ _ _ ?_ l4
    refine not_mem_append _ _ _ ?_ hsrc
    refine not_mem_append _ _ _ ?_ l3
    refine not_mem_append _ _ _ ?_ hts
    refine not_mem_append _ _ _ ?_ hreqid
    refine not_mem_append _ _ _ ?_ l2
    exact not_mem_append _ _ _ l1 hlevel
  · unfold defaultLine
    refine not_mem_append _ _ _ ?_ hmsg'
    refine not_mem_append _ _ _ ?_ l4
    refine not_mem_append _ _ _ ?_ htypeText
    refine not_mem_append _ _ _ ?_ hsrc
    refine not_mem_append _ _ _ ?_ l3
    refine not_mem_append _ _ _ ?_ hts
    refine not_mem_append _ _ _ ?_ l2
    exact not_mem_append _ _ _ l1 hlevel

/-- A character that is absent from the inputs of a line and is not one of the
characters the templates contribute occurs nowhere before the final newline. -/
theorem content_not_mem {W : Type} (c : Char) (E : Env) (h : TextHandler W) (r : Record)
    (hc : c ∉ literalChars) (habs : absentFromInputs c E h r) :
    c ∉ (primaryLine E h.addSource h.noColor r (resolve h.attrs r) ++
      fieldsTail (resolve h.attrs r).fields).data := by
  obtain ⟨hmsg, hts, hfile, hattrs, hP⟩ := habs
  have hfree := resolve_free c h.attrs r hc hattrs
  exact not_mem_append _ _ _
    (primaryLine_not_mem c E h.addSource h.noColor r _ hc hfree hmsg hts hfile hP)
    (fieldsTail_not_mem c _ hc hfree.2.2.2.2.2.2.2.2)


/-! ### C17: the end of the line -/

theorem line_eq {W : Type} (E : Env) (h : TextHandler W) (r : Record) :
    h.line E r =
      primaryLine E h.addSource h.noColor r (resolve h.attrs r) ++
        fieldsTail (resolve h.attrs r).fields ++ "\n" := by
  unfold TextHandler.line
  exact assemble_eq E h.addSource h.noColor r _

theorem data_append_newline (a : String) : (a ++ "\n").data = a.data ++ ['\n'] := by
  rw [String.data_append]

/-- C17 (as amended). The line is the primary content and the fields tail followed
by the newline that `Handle` appends: its last character is a newline. `Handle`
hands the whole line to the sink in one `Write` and returns nil. When no newline
occurs in the message, the timestamp, the source file name, the attrs and (with
coloring enabled) the palette, no character before the last one is a newline. -/
theorem line_ends_with_newline {W : Type} (E : Env) (h : TextHandler W) (r : Record) (w : W) :
    h.line E r =
      primaryLine E h.addSource h.noColor r (resolve h.attrs r) ++
        fieldsTail (resolve h.attrs r).fields ++ "\n" ∧
    (h.line E r).data.getLast? = some '\n' ∧
    h.Handle E r w = (none, (h.out.Write (h.line E r) w).2) ∧
    (absentFromInputs '\n' E h r → '\n' ∉ (h.line E r).data.dropLast) := by
  refine ⟨line_eq E h r, ?_, rfl, ?_⟩
  · rw [line_eq, data_append_newline]
    simp
  · intro habs
    rw [line_eq, data_append_newline, List.dropLast_concat]
    exact content_not_mem '\n' E h r (by decide) habs

/-- C17, at a concrete input: a record without newlines on the handler of the
examples. -/
theorem line_ends_with_newline_witness :
    '\n' ∉ (plainHandler.line exampleEnv mixedRecord).data.dropLast :=
  (line_ends_with_newline exampleEnv plainHandler mixedRecord []).2.2.2
    (by unfold absentFromInputs; decide)

/-- C17 as stated fails: with coloring disabled and a message that ends with a
newline, the line ends with two newlines. -/
theorem line_two_newlines_counterexample :
    plainHandler.line exampleEnv newlineRecord =
      "[INFO ] 2006/01/02 - 15:05:05: | done\n\n" ∧
    (plainHandler.line exampleEnv newlineRecord).data.getLast? = some '\n' ∧
    (plainHandler.line exampleEnv newlineRecord).data.dropLast.getLast? = some '\n' := by
  decide

/-! ### C20: `NO_COLOR` -/

theorem assemble_noColor_palette (E : Env) (P : ColorPalette) (addSource : Bool) (r : Record)
    (s : Slots) :
    assemble { E with Colors := P } addSource true r s = assemble E addSource true r s := by
  unfold assemble sourceText
  simp only [colorize_noColor]

theorem newTextHandler_noColor {W : Type} (os : OS) (out : Writer W) (opts : HandlerOptions)
    (h : TextHandler W) (hnew : newTextHandler os out opts = some h) :
    h.noColor = noColorFromEnv os := by
  unfold newTextHandler at hnew
  cases hl : opts.Level with
  | none => rw [hl] at hnew; cases hnew
  | some l =>
    rw [hl] at hnew
    simp only [Option.some.injEq] at hnew
    rw [← hnew]

/-- C20. A handler that `newTextHandler` builds while `NO_COLOR` is set to a value
whose trimmed lower-case form is not `false` has coloring disabled. For every
record such that the escape character occurs in neither the message, the
timestamp, the source file name nor the keys and texts of the attrs, the line
holds no escape character; and the line is the same under every palette. -/
theorem NO_COLOR_line_plain {W : Type} (os : OS) (out : Writer W) (opts : HandlerOptions)
    (h : TextHandler W) (E : Env) (r : Record) (v : String)
    (henv : os.LookupEnv "NO_COLOR" = some v) (hv : ToLower os (TrimSpace v) ≠ "false")
    (hnew : newTextHandler os out opts = some h)
    (hmsg : '\x1b' ∉ r.Message.data)
    (hts : '\x1b' ∉ (E.Format r.Time E.TextTimeFormat).data)
    (hfile : '\x1b' ∉ (E.CallersFrames r.PC).File.data)
    (hattrs : ∀ a ∈ r.attrs ++ h.attrs, '\x1b' ∉ a.Key.data ∧ '\x1b' ∉ a.Value.text.data) :
    h.noColor = true ∧
    '\x1b' ∉ (h.line E r).data ∧
    (∀ P : ColorPalette, h.line { E with Colors := P } r = h.line E r) := by
  have hnc : h.noColor = true := by
    rw [newTextHandler_noColor os out opts h hnew]
    unfold noColorFromEnv
    rw [henv]
    simp only [hv, ne_eq, not_false_eq_true, if_true]
  refine ⟨hnc, ?_, ?_⟩
  · rw [line_eq]
    refine not_mem_append _ _ _ ?_ (by decide)
    apply content_not_mem '\x1b' E h r (by decide)
    exact ⟨hmsg, hts, hfile, hattrs, fun hf => by rw [hnc] at hf; cases hf⟩
  · intro P
    unfold TextHandler.line
    rw [hnc]
    exact assemble_noColor_palette E P h.addSource r _

/-- C20, at a concrete input: `NO_COLOR=1`, the request scenario. -/
theorem NO_COLOR_line_plain_witness :
    '\x1b' ∉ (plainHandler.line exampleEnv scenarioRecord).data ∧
    (∀ P : ColorPalette,
      plainHandler.line { exampleEnv with Colors := P } scenarioRecord =
        plainHandler.line exampleEnv scenarioRecord) :=
  (NO_COLOR_line_plain noColorOS logWriter ⟨some LevelInfo, false⟩ plainHandler exampleEnv
    scenarioRecord "1" rfl (by decide) rfl (by decide) (by decide) (by decide)
    (by decide)).2


/-! ### C21: the `NO_COLOR` toggle -/

/-- C21. The handler `newTextHandler` builds has coloring disabled exactly when
`NO_COLOR` is present and its value, trimmed and lower-cased, is not `false`.
Absent, `false` and ` FALSE ` leave coloring enabled; the empty value, `0` and `1`
disable it. -/
theorem noColor_iff {W : Type} (os : OS) (out : Writer W) (opts : HandlerOptions)
    (h : TextHandler W) (hnew : newTextHandler os out opts = some h) :
    (h.noColor = true ↔
      ∃ v, os.LookupEnv "NO_COLOR" = some v ∧ ToLower os (TrimSpace v) ≠ "false") ∧
    (∀ U, noColorFromEnv (envWith none U) = false) ∧
    (∀ U, noColorFromEnv (envWith (some "false") U) = false) ∧
    (∀ U, noColorFromEnv (envWith (some " FALSE ") U) = false) ∧
    (∀ U, noColorFromEnv (envWith (some "") U) = true) ∧
    (∀ U, noColorFromEnv (envWith (some "0") U) = true) ∧
    (∀ U, noColorFromEnv (envWith (some "1") U) = true) := by
  refine ⟨?_, fun _ => rfl, fun _ => rfl, fun _ => rfl, fun _ => rfl, fun _ => rfl,
    fun _ => rfl⟩
  rw [newTextHandler_noColor os out opts h hnew]
  unfold noColorFromEnv
  cases hv : os.LookupEnv "NO_COLOR" with
  | none => simp
  | some v =>
    by_cases hf : ToLower os (TrimSpace v) = "false" <;> simp [hf]

/-- C21, at a concrete input: `NO_COLOR=1`. -/
theorem noColor_iff_witness :
    plainHandler.noColor = true ↔
      ∃ v, noColorOS.LookupEnv "NO_COLOR" = some v ∧ ToLower noColorOS (TrimSpace v) ≠ "false" :=
  (noColor_iff noColorOS logWriter ⟨some LevelInfo, false⟩ plainHandler rfl).1


/-! ### C22, C24: `colorize` on statuses and on the unconditional color types -/

theorem HasPrefix_char (s : String) (c : Char) :
    HasPrefix s (String.mk [c]) = true ↔ s.data.head? = some c := by
  unfold HasPrefix
  cases hd : s.data with
  | nil => simp [List.isPrefixOf]
  | cons x xs =>
    simp only [List.isPrefixOf, Bool.and_true, beq_iff_eq, List.head?_cons, Option.some.injEq]
    exact eq_comm

/-- C22. With coloring enabled and a non-empty status text, `colorize` wraps the
text in the 2xx, 3xx, 4xx or 5xx code and the reset when its first character is
`2`, `3`, `4` or `5`, and returns it unchanged for any other first character. -/
theorem colorize_status (P : ColorPalette) (s : String) (hs : s ≠ "") :
    (s.data.head? = some '2' →
      colorize P false s .ColorStatus = P.Status2xx ++ s ++ P.Reset) ∧
    (s.data.head? = some '3' →
      colorize P false s .ColorStatus = P.Status3xx ++ s ++ P.Reset) ∧
    (s.data.head? = some '4' →
      colorize P false s .ColorStatus = P.Status4xx ++ s ++ P.Reset) ∧
    (s.data.head? = some '5' →
      colorize P false s .ColorStatus = P.Status5xx ++ s ++ P.Reset) ∧
    (s.data.head? ≠ some '2' → s.data.head? ≠ some '3' → s.data.head? ≠ some '4' →
      s.data.head? ≠ some '5' → colorize P false s .ColorStatus = s) ∧
    colorize P false "200" .ColorStatus = P.Status2xx ++ "200" ++ P.Reset ∧
    colorize P false "301" .ColorStatus = P.Status3xx ++ "301" ++ P.Reset ∧
    colorize P false "404" .ColorStatus = P.Status4xx ++ "404" ++ P.Reset ∧
    colorize P false "500" .ColorStatus = P.Status5xx ++ "500" ++ P.Reset ∧
    colorize P false "100" .ColorStatus = "100" := by
  have h2 := HasPrefix_char s '2'
  have h3 := HasPrefix_char s '3'
  have h4 := HasPrefix_char s '4'
  have h5 := HasPrefix_char s '5'
  have hc : colorize P false s .ColorStatus =
      (if HasPrefix s "2" then P.Status2xx ++ s ++ P.Reset
       else if HasPrefix s "3" then P.Status3xx ++ s ++ P.Reset
       else if HasPrefix s "4" then P.Status4xx ++ s ++ P.Reset
       else if HasPrefix s "5" then P.Status5xx ++ s ++ P.Reset
       else s) := by
    simp only [colorize, Bool.false_eq_true, if_false, hs]
  refine ⟨?_, ?_, ?_, ?_, ?_, rfl, rfl, rfl, rfl, rfl⟩
  · intro h
    rw [hc, if_pos (h2.mpr h)]
  · intro h
    have n2 : ¬ HasPrefix s "2" = true := fun hh => by rw [h2.mp hh] at h; cases h
    rw [hc, if_neg n2, if_pos (h3.mpr h)]
  · intro h
    have n2 : ¬ HasPrefix s "2" = true := fun hh => by rw [h2.mp hh] at h; cases h
    have n3 : ¬ HasPrefix s "3" = true := fun hh => by rw [h3.mp hh] at h; cases h
    rw [hc, if_neg n2, if_neg n3, if_pos (h4.mpr h)]
  · intro h
    have n2 : ¬ HasPrefix s "2" = true := fun hh => by rw [h2.mp hh] at h; cases h
    have n3 : ¬ HasPrefix s "3" = true := fun hh => by rw [h3.mp hh] at h; cases h
    have n4 : ¬ HasPrefix s "4" = true := fun hh => by rw [h4.mp hh] at h; cases h
    rw [hc, if_neg n2, if_neg n3, if_neg n4, if_pos (h5.mpr h)]
  · intro n2 n3 n4 n5
    rw [hc, if_neg (fun hh => n2 (h2.mp hh)), if_neg (fun hh => n3 (h3.mp hh)),
      if_neg (fun hh => n4 (h4.mp hh)), if_neg (fun hh => n5 (h5.mp hh))]

/-- C22, at a concrete input: status 204 under the default palette. -/
theorem colorize_status_witness :
    colorize Dracula false "204" .ColorStatus = Dracula.Status2xx ++ "204" ++ Dracula.Reset :=
  (colorize_status Dracula "204" (by decide)).1 (by decide)

/-- C24. `colorize` returns the text unchanged when coloring is disabled and when
the text is empty. With coloring enabled and a non-empty text, the request-id,
path, log-type, message and source-line types wrap it in their code and the reset. -/
theorem colorize_passthrough (P : ColorPalette) (n : Bool) (v : String) (t : ColorType) :
    (n = true → colorize P n v t = v) ∧
    colorize P n "" t = "" ∧
    (n = false → v ≠ "" →
      colorize P n v .ColorRequestID = P.RequestID ++ v ++ P.Reset ∧
      colorize P n v .ColorPath = P.Path ++ v ++ P.Reset ∧
      colorize P n v .ColorLogType = P.LogType ++ v ++ P.Reset ∧
      colorize P n v .ColorMessage = P.Message ++ v ++ P.Reset ∧
      colorize P n v .ColorLine = P.Line ++ v ++ P.Reset) := by
  refine ⟨?_, colorize_empty P n t, ?_⟩
  · intro hn
    rw [hn]
    exact colorize_noColor P v t
  · intro hn hv
    rw [hn]
    refine ⟨?_, ?_, ?_, ?_, ?_⟩ <;> simp only [colorize, Bool.false_eq_true, if_false, hv]

/-- C24, at a concrete input: a path under the default palette. -/
theorem colorize_passthrough_witness :
    colorize Dracula false "/health" .ColorPath = Dracula.Path ++ "/health" ++ Dracula.Reset :=
  ((colorize_passthrough Dracula false "/health" .ColorNone).2.2 rfl (by decide)).2.1

/-! ### C26, C27, C28: `Enabled`, the result of `Handle`, empty derivations -/

/-- C26. `Enabled` is true exactly for the levels from the threshold on. The
default logger holds a text handler with threshold INFO: it is enabled for INFO,
WARN and ERROR and not for DEBUG, and a DEBUG record logged through it leaves the
world as it is. -/
theorem Enabled_iff {W : Type} (h : TextHandler W) (level : Level) :
    (h.Enabled level = true ↔ level ≥ h.level) ∧
    (∀ (os : OS) (stdout out : Writer W),
      ∃ d : TextHandler W,
        NewDefaultLoggerTo os stdout (some out) = some ([], Built.single (Child.text d)) ∧
        d.level = LevelInfo ∧ d.out = out ∧
        d.Enabled LevelInfo = true ∧ d.Enabled LevelWarn = true ∧
        d.Enabled LevelError = true ∧ d.Enabled LevelDebug = false ∧
        (∀ (E : Env) (r : Record) (w : W), r.Level = LevelDebug →
          Logger.log (textOps E) d r w = w)) := by
  constructor
  · unfold TextHandler.Enabled
    simp
  · intro os stdout out
    refine ⟨{ out := out, level := LevelInfo, addSource := true, attrs := [], group := "",
              noColor := noColorFromEnv os }, rfl, rfl, rfl, rfl, rfl, rfl, rfl, ?_⟩
    intro E r w hr
    unfold Logger.log
    rw [hr]
    rfl

/-- C27. `Handle` returns nil for every handler, record and world, whatever the
sink's `Write` returns; so for a sink whose `Write` fails. -/
theorem Handle_returns_nil {W : Type} (E : Env) (h : TextHandler W) (r : Record) (w : W) :
    (h.Handle E r w).1 = none ∧
    (brokenHandler.out.Write (brokenHandler.line exampleEnv bareRecord) []).1.2 =
      some "write failed" ∧
    (brokenHandler.Handle exampleEnv bareRecord []).1 = none :=
  ⟨rfl, rfl, rfl⟩

/-- C28. `WithAttrs` of an empty list and `WithGroup` of the empty name return the
receiver; on slices they return the receiver and leave the heap as it is. -/
theorem empty_derivation {W : Type} (h : TextHandler W) (grow : Nat → Nat → Nat) (heap : Heap)
    (sh : SliceHandler W) :
    h.WithAttrs [] = h ∧ h.WithGroup "" = h ∧
    sh.WithAttrs grow heap [] = (heap, sh) ∧ sh.WithGroup "" = sh := by
  refine ⟨?_, ?_, ?_, ?_⟩
  · unfold TextHandler.WithAttrs; simp
  · unfold TextHandler.WithGroup; simp
  · unfold SliceHandler.WithAttrs; simp
  · unfold SliceHandler.WithGroup; simp

/-! ### C29, C30: `send` and the sequence of writes -/

theorem send_response (N : Net) (w : HTTPWriter) (payload : List UInt8) (t : Transport)
    (status : Int) (hbuild : N.NewRequest "POST" w.endpoint = none)
    (hdo : N.Do ⟨"POST", w.endpoint, w.contentType, payload⟩ = .ok status) :
    ((HTTPWriter.send N w payload t).stderr ≠ t.stderr ↔ status ≥ 400) := by
  unfold HTTPWriter.send
  rw [hbuild]
  simp only [hdo]
  by_cases hs : status ≥ 400
  · simp [hs]
  · simp [hs]

/-- C29, at the failing input: a response with status 304 is not a 2xx response
and `send` prints nothing for it, while status 500 is reported. -/
theorem send_unreported_status :
    (HTTPWriter.send notModifiedNet (NewHTTPWriter "http://collector") msgLine {}).stderr = [] ∧
    (HTTPWriter.send notModifiedNet (NewHTTPWriter "http://collector") msgLine {}).requests =
      [⟨"POST", "http://collector", "application/json", msgLine⟩] ∧
    (HTTPWriter.send failingNet (NewHTTPWriter "http://collector") msgLine {}).stderr =
      ["[slog-human] http writer: bad status 500 sending log\n"] := by
  decide

theorem getLast?_append_of_ne_nil {α : Type} (a b : List α) (hb : b ≠ []) :
    (a ++ b).getLast? = b.getLast? := by
  induction a with
  | nil => rfl
  | cons x xs ih =>
    cases hxs : xs ++ b with
    | nil =>
      have := List.append_eq_nil.mp hxs
      exact absurd this.2 hb
    | cons y ys =>
      rw [List.cons_append, hxs, List.getLast?_cons_cons, ← hxs, ih]

/-- The state that `Write` maintains: the payloads of the calls of `send` started
so far followed by the buffer are the bytes `written`; every payload is non-empty
and ends with a newline; the buffer is empty or does not end with a newline. -/
theorem Write_invariant (N : Net) (w : HTTPWriter) (t : Transport) (p written : List UInt8)
    (hcat : (t.dispatched.map (fun d => d.payload)).flatten ++ w.buffer = written)
    (hpay : ∀ d ∈ t.dispatched, d.payload ≠ [] ∧ d.payload.getLast? = some 10)
    (hbuf : w.buffer = [] ∨ w.buffer.getLast? ≠ some 10) :
    (((HTTPWriter.Write N w p t).2.2.dispatched.map (fun d => d.payload)).flatten ++
      (HTTPWriter.Write N w p t).2.1.buffer = written ++ p) ∧
    (∀ d ∈ (HTTPWriter.Write N w p t).2.2.dispatched,
      d.payload ≠ [] ∧ d.payload.getLast? = some 10) ∧
    ((HTTPWriter.Write N w p t).2.1.buffer = [] ∨
      (HTTPWriter.Write N w p t).2.1.buffer.getLast? ≠ some 10) := by
  by_cases hp : p.length > 0 ∧ p.getLast? = some 10
  · obtain ⟨h1, h2⟩ := Write_of_newline N w p t hp
    have hpne : p ≠ [] := List.length_pos.mp hp.1
    rw [h1, h2]
    refine ⟨?_, ?_, Or.inl rfl⟩
    · simp only [List.map_append, List.flatten_append, List.map_cons, List.map_nil,
        List.flatten_cons, List.flatten_nil, List.append_nil]
      rw [← hcat, List.append_assoc]
    · intro d hd
      rcases List.mem_append.mp hd with h | h
      · exact hpay d h
      · rw [List.mem_singleton.mp h]
        refine ⟨?_, ?_⟩
        · intro hnil
          exact hpne (List.append_eq_nil.mp hnil).2
        · show (w.buffer ++ p).getLast? = some 10
          rw [getLast?_append_of_ne_nil _ _ hpne]
          exact hp.2
  · obtain ⟨h1, h2⟩ := Write_of_no_newline N w p t hp
    rw [h1, h2]
    refine ⟨?_, hpay, ?_⟩
    · show _ ++ (w.buffer ++ p) = written ++ p
      rw [← hcat, List.append_assoc]
    · show (w.buffer ++ p = [] ∨ (w.buffer ++ p).getLast? ≠ some 10)
      by_cases hpe : p = []
      · rw [hpe, List.append_nil]
        exact hbuf
      · right
        rw [getLast?_append_of_ne_nil _ _ hpe]
        intro hl
        exact hp ⟨List.length_pos.mpr hpe, hl⟩

theorem runWrites_invariant (N : Net) :
    ∀ (ps : List (List UInt8)) (w : HTTPWriter) (t : Transport) (written : List UInt8),
      (t.dispatched.map (fun d => d.payload)).flatten ++ w.buffer = written →
      (∀ d ∈ t.dispatched, d.payload ≠ [] ∧ d.payload.getLast? = some 10) →
      (w.buffer = [] ∨ w.buffer.getLast? ≠ some 10) →
      (((runWrites N ps (w, t)).2.dispatched.map (fun d => d.payload)).flatten ++
        (runWrites N ps (w, t)).1.buffer = written ++ ps.flatten) ∧
      (∀ d ∈ (runWrites N ps (w, t)).2.dispatched,
        d.payload ≠ [] ∧ d.payload.getLast? = some 10) ∧
      ((runWrites N ps (w, t)).1.buffer = [] ∨
        (runWrites N ps (w, t)).1.buffer.getLast? ≠ some 10) := by
  intro ps
  induction ps with
  | nil =>
    intro w t written hcat hpay hbuf
    simp only [runWrites, List.flatten_nil, List.append_nil]
    exact ⟨hcat, hpay, hbuf⟩
  | cons p rest ih =>
    intro w t written hcat hpay hbuf
    obtain ⟨h1, h2, h3⟩ := Write_invariant N w t p written hcat hpay hbuf
    have := ih (HTTPWriter.Write N w p t).2.1 (HTTPWriter.Write N w p t).2.2 (written ++ p)
      h1 h2 h3
    simp only [runWrites, List.flatten_cons]
    rw [← List.append_assoc]
    exact this

/-- C30. After any sequence of writes on a fresh writer, synchronous or detached,
the payloads of the calls of `send` started so far, in order, followed by the
buffer, are the written bytes in order; every payload is non-empty and ends with
a newline; the buffer is empty or does not end with a newline. -/
theorem writes_preserve_bytes (N : Net) (endpoint : String) (ps : List (List UInt8)) :
    (∀ w0 : HTTPWriter, w0 = NewHTTPWriter endpoint ∨ w0 = NewAsyncHTTPWriter endpoint →
      (((runWrites N ps (w0, {})).2.dispatched.map (fun d => d.payload)).flatten ++
        (runWrites N ps (w0, {})).1.buffer = ps.flatten) ∧
      (∀ d ∈ (runWrites N ps (w0, {})).2.dispatched,
        d.payload ≠ [] ∧ d.payload.getLast? = some 10) ∧
      ((runWrites N ps (w0, {})).1.buffer = [] ∨
        (runWrites N ps (w0, {})).1.buffer.getLast? ≠ some 10)) ∧
    (runWrites okNet [utf8Bytes "ab", utf8Bytes "c\n", utf8Bytes "d"]
      (NewHTTPWriter "http://collector", {})).2.dispatched = [⟨utf8Bytes "abc\n", false⟩] ∧
    (runWrites okNet [utf8Bytes "ab", utf8Bytes "c\n", utf8Bytes "d"]
      (NewHTTPWriter "http://collector", {})).1.buffer = utf8Bytes "d" := by
  refine ⟨?_, by decide, by decide⟩
  intro w0 hw0
  have hb : w0.buffer = [] := by
    rcases hw0 with h | h <;> rw [h] <;> rfl
  have := runWrites_invariant N ps w0 {} [] (by simp [hb]) (by simp) (Or.inl hb)
  simpa using this

/-- C30, at a concrete input: three writes on a fresh detached writer. -/
theorem writes_preserve_bytes_witness :
    ((runWrites okNet [utf8Bytes "ab", utf8Bytes "c\n", utf8Bytes "d"]
        (NewAsyncHTTPWriter "http://collector", {})).2.dispatched.map
          (fun d => d.payload)).flatten ++
      (runWrites okNet [utf8Bytes "ab", utf8Bytes "c\n", utf8Bytes "d"]
        (NewAsyncHTTPWriter "http://collector", {})).1.buffer =
      [utf8Bytes "ab", utf8Bytes "c\n", utf8Bytes "d"].flatten :=
  ((writes_preserve_bytes okNet "http://collector"
    [utf8Bytes "ab", utf8Bytes "c\n", utf8Bytes "d"]).1
    (NewAsyncHTTPWriter "http://collector") (Or.inr rfl)).1


/-! ### C23: the rendered method -/

theorem dropWhile_spaces (k : Nat) (r : List Char) :
    (List.replicate k ' ' ++ r).dropWhile isSpace = r.dropWhile isSpace := by
  induction k with
  | zero => rfl
  | succ n ih =>
    rw [List.replicate_succ, List.cons_append, List.dropWhile_cons_of_pos (by rfl), ih]

theorem dropWhile_append_spaces (k : Nat) :
    ∀ l : List Char,
      ((l ++ List.replicate k ' ').dropWhile isSpace = [] ∧ l.dropWhile isSpace = []) ∨
      (l ++ List.replicate k ' ').dropWhile isSpace =
        l.dropWhile isSpace ++ List.replicate k ' ' := by
  intro l
  induction l with
  | nil =>
    left
    have := dropWhile_spaces k []
    simp only [List.append_nil, List.dropWhile_nil] at this
    exact ⟨by simpa using this, rfl⟩
  | cons x xs ih =>
    by_cases hx : isSpace x = true
    · rw [List.cons_append, List.dropWhile_cons_of_pos hx, List.dropWhile_cons_of_pos hx]
      exact ih
    · right
      rw [List.cons_append, List.dropWhile_cons_of_neg hx, List.dropWhile_cons_of_neg hx]
      rfl

theorem TrimSpace_padRight (k : Nat) (m : String) : TrimSpace (padRight k m) = TrimSpace m := by
  unfold TrimSpace padRight
  rw [String.data_append]
  show String.mk (((m.data ++ List.replicate (k - m.length) ' ').dropWhile isSpace).reverse.dropWhile
    isSpace).reverse = _
  rcases dropWhile_append_spaces (k - m.length) m.data with ⟨h1, h2⟩ | h
  · rw [h1, h2]
  · rw [h, List.reverse_append, List.reverse_replicate, dropWhile_spaces]

theorem padRight_ne_empty (m : String) : padRight 7 m ≠ "" := by
  intro h
  have hl : (padRight 7 m).length = 0 := by rw [h]; rfl
  unfold padRight at hl
  rw [String.length_append] at hl
  have : (String.mk (List.replicate (7 - m.length) ' ')).length = 7 - m.length := by
    show (List.replicate (7 - m.length) ' ').length = _
    rw [List.length_replicate]
  omega

theorem colorize_method_eq (P : ColorPalette) (m : String) :
    colorize P false (padRight 7 m) .ColorMethod =
      (if TrimSpace m = "GET" then P.MethodGET ++ padRight 7 m ++ P.Reset
       else if TrimSpace m = "POST" then P.MethodPOST ++ padRight 7 m ++ P.Reset
       else if TrimSpace m = "PUT" then P.MethodPUT ++ padRight 7 m ++ P.Reset
       else if TrimSpace m = "DELETE" then P.MethodDELETE ++ padRight 7 m ++ P.Reset
       else if TrimSpace m = "PATCH" then P.MethodPATCH ++ padRight 7 m ++ P.Reset
       else if TrimSpace m = "HEAD" then P.MethodHEAD ++ padRight 7 m ++ P.Reset
       else if TrimSpace m = "OPTIONS" then P.MethodOPTIONS ++ padRight 7 m ++ P.Reset
       else if TrimSpace m = "CONNECT" then P.MethodCONNECT ++ padRight 7 m ++ P.Reset
       else if TrimSpace m = "TRACE" then P.MethodTRACE ++ padRight 7 m ++ P.Reset
       else padRight 7 m) := by
  simp only [colorize, Bool.false_eq_true, if_false, padRight_ne_empty m, TrimSpace_padRight]

/-- C23. With coloring enabled the rendered method is `colorize` of the method
padded on the right to 7 characters. When the method without surrounding
whitespace is one of the nine method names, the padded text stands between that
method's code and the reset; otherwise the padded text is returned as it is. -/
theorem method_rendering (P : ColorPalette) (m : String) :
    (padRight 7 m).data = m.data ++ List.replicate (7 - m.data.length) ' ' ∧
    (TrimSpace m = "GET" →
      colorize P false (padRight 7 m) .ColorMethod = P.MethodGET ++ padRight 7 m ++ P.Reset) ∧
    (TrimSpace m = "POST" →
      colorize P false (padRight 7 m) .ColorMethod = P.MethodPOST ++ padRight 7 m ++ P.Reset) ∧
    (TrimSpace m = "PUT" →
      colorize P false (padRight 7 m) .ColorMethod = P.MethodPUT ++ padRight 7 m ++ P.Reset) ∧
    (TrimSpace m = "DELETE" →
      colorize P false (padRight 7 m) .ColorMethod =
        P.MethodDELETE ++ padRight 7 m ++ P.Reset) ∧
    (TrimSpace m = "PATCH" →
      colorize P false (padRight 7 m) .ColorMethod =
        P.MethodPATCH ++ padRight 7 m ++ P.Reset) ∧
    (TrimSpace m = "HEAD" →
      colorize P false (padRight 7 m) .ColorMethod = P.MethodHEAD ++ padRight 7 m ++ P.Reset) ∧
    (TrimSpace m = "OPTIONS" →
      colorize P false (padRight 7 m) .ColorMethod =
        P.MethodOPTIONS ++ padRight 7 m ++ P.Reset) ∧
    (TrimSpace m = "CONNECT" →
      colorize P false (padRight 7 m) .ColorMethod =
        P.MethodCONNECT ++ padRight 7 m ++ P.Reset) ∧
    (TrimSpace m = "TRACE" →
      colorize P false (padRight 7 m) .ColorMethod =
        P.MethodTRACE ++ padRight 7 m ++ P.Reset) ∧
    (TrimSpace m ∉ ["GET", "POST", "PUT", "DELETE", "PATCH", "HEAD", "OPTIONS", "CONNECT",
        "TRACE"] →
      colorize P false (padRight 7 m) .ColorMethod = padRight 7 m) ∧
    colorize P false (padRight 7 "GET") .ColorMethod = P.MethodGET ++ "GET    " ++ P.Reset ∧
    colorize P false (padRight 7 " POST") .ColorMethod = P.MethodPOST ++ " POST  " ++ P.Reset ∧
    colorize P false (padRight 7 "get") .ColorMethod = "get    " ∧
    colorize P false (padRight 7 "") .ColorMethod = "       " := by
  have hc := colorize_method_eq P m
  refine ⟨rfl, ?_, ?_, ?_, ?_, ?_, ?_, ?_, ?_, ?_, ?_, rfl, rfl, rfl, rfl⟩
  · intro h
    rw [hc, h, if_pos rfl]
  · intro h
    rw [hc, h, if_neg (by decide), if_pos rfl]
  · intro h
    rw [hc, h, if_neg (by decide), if_neg (by decide), if_pos rfl]
  · intro h
    rw [hc, h, if_neg (by decide), if_neg (by decide), if_neg (by decide), if_pos rfl]
  · intro h
    rw [hc, h, if_neg (by decide), if_neg (by decide), if_neg (by decide), if_neg (by decide),
      if_pos rfl]
  · intro h
    rw [hc, h, if_neg (by decide), if_neg (by decide), if_neg (by decide), if_neg (by decide),
      if_neg (by decide), if_pos rfl]
  · intro h
    rw [hc, h, if_neg (by decide), if_neg (by decide), if_neg (by decide), if_neg (by decide),
      if_neg (by decide), if_neg (by decide), if_pos rfl]
  · intro h
    rw [hc, h, if_neg (by decide), if_neg (by decide), if_neg (by decide), if_neg (by decide),
      if_neg (by decide), if_neg (by decide), if_neg (by decide), if_pos rfl]
  · intro h
    rw [hc, h, if_neg (by decide), if_neg (by decide), if_neg (by decide), if_neg (by decide),
      if_neg (by decide), if_neg (by decide), if_neg (by decide), if_neg (by decide),
      if_pos rfl]
  · intro h
    simp only [List.mem_cons, List.mem_singleton, List.not_mem_nil, or_false, not_or] at h
    obtain ⟨h1, h2, h3, h4, h5, h6, h7, h8, h9⟩ := h
    rw [hc, if_neg h1, if_neg h2, if_neg h3, if_neg h4, if_neg h5, if_neg h6, if_neg h7,
      if_neg h8, if_neg h9]

/-- C23, at a concrete input: `DELETE` under the default palette. -/
theorem method_rendering_witness :
    colorize Dracula false (padRight 7 "DELETE") .ColorMethod =
      Dracula.MethodDELETE ++ padRight 7 "DELETE" ++ Dracula.Reset :=
  (method_rendering Dracula "DELETE").2.2.2.2.1 (by decide)


/-! ### C25: color codes in the line -/

theorem esc_not_literal : ESC ∉ literalChars := by decide

theorem bal_plain_end (P : ColorPalette) (t : String) (ht : ESC ∉ t.data) : Balanced P t := by
  have := Balanced.plain (P := P) t "" ht Balanced.nil
  rwa [String.append_empty] at this

theorem bal_color (P : ColorPalette) (n : Bool) (v : String) (ty : ColorType) (t rest : String)
    (hv : ESC ∉ v.data) (ht0 : t ≠ "") (ht : ESC ∉ t.data) (hr : Balanced P rest) :
    Balanced P (colorize P n v ty ++ (t ++ rest)) := by
  by_cases hv0 : v = ""
  · rw [hv0, colorize_empty]
    exact Balanced.plain _ _ (by decide) (Balanced.plain _ _ ht hr)
  · rcases (colorize_cases P n v ty).1 with h | ⟨a, ha, h⟩
    · rw [h]
      exact Balanced.plain _ _ hv (Balanced.plain _ _ ht hr)
    · rw [h]
      exact Balanced.colored a v t rest ha hv0 hv ht0 ht hr

theorem bal_color_end (P : ColorPalette) (n : Bool) (v : String) (ty : ColorType) (t : String)
    (hv : ESC ∉ v.data) (ht0 : t ≠ "") (ht : ESC ∉ t.data) :
    Balanced P (colorize P n v ty ++ t) := by
  have := bal_color P n v ty t "" hv ht0 ht Balanced.nil
  rwa [String.append_empty] at this

theorem bytesTimeText_not_mem (c : Char) (s : Slots) (hc : c ∉ literalChars) (hs : s.free c) :
    c ∉ (bytesTimeText s).data := by
  obtain ⟨_, _, _, _, _, h6, _, h8, _⟩ := hs
  have hsp := ne_of_not_literal c ' ' hc (by decide)
  have l0 := literal_not_mem c hc "" (by decide)
  have l5 := literal_not_mem c hc " " (by decide)
  have l6 := literal_not_mem c hc " [" (by decide)
  have l7 := literal_not_mem c hc "] " (by decide)
  have l8 := literal_not_mem c hc "B" (by decide)
  have hb1 : c ∉ (padLeft 5 (s.bytes ++ "B")).data :=
    padLeft_mem c 5 _ (not_mem_append _ _ _ h8 l8) hsp
  have hb2 : c ∉ (padLeft 5 "").data := padLeft_mem c 5 _ l0 hsp
  have hd := padLeft_mem c 10 _ h6 hsp
  unfold bytesTimeText
  split_ifs
  · exact not_mem_append _ _ _ (not_mem_append _ _ _ (not_mem_append _ _ _
      (not_mem_append _ _ _ l6 hb1) l5) hd) l7
  · exact not_mem_append _ _ _ (not_mem_append _ _ _ (not_mem_append _ _ _
      (not_mem_append _ _ _ l6 hb2) l5) hd) l7
  · exact l0

theorem bal_reqID (E : Env) (n : Bool) (s : Slots) (rest : String)
    (hs : ESC ∉ s.requestID.data) (hr : Balanced E.Colors rest) :
    Balanced E.Colors (reqIDText E n s ++ rest) := by
  unfold reqIDText
  split_ifs
  · simp only [String.append_assoc]
    exact Balanced.plain _ _ (by decide) (bal_color _ n _ _ "]" rest hs (by decide) (by decide) hr)
  · exact Balanced.plain _ _ (by decide) hr

theorem bal_type (E : Env) (n : Bool) (s : Slots) (t rest : String)
    (hs : ESC ∉ s.logType.data) (ht0 : t ≠ "") (ht : ESC ∉ t.data)
    (hr : Balanced E.Colors rest) :
    Balanced E.Colors (typeText E n s ++ (t ++ rest)) := by
  unfold typeText
  split_ifs
  · simp only [String.append_assoc]
    exact Balanced.plain _ _ (by decide) (bal_color _ n _ _ t rest hs ht0 ht hr)
  · exact Balanced.plain _ _ (by decide) (Balanced.plain _ _ ht hr)

theorem bal_source (E : Env) (addSource n : Bool) (r : Record) (rest : String)
    (hfile : ESC ∉ (E.CallersFrames r.PC).File.data) (hr : Balanced E.Colors rest) :
    Balanced E.Colors (sourceText E addSource n r ++ rest) := by
  have hnum : ESC ∉ (padRight 3 (toString (E.CallersFrames r.PC).Line)).data :=
    padRight_mem ESC 3 _ (natText_not_mem ESC _ esc_not_literal) (by decide)
  have hbase := Base_not_mem ESC _ esc_not_literal hfile
  unfold sourceText
  simp only []
  split_ifs
  · simp only [String.append_assoc]
    exact Balanced.plain _ _ (by decide) (Balanced.plain _ _ hbase
      (Balanced.plain _ _ (by decide) (bal_color _ n _ _ ")" rest hnum (by decide) (by decide) hr)))
  · exact Balanced.plain _ _ (by decide) hr
  · exact Balanced.plain _ _ (by decide) hr

theorem bal_requestLine (E : Env) (addSource n : Bool) (r : Record) (s : Slots) (tail : String)
    (hs : s.free ESC) (hmsg : ESC ∉ r.Message.data)
    (hts : ESC ∉ (E.Format r.Time E.TextTimeFormat).data)
    (hfile : ESC ∉ (E.CallersFrames r.PC).File.data)
    (ht0 : tail ≠ "") (ht : ESC ∉ tail.data) :
    Balanced E.Colors (requestLine E addSource n r s ++ tail) := by
  have hbt := bytesTimeText_not_mem ESC s esc_not_literal hs
  obtain ⟨h1, h2, h3, h4, h5, h6, h7, h8, _⟩ := hs
  have hlevel : ESC ∉ (padRight 5 (levelString r.Level)).data :=
    padRight_mem ESC 5 _ (levelString_not_mem ESC _ esc_not_literal) (by decide)
  have hmethod : ESC ∉ (padRight 7 s.method).data := padRight_mem ESC 7 _ h2 (by decide)
  unfold requestLine levelText
  simp only [String.append_assoc]
  refine Balanced.plain _ _ (by decide) ?_
  refine bal_color _ n _ _ "]" _ hlevel (by decide) (by decide) ?_
  refine bal_reqID E n s _ h7 ?_
  refine Balanced.plain _ _ hts ?_
  refine Balanced.plain _ _ (by decide) ?_
  refine bal_source E addSource n r _ hfile ?_
  refine Balanced.plain _ _ (by decide) ?_
  refine bal_color _ n _ _ " | " _ (by decide) (by decide) (by decide) ?_
  refine bal_color _ n _ _ " " _ h4 (by decide) (by decide) ?_
  refine bal_color _ n _ _ " " _ hmethod (by decide) (by decide) ?_
  refine bal_color _ n _ _ " " _ h3 (by decide) (by decide) ?_
  refine Balanced.plain _ _ h5 ?_
  refine Balanced.plain _ _ hbt ?_
  refine Balanced.plain _ _ (by decide) ?_
  exact bal_color_end _ n _ _ tail hmsg ht0 ht

theorem bal_defaultLine (E : Env) (addSource n : Bool) (r : Record) (s : Slots) (tail : String)
    (hs : s.free ESC) (hmsg : ESC ∉ r.Message.data)
    (hts : ESC ∉ (E.Format r.Time E.TextTimeFormat).data)
    (hfile : ESC ∉ (E.CallersFrames r.PC).File.data)
    (ht0 : tail ≠ "") (ht : ESC ∉ tail.data) :
    Balanced E.Colors (defaultLine E addSource n r s ++ tail) := by
  obtain ⟨h1, _⟩ := hs
  have hlevel : ESC ∉ (padRight 5 (levelString r.Level)).data :=
    padRight_mem ESC 5 _ (levelString_not_mem ESC _ esc_not_literal) (by decide)
  unfold defaultLine levelText
  simp only [String.append_assoc]
  refine Balanced.plain _ _ (by decide) ?_
  refine bal_color _ n _ _ "]" _ hlevel (by decide) (by decide) ?_
  refine Balanced.plain _ _ hts ?_
  refine Balanced.plain _ _ (by decide) ?_
  refine bal_source E addSource n r _ hfile ?_
  refine bal_type E n s " | " _ h1 (by decide) (by decide) ?_
  exact bal_color_end _ n _ _ tail hmsg ht0 ht

theorem append_newline_ne_empty (a : String) : a ++ "\n" ≠ "" := by
  intro h
  have h1 : (a ++ "\n").data = [] := by rw [h]
  rw [data_append_newline] at h1
  exact absurd h1 (by simp)

theorem line_balanced {W : Type} (E : Env) (h : TextHandler W) (r : Record)
    (hmsg : ESC ∉ r.Message.data) (hts : ESC ∉ (E.Format r.Time E.TextTimeFormat).data)
    (hfile : ESC ∉ (E.CallersFrames r.PC).File.data)
    (hattrs : ∀ a ∈ r.attrs ++ h.attrs, ESC ∉ a.Key.data ∧ ESC ∉ a.Value.text.data) :
    Balanced E.Colors (h.line E r) := by
  have hfree := resolve_free ESC h.attrs r esc_not_literal hattrs
  have htail : ESC ∉ (fieldsTail (resolve h.attrs r).fields ++ "\n").data :=
    not_mem_append _ _ _ (fieldsTail_not_mem ESC _ esc_not_literal hfree.2.2.2.2.2.2.2.2)
      (by decide)
  have htail0 := append_newline_ne_empty (fieldsTail (resolve h.attrs r).fields)
  rw [line_eq, String.append_assoc]
  unfold primaryLine
  split_ifs
  · exact bal_requestLine E h.addSource h.noColor r _ _ hfree hmsg hts hfile htail0 htail
  · exact bal_defaultLine E h.addSource h.noColor r _ _ hfree hmsg hts hfile htail0 htail

theorem esc_prefix_free (q u z : List Char) (hu : ESC ∉ u) (hlen : q.length < u.length) :
    ¬ (q ++ [ESC]) <+: (u ++ z) := by
  rintro ⟨r, hr⟩
  have h1 : (q ++ [ESC] ++ r)[q.length]? = some ESC := by
    rw [List.append_assoc, List.getElem?_append_right (le_refl _)]
    simp
  rw [hr, List.getElem?_append_left hlen] at h1
  exact hu (List.getElem?_mem h1)

theorem esc_infix_skip (q u l : List Char) (hu : ESC ∉ u) (h : (ESC :: q) <:+: (u ++ l)) :
    (ESC :: q) <:+: l := by
  induction u with
  | nil => simpa using h
  | cons x u ih =>
    rw [List.cons_append, List.infix_cons_iff] at h
    rcases h with h | h
    · obtain ⟨r, hr⟩ := h
      simp only [List.cons_append, List.cons.injEq] at hr
      exact absurd (List.mem_cons_self _ _) (hr.1 ▸ hu)
    · exact ih (fun hm => hu (List.mem_cons_of_mem _ hm)) h

theorem esc_block (q u l : List Char) (hu : ESC ∉ u) (hlen : q.length < u.length)
    (h : (ESC :: (q ++ [ESC])) <:+: (ESC :: (u ++ l))) : (ESC :: (q ++ [ESC])) <:+: l := by
  rw [List.infix_cons_iff] at h
  rcases h with h | h
  · obtain ⟨r, hr⟩ := h
    simp only [List.cons_append, List.cons.injEq, true_and] at hr
    exact absurd ⟨r, hr⟩ (esc_prefix_free q u l hu hlen)
  · exact esc_infix_skip _ u l hu h

theorem Reset_data (P : ColorPalette) (hP : P.sane) : P.Reset.data = ESC :: ['[', '0', 'm'] := by
  rw [hP.1]
  rfl

theorem code_data (P : ColorPalette) (hP : P.sane) (c : String) (hc : c ∈ P.strings) :
    ∃ body, c.data = ESC :: body ∧ ESC ∉ body ∧ 3 ≤ body.length := by
  obtain ⟨h1, h2, h3⟩ := hP.2 c hc
  cases hd : c.data with
  | nil =>
    rw [hd] at h1
    cases h1
  | cons x body =>
    rw [hd] at h1 h2 h3
    simp only [List.head?_cons, Option.some.injEq] at h1
    simp only [List.tail_cons] at h2
    simp only [List.length_cons] at h3
    exact ⟨body, by rw [h1], h2, by omega⟩

theorem data_length_pos (v : String) (hv : v ≠ "") : 0 < v.data.length := by
  rcases v with ⟨l⟩
  cases l with
  | nil => exact absurd rfl hv
  | cons x l => simp

theorem balanced_no_reset_escape (P : ColorPalette) (hP : P.sane) (s : String)
    (hb : Balanced P s) : ¬ (P.Reset.data ++ [ESC]) <:+: s.data := by
  rw [Reset_data P hP]
  show ¬ (ESC :: (['[', '0', 'm'] ++ [ESC])) <:+: s.data
  induction hb with
  | nil =>
    intro h
    have h0 := List.IsInfix.length_le h
    simp at h0
  | plain t rest ht _ ih =>
    intro h
    rw [String.data_append] at h
    exact ih (esc_infix_skip _ _ _ ht h)
  | colored code v t rest hc hv0 hv ht0 ht _ ih =>
    intro h
    obtain ⟨body, hbody, hfree, hlen⟩ := code_data P hP code hc
    have hvl := data_length_pos v hv0
    have htl := data_length_pos t ht0
    have h1 : (ESC :: (['[', '0', 'm'] ++ [ESC])) <:+:
        (ESC :: ((body ++ v.data) ++
          (ESC :: ((['[', '0', 'm'] ++ t.data) ++ rest.data)))) := by
      have e : (code ++ v ++ P.Reset ++ (t ++ rest)).data =
          ESC :: ((body ++ v.data) ++
            (ESC :: ((['[', '0', 'm'] ++ t.data) ++ rest.data))) := by
        simp only [String.data_append, hbody, Reset_data P hP, List.cons_append,
          List.append_assoc, List.nil_append]
      rw [← e]
      exact h
    have hu1 : ESC ∉ body ++ v.data := by
      intro hm
      rcases List.mem_append.1 hm with hm | hm
      · exact hfree hm
      · exact hv hm
    have hu2 : ESC ∉ ['[', '0', 'm'] ++ t.data := by
      intro hm
      rcases List.mem_append.1 hm with hm | hm
      · exact absurd hm (by decide)
      · exact ht hm
    have h2 := esc_block ['[', '0', 'm'] (body ++ v.data) _ hu1
      (by simp only [List.length_append, List.length_cons, List.length_nil]; omega) h1
    have h3 := esc_block ['[', '0', 'm'] (['[', '0', 'm'] ++ t.data) rest.data hu2
      (by simp only [List.length_append, List.length_cons, List.length_nil]; omega) h2
    exact ih h3

/-- C25. In every line the handler writes for inputs without escape character
(message, formatted time, source file name, attr keys and value texts), the color
codes are balanced: the line is a sequence of plain texts and of colored blocks, each
block being one text of the palette, a non-empty text without escape character and
the reset, followed by a non-empty plain text. With a palette of escape sequences
whose reset is `ESC[0m`, no reset is immediately followed by another escape. -/
theorem colors_well_formed {W : Type} (E : Env) (h : TextHandler W) (r : Record)
    (hmsg : ESC ∉ r.Message.data) (hts : ESC ∉ (E.Format r.Time E.TextTimeFormat).data)
    (hfile : ESC ∉ (E.CallersFrames r.PC).File.data)
    (hattrs : ∀ a ∈ r.attrs ++ h.attrs, ESC ∉ a.Key.data ∧ ESC ∉ a.Value.text.data) :
    Balanced E.Colors (h.line E r) ∧
    (E.Colors.sane → ¬ (E.Colors.Reset.data ++ [ESC]) <:+: (h.line E r).data) :=
  ⟨line_balanced E h r hmsg hts hfile hattrs,
   fun hP => balanced_no_reset_escape E.Colors hP _ (line_balanced E h r hmsg hts hfile hattrs)⟩

/-- C25, at a concrete input: the request scenario with coloring enabled and the
Dracula palette. -/
theorem colors_well_formed_witness :
    coloredHandler.noColor = false ∧
    Balanced exampleEnv.Colors (coloredHandler.line exampleEnv scenarioRecord) ∧
    ¬ (exampleEnv.Colors.Reset.data ++ [ESC]) <:+:
      (coloredHandler.line exampleEnv scenarioRecord).data :=
  ⟨rfl,
   (colors_well_formed exampleEnv coloredHandler scenarioRecord (by decide) (by decide)
      (by decide) (by decide)).1,
   (colors_well_formed exampleEnv coloredHandler scenarioRecord (by decide) (by decide)
      (by decide) (by decide)).2 (by unfold ColorPalette.sane; decide)⟩


/-! ### C31: the handlers `NewLoggerMultiHandler` builds -/

theorem buildLoop_text {W : Type} (os : OS) (stdout : Writer W) (t : Handler W)
    (rest : List (Handler W)) (stderr : List String) (acc : List (Child W)) (level : Level)
    (hk : t.Kind = LoggerTypeText) (hl : (optsOf t).Level = some level) :
    buildLoop os stdout (t :: rest) stderr acc =
      buildLoop os stdout rest (stderr ++ warningOf t)
        (acc ++ [Child.text { out := writerOf stdout t, level := level,
                              addSource := (optsOf t).AddSource, attrs := [], group := "",
                              noColor := noColorFromEnv os }]) := by
  obtain ⟨kind, writer, opts⟩ := t
  simp only at hk
  subst hk
  cases writer <;> cases opts <;>
    simp_all [buildLoop, warningOf, optsOf, writerOf, newTextHandler, LoggerType.String,
      LoggerTypeText]

theorem buildLoop_json {W : Type} (os : OS) (stdout : Writer W) (t : Handler W)
    (rest : List (Handler W)) (stderr : List String) (acc : List (Child W))
    (hk : t.Kind = LoggerTypeJSON) :
    buildLoop os stdout (t :: rest) stderr acc =
      buildLoop os stdout rest (stderr ++ warningOf t)
        (acc ++ [Child.json ⟨writerOf stdout t, optsOf t⟩]) := by
  obtain ⟨kind, writer, opts⟩ := t
  simp only at hk
  subst hk
  cases writer <;> cases opts <;>
    simp [buildLoop, warningOf, optsOf, writerOf, LoggerType.String, LoggerTypeText,
      LoggerTypeJSON]

theorem optsOf_level {W : Type} (t : Handler W)
    (hl : ∀ o, t.Opts = some o → o.Level ≠ none) : ∃ level, (optsOf t).Level = some level := by
  unfold optsOf
  cases ho : t.Opts with
  | none => exact ⟨LevelInfo, rfl⟩
  | some o =>
    cases hlv : o.Level with
    | none => exact absurd hlv (hl o ho)
    | some level => exact ⟨level, rfl⟩

theorem buildLoop_builds {W : Type} (os : OS) (stdout : Writer W) :
    ∀ (handlers : List (Handler W)) (stderr : List String) (acc : List (Child W)),
      (∀ t ∈ handlers, t.Kind = LoggerTypeText ∨ t.Kind = LoggerTypeJSON) →
      (∀ t ∈ handlers, t.Kind = LoggerTypeText → ∀ o, t.Opts = some o → o.Level ≠ none) →
      ∃ children, List.Forall₂ (Builds os stdout) handlers children ∧
        buildLoop os stdout handlers stderr acc =
          some (stderr ++ handlers.flatMap warningOf, acc ++ children) := by
  intro handlers
  induction handlers with
  | nil =>
    intro stderr acc _ _
    exact ⟨[], List.Forall₂.nil, by simp [buildLoop]⟩
  | cons t rest ih =>
    intro stderr acc hkind hlevel
    have hk' : ∀ u ∈ rest, u.Kind = LoggerTypeText ∨ u.Kind = LoggerTypeJSON :=
      fun u hu => hkind u (List.mem_cons_of_mem _ hu)
    have hl' : ∀ u ∈ rest, u.Kind = LoggerTypeText → ∀ o, u.Opts = some o → o.Level ≠ none :=
      fun u hu => hlevel u (List.mem_cons_of_mem _ hu)
    rcases hkind t (List.mem_cons_self _ _) with hk | hk
    · obtain ⟨level, hlv⟩ := optsOf_level t (hlevel t (List.mem_cons_self _ _) hk)
      obtain ⟨children, hb, he⟩ := ih (stderr ++ warningOf t)
        (acc ++ [Child.text { out := writerOf stdout t, level := level,
                              addSource := (optsOf t).AddSource, attrs := [], group := "",
                              noColor := noColorFromEnv os }]) hk' hl'
      refine ⟨_ :: children, List.Forall₂.cons (Or.inl ⟨hk, level, hlv, rfl⟩) hb, ?_⟩
      rw [buildLoop_text os stdout t rest stderr acc level hk hlv, he]
      simp [List.flatMap_cons]
    · obtain ⟨children, hb, he⟩ := ih (stderr ++ warningOf t)
        (acc ++ [Child.json ⟨writerOf stdout t, optsOf t⟩]) hk' hl'
      refine ⟨_ :: children, List.Forall₂.cons (Or.inr ⟨hk, rfl⟩) hb, ?_⟩
      rw [buildLoop_json os stdout t rest stderr acc hk, he]
      simp [List.flatMap_cons]

/-- With configurations of type Text or JSON, no text configuration carrying
options with a nil level, `NewLoggerMultiHandler` returns: it builds one handler per
configuration, in order; from one configuration the logger holds that handler, from
any other number a fan-out over all of them in order. -/
theorem NewLoggerMultiHandler_builds {W : Type} (os : OS) (stdout : Writer W)
    (handlers : List (Handler W))
    (hkind : ∀ t ∈ handlers, t.Kind = LoggerTypeText ∨ t.Kind = LoggerTypeJSON)
    (hlevel : ∀ t ∈ handlers, t.Kind = LoggerTypeText →
      ∀ o, t.Opts = some o → o.Level ≠ none) :
    ∃ children, List.Forall₂ (Builds os stdout) handlers children ∧
      children.length = handlers.length ∧
      (handlers.length = 1 → ∃ c, children = [c] ∧
        NewLoggerMultiHandler os stdout handlers =
          some (handlers.flatMap warningOf, Built.single c)) ∧
      (handlers.length ≠ 1 →
        NewLoggerMultiHandler os stdout handlers =
          some (handlers.flatMap warningOf, Built.fanout (setMultiHandlers children)) ∧
        (setMultiHandlers children).handlers = children) := by
  obtain ⟨children, hb, he⟩ := buildLoop_builds os stdout handlers [] [] hkind hlevel
  simp only [List.nil_append] at he
  have hlen := List.Forall₂.length_eq hb
  refine ⟨children, hb, hlen.symm, ?_, ?_⟩
  · intro h1
    obtain ⟨c, hc⟩ := List.length_eq_one.mp (hlen ▸ h1)
    refine ⟨c, hc, ?_⟩
    unfold NewLoggerMultiHandler
    rw [he]
    simp [h1, hc]
  · intro h1
    unfold NewLoggerMultiHandler
    rw [he]
    simp [h1, setMultiHandlers]

/-- The configurations of `TestNewLoggerMultiHandler_NullOpts` give a fan-out over a
text handler and a JSON handler, both at INFO without source capture; one
configuration alone gives its handler. -/
theorem NewLoggerMultiHandler_builds_example :
    (∃ children, List.Forall₂ (Builds noColorOS logWriter) nullOptsConfigs children ∧
      NewLoggerMultiHandler noColorOS logWriter nullOptsConfigs =
        some ([], Built.fanout (setMultiHandlers children)) ∧
      (setMultiHandlers children).handlers = children) ∧
    NewLoggerMultiHandler noColorOS logWriter nullOptsConfigs =
      some ([], Built.fanout (setMultiHandlers
        [Child.text { out := logWriter, level := LevelInfo, addSource := false, attrs := [],
                      group := "", noColor := true },
         Child.json ⟨logWriter, { Level := some LevelInfo, AddSource := false }⟩])) ∧
    NewLoggerMultiHandler noColorOS logWriter
        [{ Kind := LoggerTypeJSON, Writer := none, Opts := none }] =
      some (["[slog-human] warning: JSON handler has nil Writer - defaulting to os.Stdout\n"],
        Built.single (Child.json ⟨logWriter, { Level := some LevelInfo, AddSource := false }⟩)) := by
  refine ⟨?_, rfl, rfl⟩
  have hlevel : ∀ t ∈ nullOptsConfigs, t.Kind = LoggerTypeText →
      ∀ o, t.Opts = some o → o.Level ≠ none := by
    intro t ht _ o ho
    simp only [nullOptsConfigs, List.mem_cons, List.mem_singleton, List.not_mem_nil,
      or_false] at ht
    rcases ht with rfl | rfl <;> cases ho
  obtain ⟨children, hb, _, _, h2⟩ := NewLoggerMultiHandler_builds noColorOS logWriter
    nullOptsConfigs (by decide) hlevel
  exact ⟨children, hb, h2 (by decide)⟩

/-- C31, at the failing input: a text configuration whose options carry a nil level
makes `NewLoggerMultiHandler` panic in `newTextHandler`, alone or followed by other
configurations, whatever its sink; the same options in a JSON configuration give a
handler. -/
theorem NewLoggerMultiHandler_nil_Level_panics {W : Type} (os : OS) (stdout : Writer W)
    (w : Option (Writer W)) (addSource : Bool) (rest : List (Handler W)) :
    NewLoggerMultiHandler os stdout
      ({ Kind := LoggerTypeText, Writer := w, Opts := some ⟨none, addSource⟩ } :: rest) = none ∧
    NewLoggerMultiHandler os stdout
      [{ Kind := LoggerTypeJSON, Writer := w, Opts := some ⟨none, addSource⟩ }] =
      some (warningOf { Kind := LoggerTypeJSON, Writer := w, Opts := some ⟨none, addSource⟩ },
        Built.single (Child.json ⟨writerOf stdout
          { Kind := LoggerTypeJSON, Writer := w, Opts := some ⟨none, addSource⟩ },
          ⟨none, addSource⟩⟩)) := by
  constructor
  · cases w <;>
      simp [NewLoggerMultiHandler, buildLoop, newTextHandler, LoggerType.String, LoggerTypeText]
  · cases w <;> rfl

end SlogHuman
